import Mathlib

/-!
# CDXML molecule saver (`molecule_cdxml_saver.cpp`)

A shallow embedding of `indigo::MoleculeCdxmlSaver`.

* A `float` the saver holds or is passed is given by its value, a rational (`ℚ`), so it is
  finite. The arithmetic of `beginDocument` on the bounds (lines 56-66 of the source) is
  IEEE 754 single precision (binary32): every operation rounds its exact result to the
  nearest binary32 value, a tie going to the even significand (`binary32`), and a result
  that is an infinity or a NaN is `none`. The sign of zero is outside the model.
* The positions of atoms and of text are computed in exact rational arithmetic: rounding
  there is outside the model.
* `int` values are mathematical integers (`ℤ`). The conversion `(int)x` of a `float` is
  `castInt`: truncation toward zero when the result fits in 32 bits; otherwise the source
  has undefined behaviour and the model takes the value `-2 ^ 31` that the conversion
  instructions of x86-64 give. The other narrowing cast of the source, `(unsigned short)`,
  is the explicit reduction modulo `2 ^ 16` of `toUShort`.
* The output stream is the sequence of `printf` calls made on it, each recorded with its
  format string and its arguments; `Output.text` renders such a sequence to characters.
* A thrown `Error` ends the call; what was written before the throw stays written.
-/

namespace indigo

/-! ## Collaborators of the saver -/

/-- Modelled from the spec: `Vec2f` (declared in `math/algebra.h`, which is not part of the
sources at hand), a pair of coordinates whose default constructor gives the origin. -/
structure Vec2f where
  x : ℚ
  y : ℚ
  deriving DecidableEq

/-- Modelled from the spec: `Vec3f` (declared in `math/algebra.h`), a triple of coordinates
whose default constructor gives the origin. -/
structure Vec3f where
  x : ℚ
  y : ℚ
  z : ℚ
  deriving DecidableEq

namespace Vec2f

/-- Modelled from the spec: `Vec2f::add`, component-wise sum. -/
def add (a b : Vec2f) : Vec2f := ⟨a.x + b.x, a.y + b.y⟩

/-- Modelled from the spec: `Vec2f::min`, component-wise minimum. -/
def min (a b : Vec2f) : Vec2f := ⟨Min.min a.x b.x, Min.min a.y b.y⟩

/-- Modelled from the spec: `Vec2f::max`, component-wise maximum. -/
def max (a b : Vec2f) : Vec2f := ⟨Max.max a.x b.x, Max.max a.y b.y⟩

/-- Modelled from the spec: `Vec2f::scale`, multiplication of both components. -/
def scale (a : Vec2f) (s : ℚ) : Vec2f := ⟨a.x * s, a.y * s⟩

end Vec2f

namespace Vec3f

/-- Modelled from the spec: `Vec3f::add`, component-wise sum. -/
def add (a b : Vec3f) : Vec3f := ⟨a.x + b.x, a.y + b.y, a.z + b.z⟩

/-- Modelled from the spec: `Vec3f::sub`, component-wise difference. -/
def sub (a b : Vec3f) : Vec3f := ⟨a.x - b.x, a.y - b.y, a.z - b.z⟩

/-- Modelled from the spec: `Vec3f::min`, component-wise minimum. -/
def min (a b : Vec3f) : Vec3f := ⟨Min.min a.x b.x, Min.min a.y b.y, Min.min a.z b.z⟩

/-- Modelled from the spec: `Vec3f::max`, component-wise maximum. -/
def max (a b : Vec3f) : Vec3f := ⟨Max.max a.x b.x, Max.max a.y b.y, Max.max a.z b.z⟩

/-- Modelled from the spec: `Vec3f::set(0, 0, 0)` and the default constructor. -/
def zero : Vec3f := ⟨0, 0, 0⟩

end Vec3f

/-- Modelled from the spec: `RADICAL_SINGLET` of `molecule/base_molecule.h`. -/
def RADICAL_SINGLET : ℤ := 1

/-- Modelled from the spec: `RADICAL_DOUBLET` of `molecule/base_molecule.h`. -/
def RADICAL_DOUBLET : ℤ := 2

/-- Modelled from the spec: `ELEM_C` of `molecule/elements.h`, the atomic number of carbon. -/
def ELEM_C : ℤ := 6

/-- Modelled from the spec: `BOND_DOUBLE` of `molecule/base_molecule.h`. -/
def BOND_DOUBLE : ℤ := 2

/-- Modelled from the spec: `BOND_TRIPLE` of `molecule/base_molecule.h`. -/
def BOND_TRIPLE : ℤ := 3

/-- Modelled from the spec: `BOND_AROMATIC` of `molecule/base_molecule.h`. -/
def BOND_AROMATIC : ℤ := 4

/-- Modelled from the spec: `BOND_UP` of `molecule/base_molecule.h` (wedge-up direction). -/
def BOND_UP : ℤ := 1

/-- Modelled from the spec: `BOND_DOWN` of `molecule/base_molecule.h` (wedge-down direction). -/
def BOND_DOWN : ℤ := 2

namespace MoleculeCisTrans

/-- Modelled from the spec: `MoleculeCisTrans::CIS`. -/
def CIS : ℤ := 1

/-- Modelled from the spec: `MoleculeCisTrans::TRANS`. -/
def TRANS : ℤ := 2

end MoleculeCisTrans

namespace MoleculeStereocenters

/-- Modelled from the spec: `MoleculeStereocenters::ATOM_ANY`, the weakest stereocenter type;
the tetrahedral types are the larger values. -/
def ATOM_ANY : ℤ := 1

end MoleculeStereocenters

/-- Modelled from the spec: the four-slot `int` arrays returned by
`MoleculeStereocenters::getPyramid` and `MoleculeCisTrans::getSubstituents`. -/
structure Quad where
  s0 : ℤ
  s1 : ℤ
  s2 : ℤ
  s3 : ℤ
  deriving DecidableEq

/-- Modelled from the spec: what the accessors of `Molecule` answer for one atom.
`totalH = none` stands for `getAtomTotalH` throwing. -/
structure Atom where
  isRSite : Bool
  number : ℤ
  isotope : ℤ
  charge : ℤ
  radical : ℤ
  shouldWriteHCount : Bool
  totalH : Option ℤ
  xyz : Vec3f
  stereoType : ℤ
  pyramid : Quad
  isPseudoAtom : Bool
  degree : ℕ

/-- Modelled from the spec: what the accessors of `Molecule` answer for one bond
(`getEdge`, `getBondOrder`, `getBondDirection`, `cis_trans.getParity`,
`cis_trans.getSubstituents`). -/
structure Edge where
  beg : ℤ
  end_ : ℤ
  order : ℤ
  direction : ℤ
  parity : ℤ
  subst : Quad

/-- Modelled from the spec: the read-only view of `Molecule` the saver uses. Atoms and bonds
are indexed densely from 0 in list order, so `vertexBegin()` is 0. -/
structure Molecule where
  atoms : List Atom
  edges : List Edge
  have_xyz : Bool
  chiral : Bool

/-! ## The output stream -/

/-- One argument of a `printf` call, tagged with the conversion that consumes it. -/
inductive Arg where
  /-- An `int` printed with `%d`. -/
  | d (n : ℤ)
  /-- A `float` printed with `%f`. -/
  | f (q : ℚ)
  /-- A string printed with `%s`. -/
  | s (str : String)
  /-- An `unsigned short` printed with `%04hx`. -/
  | hx (u : ℤ)
  deriving DecidableEq

/-- One `_output.printf(fmt, args...)` call. -/
structure Printf where
  fmt : String
  args : List Arg
  deriving DecidableEq

/-- What has been written to the stream: the `printf` calls in order. -/
abbrev Output := List Printf

/-- The cast `(unsigned short)v` of an `int`. -/
def toUShort (v : ℤ) : ℤ := v % 65536

/-- One lowercase hexadecimal digit. -/
def hexDigit (n : ℕ) : Char :=
  if n < 10 then Char.ofNat (48 + n) else Char.ofNat (87 + n)

/-- The text `%04hx` gives an `unsigned short`: four zero-padded lowercase hex digits. -/
def hex4 (u : ℤ) : List Char :=
  let n := u.toNat
  [hexDigit (n / 4096 % 16), hexDigit (n / 256 % 16), hexDigit (n / 16 % 16), hexDigit (n % 16)]

/-- The text of one argument; the rendering of `%f` depends on the locale in force and is a
parameter. -/
def Arg.text (fmtF : ℚ → String) : Arg → List Char
  | .d n => (toString n).data
  | .f q => (fmtF q).data
  | .s str => str.data
  | .hx u => hex4 u

/-- Expansion of a format string: outside a conversion specification characters are copied
and `%` opens a specification, which consumes the next argument; inside one, characters are
skipped up to the conversion letter (`d`, `f`, `s` or `x`). -/
def expand (fmtF : ℚ → String) : Bool → List Char → List Arg → List Char
  | _, [], _ => []
  | false, c :: cs, as =>
    if c = '%' then
      match as with
      | [] => expand fmtF true cs []
      | a :: rest => a.text fmtF ++ expand fmtF true cs rest
    else c :: expand fmtF false cs as
  | true, c :: cs, as =>
    if c = 'd' ∨ c = 'f' ∨ c = 's' ∨ c = 'x' then expand fmtF false cs as
    else expand fmtF true cs as

/-- The characters one `printf` call writes. -/
def Printf.text (fmtF : ℚ → String) (p : Printf) : List Char :=
  expand fmtF false p.fmt.data p.args

/-- The characters a sequence of `printf` calls writes. -/
def Output.text (fmtF : ℚ → String) : Output → List Char
  | [] => []
  | p :: ps => p.text fmtF ++ Output.text fmtF ps

/-! ## Single-precision arithmetic -/

/-- Truncation toward zero: the conversion `(int)x` of a `float` whose truncation fits in
an `int`. -/
def floatToInt (q : ℚ) : ℤ := if 0 ≤ q then ⌊q⌋ else ⌈q⌉

/-- The integer nearest to a rational, a tie going to the even neighbour. -/
def roundEven (q : ℚ) : ℤ :=
  if q - ⌊q⌋ < 1 / 2 then ⌊q⌋
  else if 1 / 2 < q - ⌊q⌋ then ⌊q⌋ + 1
  else if ⌊q⌋ % 2 = 0 then ⌊q⌋ else ⌊q⌋ + 1

/-- The spacing of the binary32 values around `q`: `2 ^ (e - 23)`, where `e` is the exponent
of `q` (`2 ^ e ≤ |q| < 2 ^ (e + 1)`) and at least -126, the exponent of the subnormal
values. -/
def ulp32 (q : ℚ) : ℚ := (2 : ℚ) ^ (max (Int.log 2 |q|) (-126) - 23)

/-- The multiple of the spacing nearest to `q`, a tie going to the even significand: `q`
rounded to binary32 when the exponent range has no upper bound. -/
def round32 (q : ℚ) : ℚ := roundEven (q / ulp32 q) * ulp32 q

/-- The result of a binary32 operation whose exact value is `q`: the rounded value when
it is finite, that is below `2 ^ 128` in magnitude; `none` stands for an infinity. -/
def binary32 (q : ℚ) : Option ℚ := if |round32 q| < 2 ^ 128 then some (round32 q) else none

/-- The product `a * y` of `float` values, `y` finite; `none` is an infinity or a NaN. -/
def fmul (a : Option ℚ) (y : ℚ) : Option ℚ := a.bind fun x => binary32 (x * y)

/-- The quotient `a / y` of `float` values, `y` finite; the quotient by zero is an infinity
or a NaN. -/
def fdiv (a : Option ℚ) (y : ℚ) : Option ℚ :=
  a.bind fun x => if y = 0 then none else binary32 (x / y)

/-- The sum `a + y` of `float` values, `y` finite. -/
def fadd (a : Option ℚ) (y : ℚ) : Option ℚ := a.bind fun x => binary32 (x + y)

/-- The function `ceil`; the ceiling of a finite binary32 value is one again, and that of
an infinity or a NaN is itself. -/
def fceil (a : Option ℚ) : Option ℚ := a.map fun x => ((⌈x⌉ : ℤ) : ℚ)

/-- The conversion of an `int` to `float`; it is finite for every 32-bit value. -/
def intToFloat (n : ℤ) : ℚ := round32 n

/-- The conversion `(int)x` of a `float`: truncation toward zero when that fits in 32 bits.
For every other value, an infinity and a NaN included, the source has undefined behaviour;
the value taken is `-2 ^ 31`, which the conversion instructions of x86-64 give. -/
def castInt : Option ℚ → ℤ
  | none => -2147483648
  | some q =>
    if -2147483648 ≤ floatToInt q ∧ floatToInt q < 2147483648 then floatToInt q
    else -2147483648

/-! ## Calls that may throw -/

/-- The errors `MoleculeCdxmlSaver::Error` is thrown with, one constructor per message. -/
inductive Error where
  /-- Thrown with the message `R-sites are not supported`. -/
  | rsite
  /-- Thrown with the message `Radical type %d is not supported`. -/
  | radical (r : ℤ)
  /-- Thrown with the message `Pseudoatoms are not supported yet`. -/
  | pseudo
  deriving DecidableEq

/-- The effect of a call that may throw: what it wrote, and its value or the error thrown. -/
structure Step (α : Type) where
  out : Output
  res : Except Error α

/-! ## The saver -/

/-- The fields of `MoleculeCdxmlSaver` other than the stream. -/
structure MoleculeCdxmlSaver where
  _bond_length : ℚ
  _max_page_height : ℚ
  _pages_height : ℤ
  deriving DecidableEq

/-- The argument `Bounds *bounds` when it is not `NULL`. -/
structure Bounds where
  min : Vec2f
  max : Vec2f

namespace MoleculeCdxmlSaver

/-- The constructor `MoleculeCdxmlSaver (Output &output)`. -/
def new : MoleculeCdxmlSaver :=
  { _bond_length := 30, _max_page_height := 64, _pages_height := 1 }

/-- The method `pageHeight`. -/
def pageHeight (sv : MoleculeCdxmlSaver) : ℚ := sv._max_page_height

/-- The method `textLineHeight`: the single-precision quotient `12.75f / _bond_length`. -/
def textLineHeight (sv : MoleculeCdxmlSaver) : Option ℚ := fdiv (some (51 / 4)) sv._bond_length

/-- The local `dpi_logical` of `beginDocument`. -/
def dpi_logical : ℤ := 72

/-- The local `dpi_print` of `beginDocument`. -/
def dpi_print : ℤ := 600

/-- The local `x_inch` of `beginDocument`; the `int` operands `dpi_logical` and `1` are
converted to `float`. -/
def x_inch (sv : MoleculeCdxmlSaver) (bounds : Bounds) : Option ℚ :=
  fadd (fdiv (fmul (some bounds.max.x) sv._bond_length) (intToFloat dpi_logical))
    (intToFloat 1)

/-- The local `y_inch` of `beginDocument`. -/
def y_inch (sv : MoleculeCdxmlSaver) (bounds : Bounds) : Option ℚ :=
  fadd (fdiv (fmul (some bounds.max.y) sv._bond_length) (intToFloat dpi_logical))
    (intToFloat 1)

/-- The local `width` of `beginDocument`. -/
def width (sv : MoleculeCdxmlSaver) (bounds : Bounds) : ℤ :=
  castInt (fmul (x_inch sv bounds) (intToFloat dpi_print))

/-- The local `height` of `beginDocument` as first computed, before the page test. -/
def height (sv : MoleculeCdxmlSaver) (bounds : Bounds) : ℤ :=
  castInt (fmul (y_inch sv bounds) (intToFloat dpi_print))

/-- The local `max_height` of `beginDocument`. -/
def max_height (sv : MoleculeCdxmlSaver) : ℤ :=
  castInt (fmul
    (fadd (fdiv (fmul (some sv._max_page_height) sv._bond_length) (intToFloat dpi_logical))
      (intToFloat 1))
    (intToFloat dpi_print))

/-- The value `(int)ceil((float)height / max_height)` of `beginDocument`: both operands of
the quotient are converted to `float`. -/
def pageCount (height max_height : ℤ) : ℤ :=
  castInt (fceil (fdiv (some (intToFloat height)) (intToFloat max_height)))

/-- The value of `_pages_height` after the page test of `beginDocument`. -/
def pagesAfter (sv : MoleculeCdxmlSaver) (bounds : Bounds) : ℤ :=
  if height sv bounds > max_height sv then pageCount (height sv bounds) (max_height sv)
  else sv._pages_height

/-- The value of the local `height` after the page test of `beginDocument`. -/
def heightAfter (sv : MoleculeCdxmlSaver) (bounds : Bounds) : ℤ :=
  if height sv bounds > max_height sv then max_height sv else height sv bounds

/-- The array `mac_print_info` of `beginDocument` for the final `height` and `width`: 60
slots set to 0, then the assignments of the source in their order; `/` on `int` truncates
toward zero. -/
def mac_print_info (height width : ℤ) : List ℤ :=
  let a0 : List ℤ := List.replicate 60 0
  let a1 := a0.set 0 3
  let a2 := a1.set 2 dpi_print
  let a3 := a2.set 3 dpi_print
  let a4 := a3.set 6 height
  let a5 := a4.set 7 width
  let a6 := a5.set 10 height
  let a7 := a6.set 11 width
  let a8 := a7.set 12 871
  let a9 := a8.set 13 (Int.tdiv height 5)
  let a10 := a9.set 14 (Int.tdiv width 5)
  let a11 := a10.set 24 100
  a11.set 25 100

/-- The loop of `beginDocument` over `mac_print_info`: one `%04hx` call per slot. -/
def printMacPrintInfo : List ℤ → Output
  | [] => []
  | v :: rest => ⟨"%04hx", [.hx (toUShort v)]⟩ :: printMacPrintInfo rest

/-- The method `beginDocument`: what it writes and the saver it leaves. -/
def beginDocument (sv : MoleculeCdxmlSaver) (bounds : Option Bounds) :
    Output × MoleculeCdxmlSaver :=
  let head : Output :=
    [⟨"<?xml version=\"1.0\" encoding=\"UTF-8\" ?>\n", []⟩,
     ⟨"<!DOCTYPE CDXML SYSTEM \"http://www.cambridgesoft.com/xml/cdxml.dtd\" >\n", []⟩,
     ⟨"<CDXML _bond_length=\"%f\"", [.f sv._bond_length]⟩]
  match bounds with
  | some b =>
    (head ++
      [⟨" PrintMargins=\"36 36 36 36\"\n", []⟩, ⟨" MacPrintInfo=\"", []⟩] ++
      printMacPrintInfo (mac_print_info (heightAfter sv b) (width sv b)) ++
      [⟨"\"\n", []⟩, ⟨">\n", []⟩],
     { sv with _pages_height := pagesAfter sv b })
  | none => (head ++ [⟨">\n", []⟩], sv)

/-- The method `beginPage`; its argument is not used. -/
def beginPage (sv : MoleculeCdxmlSaver) (_bounds : Option Bounds) : Output :=
  [⟨"<page ", []⟩,
   ⟨"HeightPages=\"%d\" WidthPages=\"1\"", [.d sv._pages_height]⟩,
   ⟨">\n", []⟩]

/-- The three-argument method `addText`. -/
def addText3 (sv : MoleculeCdxmlSaver) (pos : Vec2f) (text alignment : String) : Output :=
  [⟨"<t p=\"%f %f\" Justification=\"%s\"><s>%s</s></t>\n",
    [.f (sv._bond_length * pos.x), .f ((-sv._bond_length) * pos.y), .s alignment, .s text]⟩]

/-- The two-argument method `addText`. -/
def addText (sv : MoleculeCdxmlSaver) (pos : Vec2f) (text : String) : Output :=
  addText3 sv pos text "Center"

/-- The `Radical` attribute of `saveMoleculeFragment`: nothing for radical 0, the attribute
for a doublet or a singlet, a throw for any other value. -/
def radicalAttr (radical : ℤ) : Except Error Output :=
  if radical ≠ 0 then
    if radical = RADICAL_DOUBLET then .ok [⟨" Radical=\"%s\"", [.s "Doublet"]⟩]
    else if radical = RADICAL_SINGLET then .ok [⟨" Radical=\"%s\"", [.s "Singlet"]⟩]
    else .error (.radical radical)
  else .ok []

/-- The `NumHydrogens` attribute of `saveMoleculeFragment`: a throw of `getAtomTotalH` is
caught and turned into the count `-1`. -/
def hcountAttr (a : Atom) : Output :=
  if a.shouldWriteHCount then
    let hcount : ℤ := match a.totalH with
      | some h => h
      | none => -1
    if hcount ≥ 0 then [⟨" NumHydrogens=\"%d\"", [.d hcount]⟩] else []
  else []

/-- The start of an atom in `saveMoleculeFragment`: the opening of the `n` element with its
`id` and `Element`, then `Isotope` and `Charge` when they are not 0. -/
def atomHead (i : ℕ) (a : Atom) : Output :=
  let atom_number := a.number
  let charge := a.charge
  [⟨"    <n id=\"%d\" Element=\"%d\"", [.d ((i : ℤ) + 1), .d atom_number]⟩] ++
  (if a.isotope ≠ 0 then [⟨" Isotope=\"%d\"", [.d a.isotope]⟩] else []) ++
  (if charge ≠ 0 then [⟨" Charge=\"%d\"", [.d charge]⟩] else [])

/-- The position of an atom in `saveMoleculeFragment`, for the scaled `pos`: the attribute
`p` when the molecule has coordinates, else `Geometry` and `BondOrdering` for a stereocenter
above `ATOM_ANY`. -/
def positionAttr (have_hyz : Bool) (pos : Vec2f) (a : Atom) : Output :=
  if have_hyz then [⟨"\n         p=\"%f %f\"", [.f pos.x, .f (-pos.y)]⟩]
  else if a.stereoType > MoleculeStereocenters.ATOM_ANY then
    let pyramid := a.pyramid
    [⟨" Geometry=\"Tetrahedral\"", []⟩,
     ⟨" BondOrdering=\"%d %d %d %d\"",
       [.d (pyramid.s0 + 1), .d (pyramid.s1 + 1), .d (pyramid.s2 + 1), .d (pyramid.s3 + 1)]⟩]
  else []

/-- The end of an atom in `saveMoleculeFragment`, for the scaled `pos`: the `CH4` label and
the closing tag for a lone neutral carbon without radical, else the end of the empty
element. -/
def atomClose (pos : Vec2f) (a : Atom) : Output :=
  let atom_number := a.number
  let charge := a.charge
  let radical := a.radical
  if a.degree = 0 ∧ atom_number = ELEM_C ∧ charge = 0 ∧ radical = 0 then
    [⟨">\n", []⟩,
     ⟨"<t p=\"%f %f\" Justification=\"Center\"><s font=\"3\" size=\"10\" face=\"96\">CH4</s></t>\n",
       [.f pos.x, .f (-pos.y)]⟩,
     ⟨"</n>\n", []⟩]
  else [⟨"/>\n", []⟩]

/-- The body of the atom loop of `saveMoleculeFragment` for atom `i`, entered with the
running `min_coord` and `max_coord`; on success it returns their new values. -/
def saveAtom (scale : ℚ) (have_hyz : Bool) (offset : Vec2f) (i : ℕ) (a : Atom)
    (min_coord max_coord : Vec2f) : Step (Vec2f × Vec2f) :=
  if a.isRSite then ⟨[], .error .rsite⟩
  else
    match radicalAttr a.radical with
    | .error e => ⟨atomHead i a, .error e⟩
    | .ok orad =>
      let pos3 := a.xyz
      let pos0 : Vec2f := ⟨pos3.x, pos3.y⟩
      let pos1 := pos0.add offset
      let box : Vec2f × Vec2f :=
        if i = 0 then (pos1, pos1) else (min_coord.min pos1, max_coord.max pos1)
      let pos := pos1.scale scale
      if a.isPseudoAtom then
        ⟨atomHead i a ++ orad ++ hcountAttr a ++ positionAttr have_hyz pos a, .error .pseudo⟩
      else
        ⟨atomHead i a ++ orad ++ hcountAttr a ++ positionAttr have_hyz pos a ++ atomClose pos a,
          .ok box⟩

/-- The atom loop of `saveMoleculeFragment` from atom `i` on, over the atoms still to visit;
the first throw ends it. -/
def saveAtoms (scale : ℚ) (have_hyz : Bool) (offset : Vec2f) :
    ℕ → List Atom → Vec2f → Vec2f → Step (Vec2f × Vec2f)
  | _, [], min_coord, max_coord => ⟨[], .ok (min_coord, max_coord)⟩
  | i, a :: rest, min_coord, max_coord =>
    match saveAtom scale have_hyz offset i a min_coord max_coord with
    | ⟨o, .error e⟩ => ⟨o, .error e⟩
    | ⟨o, .ok box⟩ =>
      let r := saveAtoms scale have_hyz offset (i + 1) rest box.1 box.2
      ⟨o ++ r.out, r.res⟩

/-- The `Order` attribute of a bond in `saveMoleculeFragment`. -/
def bondOrderAttr (order : ℤ) : Output :=
  if order = BOND_DOUBLE ∨ order = BOND_TRIPLE then [⟨" Order=\"%d\"", [.d order]⟩]
  else if order = BOND_AROMATIC then [⟨" Order=\"1.5\"", []⟩]
  else []

/-- The `Display` or `BondCircularOrdering` attribute of a bond in `saveMoleculeFragment`. -/
def bondStereoAttr (have_xyz : Bool) (edge : Edge) : Output :=
  let dir := edge.direction
  let parity := edge.parity
  if have_xyz = true ∧ (dir = BOND_UP ∨ dir = BOND_DOWN) then
    [⟨" Display=\"%s\"", [.s (if dir = BOND_UP then "WedgeBegin" else "WedgedHashBegin")]⟩]
  else if have_xyz = false ∧ parity ≠ 0 then
    let subst := edge.subst
    let s3 := subst.s2 + 1
    let s4 := subst.s3 + 1
    let sw : ℤ × ℤ := if parity = MoleculeCisTrans.TRANS then (s4, s3) else (s3, s4)
    [⟨" BondCircularOrdering=\"%d %d %d %d\"",
      [.d (subst.s0 + 1), .d (subst.s1 + 1), .d sw.1, .d sw.2]⟩]
  else []

/-- The body of the bond loop of `saveMoleculeFragment`. -/
def saveBond (have_xyz : Bool) (edge : Edge) : Output :=
  [⟨"    <b B=\"%d\" E=\"%d\"", [.d (edge.beg + 1), .d (edge.end_ + 1)]⟩] ++
  bondOrderAttr edge.order ++
  bondStereoAttr have_xyz edge ++
  [⟨"/>\n", []⟩]

/-- The bond loop of `saveMoleculeFragment`. -/
def saveBonds (have_xyz : Bool) : List Edge → Output
  | [] => []
  | edge :: rest => saveBond have_xyz edge ++ saveBonds have_xyz rest

/-- The chirality mark of `saveMoleculeFragment`, written when `isChrial()` holds, for the
`max_coord` the atom loop ended with. -/
def chiralMark (sv : MoleculeCdxmlSaver) (scale : ℚ) (max_coord : Vec2f) : Output :=
  let chiral_pos : Vec2f := ⟨max_coord.x, max_coord.y⟩
  let bbox : Vec2f := ⟨scale * chiral_pos.x, (-scale) * chiral_pos.y⟩
  [⟨"<graphic BoundingBox=\"%f %f %f %f\" GraphicType=\"Symbol\" SymbolType=\"Absolute\" FrameType=\"None\">\n",
     [.f bbox.x, .f bbox.y, .f bbox.x, .f bbox.y]⟩] ++
  addText sv chiral_pos "Chiral" ++
  [⟨"</graphic>\n", []⟩]

/-- The method `saveMoleculeFragment`. -/
def saveMoleculeFragment (sv : MoleculeCdxmlSaver) (mol : Molecule) (offset : Vec2f)
    (structure_scale : ℚ) : Step Unit :=
  let scale := structure_scale * sv._bond_length
  let o0 : Output := [⟨"<fragment>\n", []⟩]
  let have_hyz := mol.have_xyz
  match saveAtoms scale have_hyz offset 0 mol.atoms ⟨0, 0⟩ ⟨0, 0⟩ with
  | ⟨oa, .error e⟩ => ⟨o0 ++ oa, .error e⟩
  | ⟨oa, .ok box⟩ =>
    let max_coord := box.2
    let ob := saveBonds mol.have_xyz mol.edges
    let oc : Output := if mol.chiral then chiralMark sv scale max_coord else []
    ⟨o0 ++ oa ++ ob ++ oc ++ [⟨"</fragment>\n", []⟩], .ok ()⟩

/-- The method `endPage`. -/
def endPage : Output := [⟨"</page>\n", []⟩]

/-- The method `endDocument`. -/
def endDocument : Output := [⟨"</CDXML>\n", []⟩]

/-- The bounding box `saveMolecule` computes before it adds the margins: the loop over the
atoms, from atom `i` on. -/
def xyzBox : ℕ → List Atom → Vec3f → Vec3f → Vec3f × Vec3f
  | _, [], min_coord, max_coord => (min_coord, max_coord)
  | i, a :: rest, min_coord, max_coord =>
    let pos := a.xyz
    if i = 0 then xyzBox (i + 1) rest pos pos
    else xyzBox (i + 1) rest (min_coord.min pos) (max_coord.max pos)

/-- The offset `saveMolecule` passes to `saveMoleculeFragment`. -/
def saveMoleculeOffset (mol : Molecule) : Vec2f :=
  let box : Vec3f × Vec3f :=
    if mol.have_xyz then
      let b := xyzBox 0 mol.atoms Vec3f.zero Vec3f.zero
      (b.1.sub ⟨1, 1, 1⟩, b.2.add ⟨1, 1, 1⟩)
    else (Vec3f.zero, Vec3f.zero)
  ⟨-box.1.x, -box.2.y⟩

/-- The calls `beginDocument`, `beginPage`, `saveMoleculeFragment`, `endPage` and
`endDocument` in a row; a throw of `saveMoleculeFragment` ends the sequence. The result is
what was written, the error if one was thrown, and the saver left behind. -/
def session (sv : MoleculeCdxmlSaver) (bounds : Option Bounds) (mol : Molecule)
    (offset : Vec2f) (structure_scale : ℚ) : Output × Option Error × MoleculeCdxmlSaver :=
  let d := beginDocument sv bounds
  let pg := beginPage d.2 bounds
  let fr := saveMoleculeFragment d.2 mol offset structure_scale
  match fr.res with
  | .error e => (d.1 ++ pg ++ fr.out, some e, d.2)
  | .ok _ => (d.1 ++ pg ++ fr.out ++ endPage ++ endDocument, none, d.2)

/-- The method `saveMolecule`. -/
def saveMolecule (sv : MoleculeCdxmlSaver) (mol : Molecule) :
    Output × Option Error × MoleculeCdxmlSaver :=
  session sv none mol (saveMoleculeOffset mol) 1

/-! ## Vocabulary of the statements -/

/-- An atom on which the atom loop throws: an R-site, a pseudoatom, or a radical that is
neither absent, nor a doublet, nor a singlet. -/
def unsupported (a : Atom) : Prop :=
  a.isRSite = true ∨ a.isPseudoAtom = true ∨
    (a.radical ≠ 0 ∧ a.radical ≠ RADICAL_DOUBLET ∧ a.radical ≠ RADICAL_SINGLET)

instance (a : Atom) : Decidable (unsupported a) := by
  unfold unsupported
  exact inferInstance

/-- What the atom loop writes for atom `i` alone. -/
def atomBlock (scale : ℚ) (have_hyz : Bool) (offset : Vec2f) (i : ℕ) (a : Atom) : Output :=
  (saveAtom scale have_hyz offset i a ⟨0, 0⟩ ⟨0, 0⟩).out

/-- What the atom loop writes for the atoms before atom `i`. -/
def atomsBefore (scale : ℚ) (have_hyz : Bool) (offset : Vec2f) (i : ℕ) (mol : Molecule) :
    Output :=
  (saveAtoms scale have_hyz offset 0 (mol.atoms.take i) ⟨0, 0⟩ ⟨0, 0⟩).out

/-- The `printf` call that writes a `BondCircularOrdering` attribute. -/
def evBondCircularOrdering (a b c d : ℤ) : Printf :=
  ⟨" BondCircularOrdering=\"%d %d %d %d\"", [.d a, .d b, .d c, .d d]⟩

/-- The `printf` call that writes a `BondOrdering` attribute. -/
def evBondOrdering (a b c d : ℤ) : Printf :=
  ⟨" BondOrdering=\"%d %d %d %d\"", [.d a, .d b, .d c, .d d]⟩

/-- The `printf` call that writes the position attribute `p` of an atom. -/
def evPosition (x y : ℚ) : Printf := ⟨"\n         p=\"%f %f\"", [.f x, .f y]⟩

/-- The scaled position of an atom, the local `pos` of the atom loop after `pos.scale`. -/
def atomPos (scale : ℚ) (offset : Vec2f) (a : Atom) : Vec2f :=
  ((⟨a.xyz.x, a.xyz.y⟩ : Vec2f).add offset).scale scale

/-- The slot rule as the specification words it: a pyramid slot holding 0 is written as 0,
any other slot as its value plus one. -/
def specBondOrderingSlot (p : ℤ) : ℤ := if p = 0 then 0 else p + 1

/-- The format string of the `printf` call that opens an atom. -/
def atomMarkerFmt : String := "    <n id=\"%d\" Element=\"%d\""

/-- The format string of the `printf` call that opens a bond. -/
def bondMarkerFmt : String := "    <b B=\"%d\" E=\"%d\""

/-- The format string of the `printf` call that closes the fragment. -/
def fragmentCloseFmt : String := "</fragment>\n"

/-- The format string of the `printf` call that writes the `CH4` label. -/
def ch4LabelFmt : String :=
  "<t p=\"%f %f\" Justification=\"Center\"><s font=\"3\" size=\"10\" face=\"96\">CH4</s></t>\n"

/-- The format strings of the `printf` calls that write the attributes of an atom. -/
def attrFmts : List String :=
  [" Isotope=\"%d\"", " Charge=\"%d\"", " Radical=\"%s\"", " NumHydrogens=\"%d\"",
   "\n         p=\"%f %f\"", " Geometry=\"Tetrahedral\"", " BondOrdering=\"%d %d %d %d\""]

/-- The format strings of the `printf` calls that end an atom. -/
def closeFmts : List String := [">\n", ch4LabelFmt, "</n>\n", "/>\n"]

/-- The format strings of the `printf` calls of the atom loop other than the one that opens
an atom. -/
def atomAttrFmts : List String := attrFmts ++ closeFmts

/-- The first three `printf` calls of `beginDocument`: the XML declaration, the document
type and the opening of the root element with its length unit. -/
def documentHead (sv : MoleculeCdxmlSaver) : Output :=
  [⟨"<?xml version=\"1.0\" encoding=\"UTF-8\" ?>\n", []⟩,
   ⟨"<!DOCTYPE CDXML SYSTEM \"http://www.cambridgesoft.com/xml/cdxml.dtd\" >\n", []⟩,
   ⟨"<CDXML _bond_length=\"%f\"", [.f sv._bond_length]⟩]

/-- The print-settings table as the specification words it: what slot `i` holds for the
final `height` and `width`. -/
def specSlot (height width : ℤ) (i : ℕ) : ℤ :=
  if i = 0 then 3
  else if i = 2 ∨ i = 3 then 600
  else if i = 6 ∨ i = 10 then height
  else if i = 7 ∨ i = 11 then width
  else if i = 12 then 871
  else if i = 13 then Int.tdiv height 5
  else if i = 14 then Int.tdiv width 5
  else if i = 24 ∨ i = 25 then 100
  else 0

/-- The concatenation, in slot order, of the four-digit hexadecimal text of each slot
reduced modulo `2 ^ 16`. -/
def hexText : List ℤ → List Char
  | [] => []
  | v :: rest => hex4 (v % 65536) ++ hexText rest

/-- The value of a lowercase hexadecimal digit. -/
def hexDigitVal (c : Char) : ℕ :=
  if c.toNat < 58 then c.toNat - 48 else c.toNat - 87

/-- The number a string of hexadecimal digits denotes, most significant digit first. -/
def hexValue (cs : List Char) : ℕ :=
  cs.foldl (fun acc c => 16 * acc + hexDigitVal c) 0

/-- The height as the specification words it: the truncation of
`(y * lengthUnit / 72 + 1) * 600`, the formula read in exact arithmetic. -/
def specHeight (lengthUnit y : ℚ) : ℤ := floatToInt ((y * lengthUnit / 72 + 1) * 600)

/-- The page count as the specification words it: the ceiling of the exact quotient
`height / maxHeight`. -/
def specPages (height maxHeight : ℤ) : ℤ := ⌈(height : ℚ) / (maxHeight : ℚ)⌉

/-- Bounds whose max corner is `(3, 100.001)` in single precision: the binary32 value
nearest to 100.001 is `13107331 / 131072`. With the length unit 30 the height is 25600
print dots, above the 16600 of a page. -/
def tallBounds : Bounds := { min := ⟨0, 0⟩, max := ⟨3, 13107331 / 131072⟩ }

/-- Bounds whose max corner is `(3, 10)`; with the length unit 30 the height is 3100 print
dots, within a page. -/
def shortBounds : Bounds := { min := ⟨0, 0⟩, max := ⟨3, 10⟩ }

/-- Bounds whose max corner is `(3, 1392.00390625)`, a binary32 value; in exact arithmetic
the height is 348600 print dots, 21 pages of 16600. -/
def roundedBounds : Bounds := { min := ⟨0, 0⟩, max := ⟨3, 356353 / 256⟩ }

/-- Bounds whose max corner is `(3, 19)`; in exact arithmetic the height is 5350 print
dots, within a page. -/
def lowBounds : Bounds := { min := ⟨0, 0⟩, max := ⟨3, 19⟩ }

/-- Bounds whose max corner is `(3, 545872)`; the height is above `2 ^ 24` print dots. -/
def hugeBounds : Bounds := { min := ⟨0, 0⟩, max := ⟨3, 545872⟩ }

/-- Bounds whose max corner is `(4, -5)`. -/
def lowerBounds : Bounds := { min := ⟨-9, -9⟩, max := ⟨4, -5⟩ }

/-! ## Sample molecules -/

/-- A carbon atom of the given degree at the given place, with nothing else set; the empty
pyramid slots hold -1. -/
def carbonAt (degree : ℕ) (x y : ℚ) : Atom :=
  { isRSite := false, number := 6, isotope := 0, charge := 0, radical := 0,
    shouldWriteHCount := false, totalH := some 0, xyz := ⟨x, y, 0⟩, stereoType := 0,
    pyramid := ⟨-1, -1, -1, -1⟩, isPseudoAtom := false, degree := degree }

/-- The double bond of `butene`, between atoms 1 and 2, trans with substituents 0 and 3. -/
def buteneBond : Edge :=
  { beg := 1, end_ := 2, order := 2, direction := 0, parity := 2, subst := ⟨0, -1, 3, -1⟩ }

/-- A chain of four carbons without coordinates whose middle bond is `buteneBond`. -/
def butene : Molecule :=
  { atoms := [carbonAt 1 0 0, carbonAt 2 0 0, carbonAt 2 0 0, carbonAt 1 0 0],
    edges := [{ beg := 0, end_ := 1, order := 1, direction := 0, parity := 0,
                subst := ⟨0, 0, 0, 0⟩ },
              buteneBond,
              { beg := 2, end_ := 3, order := 1, direction := 0, parity := 0,
                subst := ⟨0, 0, 0, 0⟩ }],
    have_xyz := false, chiral := false }

/-- A carbon of degree 1 with the given radical. -/
def radicalCarbon (radical : ℤ) : Atom :=
  { isRSite := false, number := 6, isotope := 0, charge := 0, radical := radical,
    shouldWriteHCount := false, totalH := some 0, xyz := ⟨0, 0, 0⟩, stereoType := 0,
    pyramid := ⟨-1, -1, -1, -1⟩, isPseudoAtom := false, degree := 1 }

/-- A chain of three carbons: a doublet, then a radical of kind 3, then a plain carbon. -/
def radicalMol : Molecule :=
  { atoms := [radicalCarbon 2, radicalCarbon 3, carbonAt 1 0 0],
    edges := [{ beg := 0, end_ := 1, order := 1, direction := 0, parity := 0,
                subst := ⟨0, 0, 0, 0⟩ },
              { beg := 1, end_ := 2, order := 1, direction := 0, parity := 0,
                subst := ⟨0, 0, 0, 0⟩ }],
    have_xyz := false, chiral := false }

/-- A stereocenter whose four neighbours are the atoms 0, 1, 2 and 3. -/
def stereoCenter : Atom :=
  { isRSite := false, number := 6, isotope := 0, charge := 0, radical := 0,
    shouldWriteHCount := false, totalH := some 0, xyz := ⟨0, 0, 0⟩, stereoType := 4,
    pyramid := ⟨0, 1, 2, 3⟩, isPseudoAtom := false, degree := 4 }

/-- Four carbons bound to `stereoCenter`, which is atom 4; no coordinates. -/
def stereoMol : Molecule :=
  { atoms := [carbonAt 1 0 0, carbonAt 1 0 0, carbonAt 1 0 0, carbonAt 1 0 0, stereoCenter],
    edges := [{ beg := 4, end_ := 0, order := 1, direction := 0, parity := 0,
                subst := ⟨0, 0, 0, 0⟩ },
              { beg := 4, end_ := 1, order := 1, direction := 0, parity := 0,
                subst := ⟨0, 0, 0, 0⟩ },
              { beg := 4, end_ := 2, order := 1, direction := 0, parity := 0,
                subst := ⟨0, 0, 0, 0⟩ },
              { beg := 4, end_ := 3, order := 1, direction := 0, parity := 0,
                subst := ⟨0, 0, 0, 0⟩ }],
    have_xyz := false, chiral := false }

/-- A lone carbon at (2, 3) and two bound carbons at (4, 5) and (6, 5), with coordinates. -/
def methaneMol : Molecule :=
  { atoms := [carbonAt 0 2 3, carbonAt 1 4 5, carbonAt 1 6 5],
    edges := [{ beg := 1, end_ := 2, order := 1, direction := 0, parity := 0,
                subst := ⟨0, 0, 0, 0⟩ }],
    have_xyz := true, chiral := false }

/-- An R-site: an atom like `carbonAt` but flagged as R-site. -/
def rsiteAtom : Atom :=
  { isRSite := true, number := 0, isotope := 0, charge := 0, radical := 0,
    shouldWriteHCount := false, totalH := none, xyz := ⟨0, 0, 0⟩, stereoType := 0,
    pyramid := ⟨-1, -1, -1, -1⟩, isPseudoAtom := false, degree := 1 }

/-- A carbon bound to an R-site. -/
def rsiteMol : Molecule :=
  { atoms := [carbonAt 1 0 0, rsiteAtom],
    edges := [{ beg := 0, end_ := 1, order := 1, direction := 0, parity := 0,
                subst := ⟨0, 0, 0, 0⟩ }],
    have_xyz := false, chiral := false }

/-- Two carbons joined by a single bond, without coordinates or stereochemistry. -/
def ethane : Molecule :=
  { atoms := [carbonAt 1 0 0, carbonAt 1 0 0],
    edges := [{ beg := 0, end_ := 1, order := 1, direction := 0, parity := 0,
                subst := ⟨0, 0, 0, 0⟩ }],
    have_xyz := false, chiral := false }

/-! ## Reachable savers and the calls of a whole document -/

/-- The savers that a freshly constructed one becomes under the public operations. Only
`beginDocument`, alone or inside `saveMolecule`, assigns a field; `beginPage`,
`saveMoleculeFragment`, `addText`, `endPage`, `endDocument`, `pageHeight` and
`textLineHeight` leave the saver as it is. -/
inductive Reachable : MoleculeCdxmlSaver → Prop
  /-- The saver the constructor gives. -/
  | init : Reachable MoleculeCdxmlSaver.new
  /-- A call of `beginDocument`, with or without bounds. -/
  | doc (sv : MoleculeCdxmlSaver) (bounds : Option Bounds) :
      Reachable sv → Reachable (MoleculeCdxmlSaver.beginDocument sv bounds).2
  /-- A call of `saveMolecule`. -/
  | mol (sv : MoleculeCdxmlSaver) (m : Molecule) :
      Reachable sv → Reachable (MoleculeCdxmlSaver.saveMolecule sv m).2.2

/-- The format string of the `printf` call of `beginPage` that writes the page counts. -/
def pageAttrFmt : String := "HeightPages=\"%d\" WidthPages=\"1\""

/-- The `printf` call of `beginPage` that writes the page counts. -/
def evPage (n : ℤ) : Printf := ⟨pageAttrFmt, [.d n]⟩

/-- The format string of the `printf` call that writes the print margins. -/
def printMarginsFmt : String := " PrintMargins=\"36 36 36 36\"\n"

/-- The format string of the `printf` call that opens the `MacPrintInfo` attribute. -/
def macPrintInfoFmt : String := " MacPrintInfo=\""

/-- The format strings of the `printf` calls that write the attributes of a bond. -/
def bondAttrFmts : List String :=
  [" Order=\"%d\"", " Order=\"1.5\"", " Display=\"%s\"",
   " BondCircularOrdering=\"%d %d %d %d\""]

/-- The format strings of the `printf` calls of the bond loop. -/
def bondFmts : List String := bondMarkerFmt :: bondAttrFmts ++ ["/>\n"]

/-- The format strings of the `printf` calls of the chirality mark. -/
def chiralFmts : List String :=
  ["<graphic BoundingBox=\"%f %f %f %f\" GraphicType=\"Symbol\" SymbolType=\"Absolute\" FrameType=\"None\">\n",
   "<t p=\"%f %f\" Justification=\"%s\"><s>%s</s></t>\n", "</graphic>\n"]

/-- The format strings of all the `printf` calls of `saveMoleculeFragment`. -/
def fragmentFmts : List String :=
  ["<fragment>\n", atomMarkerFmt] ++ atomAttrFmts ++ bondFmts ++ chiralFmts ++
    [fragmentCloseFmt]

/-- The format strings of the `printf` calls that open or close a page or a fragment, or
open an atom or a bond. -/
def blockFmts : List String :=
  ["<page ", "</page>\n", "<fragment>\n", fragmentCloseFmt, atomMarkerFmt, bondMarkerFmt]

/-- Whether a `printf` call opens or closes a page or a fragment, or opens an atom or a
bond. -/
def isBlockMark (p : Printf) : Bool := decide (p.fmt ∈ blockFmts)

/-- The `printf` calls that open the atoms of a list in order, the first one being atom
`i`: the `id` is the index plus one. -/
def atomMarkers : ℕ → List Atom → Output
  | _, [] => []
  | i, a :: rest => ⟨atomMarkerFmt, [.d ((i : ℤ) + 1), .d a.number]⟩ :: atomMarkers (i + 1) rest

/-- The `printf` calls that open the bonds of a list in order: `B` and `E` are the ends
plus one. -/
def bondMarkers : List Edge → Output
  | [] => []
  | e :: rest => ⟨bondMarkerFmt, [.d (e.beg + 1), .d (e.end_ + 1)]⟩ :: bondMarkers rest

/-- The format string of the `printf` call that writes the numeric `Order` of a bond. -/
def orderFmt : String := " Order=\"%d\""

/-- The format string of the `printf` call that writes the `Order` of an aromatic bond. -/
def orderAromaticFmt : String := " Order=\"1.5\""

/-- The format string of the `printf` call that writes the `Display` of a bond. -/
def displayFmt : String := " Display=\"%s\""

/-- The format string of the `printf` call that writes a `BondCircularOrdering`. -/
def circularOrderingFmt : String := " BondCircularOrdering=\"%d %d %d %d\""

/-- A double bond between atoms 0 and 1. -/
def doubleBond : Edge :=
  { beg := 0, end_ := 1, order := 2, direction := 0, parity := 0, subst := ⟨0, 0, 0, 0⟩ }

/-- An aromatic bond between atoms 1 and 2. -/
def aromaticBond : Edge :=
  { beg := 1, end_ := 2, order := 4, direction := 0, parity := 0, subst := ⟨0, 0, 0, 0⟩ }

/-- A single bond between atoms 2 and 3, drawn as a wedge up. -/
def wedgeUpBond : Edge :=
  { beg := 2, end_ := 3, order := 1, direction := 1, parity := 0, subst := ⟨0, 0, 0, 0⟩ }

/-- A triple bond between atoms 3 and 0, drawn as a wedge down. -/
def wedgeDownBond : Edge :=
  { beg := 3, end_ := 0, order := 3, direction := 2, parity := 0, subst := ⟨0, 0, 0, 0⟩ }

/-- Four carbons with coordinates and the four bonds above. -/
def wedgeMol : Molecule :=
  { atoms := [carbonAt 1 0 0, carbonAt 2 1 0, carbonAt 2 2 0, carbonAt 2 3 1],
    edges := [doubleBond, aromaticBond, wedgeUpBond, wedgeDownBond],
    have_xyz := true, chiral := false }

/-- The `printf` call that writes the `Display` of a bond. -/
def evDisplay (style : String) : Printf := ⟨displayFmt, [.s style]⟩

/-! ## The bounding box and the chirality mark -/

/-- The running `min_coord` and `max_coord` of the atom loop of `saveMoleculeFragment` after
the atoms of a list, the first one being atom `i`: atom 0 seeds both corners with its
translated position, every other atom extends them. -/
def coordBox (offset : Vec2f) : ℕ → List Atom → Vec2f → Vec2f → Vec2f × Vec2f
  | _, [], min_coord, max_coord => (min_coord, max_coord)
  | i, a :: rest, min_coord, max_coord =>
    let pos : Vec2f := (⟨a.xyz.x, a.xyz.y⟩ : Vec2f).add offset
    if i = 0 then coordBox offset (i + 1) rest pos pos
    else coordBox offset (i + 1) rest (min_coord.min pos) (max_coord.max pos)

/-- The `printf` call that opens the graphic of the chirality mark, with its bounding
box. -/
def evGraphic (x y : ℚ) : Printf :=
  ⟨"<graphic BoundingBox=\"%f %f %f %f\" GraphicType=\"Symbol\" SymbolType=\"Absolute\" FrameType=\"None\">\n",
    [.f x, .f y, .f x, .f y]⟩

/-- The `printf` call of `addText`. -/
def evText (x y : ℚ) (alignment text : String) : Printf :=
  ⟨"<t p=\"%f %f\" Justification=\"%s\"><s>%s</s></t>\n", [.f x, .f y, .s alignment, .s text]⟩

/-- The molecule `methaneMol` flagged as chiral. -/
def chiralMol : Molecule :=
  { atoms := [carbonAt 0 2 3, carbonAt 1 4 5, carbonAt 1 6 5],
    edges := [{ beg := 1, end_ := 2, order := 1, direction := 0, parity := 0,
                subst := ⟨0, 0, 0, 0⟩ }],
    have_xyz := true, chiral := true }

/-- The `printf` call that writes the `NumHydrogens` attribute of an atom. -/
def evNumHydrogens (h : ℤ) : Printf := ⟨" NumHydrogens=\"%d\"", [.d h]⟩

/-- A carbon of degree 1 for which the hydrogen count is to be written, with the given
outcome of `getAtomTotalH`. -/
def hydrogenCarbon (totalH : Option ℤ) : Atom :=
  { isRSite := false, number := 6, isotope := 0, charge := 0, radical := 0,
    shouldWriteHCount := true, totalH := totalH, xyz := ⟨0, 0, 0⟩, stereoType := 0,
    pyramid := ⟨-1, -1, -1, -1⟩, isPseudoAtom := false, degree := 1 }

/-- Two bound carbons: the hydrogen count of the first cannot be computed, that of the
second is 3. -/
def hydrogenMol : Molecule :=
  { atoms := [hydrogenCarbon none, hydrogenCarbon (some 3)],
    edges := [{ beg := 0, end_ := 1, order := 1, direction := 0, parity := 0,
                subst := ⟨0, 0, 0, 0⟩ }],
    have_xyz := false, chiral := false }

/-- The smallest `x` `saveMolecule` finds over the atoms, before the margin. -/
def minX (mol : Molecule) : ℚ := (xyzBox 0 mol.atoms Vec3f.zero Vec3f.zero).1.x

/-- The largest `y` `saveMolecule` finds over the atoms, before the margin. -/
def maxY (mol : Molecule) : ℚ := (xyzBox 0 mol.atoms Vec3f.zero Vec3f.zero).2.y

/-- Bounds with the max corner of `tallBounds` and another min corner. -/
def tallBoundsShifted : Bounds := { min := ⟨-5, -7⟩, max := ⟨3, 13107331 / 131072⟩ }

end MoleculeCdxmlSaver

end indigo

namespace indigo

namespace MoleculeCdxmlSaver

/-! ## The atom loop -/

theorem radicalAttr_error_iff (r : ℤ) :
    (∃ e, radicalAttr r = .error e) ↔
      (r ≠ 0 ∧ r ≠ RADICAL_DOUBLET ∧ r ≠ RADICAL_SINGLET) := by
  unfold radicalAttr
  by_cases h0 : r = 0
  · simp [h0]
  · by_cases h1 : r = RADICAL_DOUBLET
    · simp [h1, RADICAL_DOUBLET]
    · by_cases h2 : r = RADICAL_SINGLET
      · simp [h2, RADICAL_SINGLET, RADICAL_DOUBLET]
      · simp [h0, h1, h2]

theorem saveAtom_out_indep (scale : ℚ) (hx : Bool) (offset : Vec2f) (i : ℕ) (a : Atom)
    (mn mx mn2 mx2 : Vec2f) :
    (saveAtom scale hx offset i a mn mx).out = (saveAtom scale hx offset i a mn2 mx2).out := by
  unfold saveAtom
  by_cases h1 : a.isRSite = true
  · simp [h1]
  · rw [if_neg h1, if_neg h1]
    cases hr : radicalAttr a.radical with
    | error e => rfl
    | ok orad =>
      simp only []
      split_ifs <;> rfl

theorem saveAtom_res_unsupported (scale : ℚ) (hx : Bool) (offset : Vec2f) (i : ℕ) (a : Atom)
    (mn mx : Vec2f) (h : unsupported a) :
    ∃ e, (saveAtom scale hx offset i a mn mx).res = .error e := by
  unfold saveAtom
  by_cases h1 : a.isRSite = true
  · simp [h1]
  · rw [if_neg h1]
    cases hr : radicalAttr a.radical with
    | error e => exact ⟨e, rfl⟩
    | ok orad =>
      have hnb : ¬ (a.radical ≠ 0 ∧ a.radical ≠ RADICAL_DOUBLET ∧ a.radical ≠ RADICAL_SINGLET) := by
        intro hb
        obtain ⟨e, he⟩ := (radicalAttr_error_iff a.radical).2 hb
        rw [hr] at he
        cases he
      have hp : a.isPseudoAtom = true := by
        rcases h with h | h | h
        · exact absurd h h1
        · exact h
        · exact absurd h hnb
      simp [hp]

theorem saveAtom_res_supported (scale : ℚ) (hx : Bool) (offset : Vec2f) (i : ℕ) (a : Atom)
    (mn mx : Vec2f) (h : ¬ unsupported a) :
    ∃ box, (saveAtom scale hx offset i a mn mx).res = .ok box := by
  have h1 : ¬ a.isRSite = true := fun hc => h (Or.inl hc)
  have h2 : ¬ a.isPseudoAtom = true := fun hc => h (Or.inr (Or.inl hc))
  have h3 : ¬ (a.radical ≠ 0 ∧ a.radical ≠ RADICAL_DOUBLET ∧ a.radical ≠ RADICAL_SINGLET) :=
    fun hc => h (Or.inr (Or.inr hc))
  unfold saveAtom
  rw [if_neg h1]
  cases hr : radicalAttr a.radical with
  | error e => exact absurd ((radicalAttr_error_iff a.radical).1 ⟨e, hr⟩) h3
  | ok orad =>
    simp only []
    rw [if_neg h2]
    exact ⟨_, rfl⟩

theorem saveAtoms_cons (scale : ℚ) (hx : Bool) (offset : Vec2f) (i : ℕ) (a : Atom)
    (rest : List Atom) (mn mx : Vec2f) :
    saveAtoms scale hx offset i (a :: rest) mn mx =
      match (saveAtom scale hx offset i a mn mx).res with
      | .error e => ⟨(saveAtom scale hx offset i a mn mx).out, .error e⟩
      | .ok box =>
        ⟨(saveAtom scale hx offset i a mn mx).out ++
            (saveAtoms scale hx offset (i + 1) rest box.1 box.2).out,
          (saveAtoms scale hx offset (i + 1) rest box.1 box.2).res⟩ := by
  rw [saveAtoms]
  rcases hs : saveAtom scale hx offset i a mn mx with ⟨o, r⟩
  cases r <;> rfl

theorem saveAtoms_supported (scale : ℚ) (hx : Bool) (offset : Vec2f) (l : List Atom) :
    ∀ (i : ℕ) (mn mx mn2 mx2 : Vec2f), (∀ b ∈ l, ¬ unsupported b) →
      (∃ box, (saveAtoms scale hx offset i l mn mx).res = .ok box) ∧
      (saveAtoms scale hx offset i l mn mx).out = (saveAtoms scale hx offset i l mn2 mx2).out := by
  induction l with
  | nil => intro i mn mx mn2 mx2 _; exact ⟨⟨_, rfl⟩, rfl⟩
  | cons a rest ih =>
    intro i mn mx mn2 mx2 hall
    have ha : ¬ unsupported a := hall a (List.mem_cons_self _ _)
    have hrest : ∀ b ∈ rest, ¬ unsupported b := fun b hb => hall b (List.mem_cons_of_mem _ hb)
    obtain ⟨box, hbox⟩ := saveAtom_res_supported scale hx offset i a mn mx ha
    obtain ⟨box2, hbox2⟩ := saveAtom_res_supported scale hx offset i a mn2 mx2 ha
    rw [saveAtoms_cons, saveAtoms_cons, hbox, hbox2]
    refine ⟨(ih (i + 1) box.1 box.2 box2.1 box2.2 hrest).1, ?_⟩
    simp only []
    rw [saveAtom_out_indep scale hx offset i a mn mx mn2 mx2,
      (ih (i + 1) box.1 box.2 box2.1 box2.2 hrest).2]

theorem saveAtoms_append (scale : ℚ) (hx : Bool) (offset : Vec2f) (pre rest : List Atom) :
    ∀ (i : ℕ) (mn mx : Vec2f), (∀ b ∈ pre, ¬ unsupported b) →
      ∃ box, (saveAtoms scale hx offset i pre mn mx).res = .ok box ∧
        (saveAtoms scale hx offset i (pre ++ rest) mn mx).out =
          (saveAtoms scale hx offset i pre mn mx).out ++
            (saveAtoms scale hx offset (i + pre.length) rest box.1 box.2).out ∧
        (saveAtoms scale hx offset i (pre ++ rest) mn mx).res =
          (saveAtoms scale hx offset (i + pre.length) rest box.1 box.2).res := by
  induction pre with
  | nil => intro i mn mx _; exact ⟨(mn, mx), rfl, by simp [saveAtoms], by simp⟩
  | cons a pre ih =>
    intro i mn mx hall
    have ha : ¬ unsupported a := hall a (List.mem_cons_self _ _)
    have hpre : ∀ b ∈ pre, ¬ unsupported b := fun b hb => hall b (List.mem_cons_of_mem _ hb)
    obtain ⟨box, hbox⟩ := saveAtom_res_supported scale hx offset i a mn mx ha
    obtain ⟨box2, h1, h2, h3⟩ := ih (i + 1) box.1 box.2 hpre
    have hlen : i + (a :: pre).length = i + 1 + pre.length := by
      rw [List.length_cons]; omega
    rw [hlen]
    refine ⟨box2, ?_, ?_, ?_⟩
    · rw [saveAtoms_cons, hbox]; exact h1
    · rw [List.cons_append, saveAtoms_cons, saveAtoms_cons, hbox]
      simp only []
      rw [h2, List.append_assoc]
    · rw [List.cons_append, saveAtoms_cons, hbox]
      simp only []
      rw [h3]

/-! ## The fragment -/

theorem saveMoleculeFragment_error (sv : MoleculeCdxmlSaver) (mol : Molecule) (offset : Vec2f)
    (sc : ℚ) (e : Error)
    (h : (saveAtoms (sc * sv._bond_length) mol.have_xyz offset 0 mol.atoms ⟨0, 0⟩ ⟨0, 0⟩).res
      = .error e) :
    saveMoleculeFragment sv mol offset sc =
      ⟨⟨"<fragment>\n", []⟩ ::
          (saveAtoms (sc * sv._bond_length) mol.have_xyz offset 0 mol.atoms ⟨0, 0⟩ ⟨0, 0⟩).out,
        .error e⟩ := by
  unfold saveMoleculeFragment
  rcases hs : saveAtoms (sc * sv._bond_length) mol.have_xyz offset 0 mol.atoms ⟨0, 0⟩ ⟨0, 0⟩
    with ⟨o, r⟩
  rw [hs] at h
  cases h
  simp only []
  rw [hs]
  rfl

theorem saveMoleculeFragment_ok (sv : MoleculeCdxmlSaver) (mol : Molecule) (offset : Vec2f)
    (sc : ℚ) (box : Vec2f × Vec2f)
    (h : (saveAtoms (sc * sv._bond_length) mol.have_xyz offset 0 mol.atoms ⟨0, 0⟩ ⟨0, 0⟩).res
      = .ok box) :
    saveMoleculeFragment sv mol offset sc =
      ⟨⟨"<fragment>\n", []⟩ ::
          ((saveAtoms (sc * sv._bond_length) mol.have_xyz offset 0 mol.atoms ⟨0, 0⟩ ⟨0, 0⟩).out ++
            saveBonds mol.have_xyz mol.edges ++
            (if mol.chiral then chiralMark sv (sc * sv._bond_length) box.2 else []) ++
            [⟨"</fragment>\n", []⟩]),
        .ok ()⟩ := by
  unfold saveMoleculeFragment
  rcases hs : saveAtoms (sc * sv._bond_length) mol.have_xyz offset 0 mol.atoms ⟨0, 0⟩ ⟨0, 0⟩
    with ⟨o, r⟩
  rw [hs] at h
  cases h
  simp only []
  rw [hs]
  simp

/-- The atom loop reaches atom `k` when no atom before it is unsupported: what it writes
starts with the blocks of the atoms before `k` and the block of atom `k`; when the body
throws on atom `k` the loop throws the same error and writes nothing more. -/
theorem saveAtoms_reach (scale : ℚ) (hx : Bool) (offset : Vec2f) (mol : Molecule) (k : ℕ)
    (a : Atom) (hk : mol.atoms[k]? = some a)
    (hpre : ∀ b ∈ mol.atoms.take k, ¬ unsupported b) :
    ∃ (box : Vec2f × Vec2f) (post : Output),
      (saveAtoms scale hx offset 0 mol.atoms ⟨0, 0⟩ ⟨0, 0⟩).out =
        atomsBefore scale hx offset k mol ++ atomBlock scale hx offset k a ++ post ∧
      (∀ e, (saveAtom scale hx offset k a box.1 box.2).res = .error e →
        post = [] ∧ (saveAtoms scale hx offset 0 mol.atoms ⟨0, 0⟩ ⟨0, 0⟩).res = .error e) := by
  have hklt : k < mol.atoms.length := by
    rcases Nat.lt_or_ge k mol.atoms.length with h | h
    · exact h
    · rw [List.getElem?_eq_none h] at hk; cases hk
  have hsplit : mol.atoms = mol.atoms.take k ++ a :: mol.atoms.drop (k + 1) := by
    have hget : mol.atoms[k] = a := by
      rw [List.getElem?_eq_getElem hklt] at hk
      exact Option.some.inj hk
    rw [← hget, List.getElem_cons_drop _ _ hklt, List.take_append_drop]
  obtain ⟨box, _, h2, h3⟩ :=
    saveAtoms_append scale hx offset (mol.atoms.take k) (a :: mol.atoms.drop (k + 1)) 0
      ⟨0, 0⟩ ⟨0, 0⟩ hpre
  rw [← hsplit] at h2 h3
  have hlen : 0 + (mol.atoms.take k).length = k := by
    rw [List.length_take]; omega
  rw [hlen, saveAtoms_cons] at h2 h3
  have hblock : (saveAtom scale hx offset k a box.1 box.2).out = atomBlock scale hx offset k a :=
    saveAtom_out_indep scale hx offset k a box.1 box.2 ⟨0, 0⟩ ⟨0, 0⟩
  cases hr : (saveAtom scale hx offset k a box.1 box.2).res with
  | error e =>
    rw [hr] at h2 h3
    refine ⟨box, [], ?_, fun e2 he2 => ?_⟩
    · rw [h2, List.append_nil]
      simp only []
      rw [hblock]
      rfl
    · rw [hr] at he2
      cases he2
      exact ⟨rfl, h3⟩
  | ok box2 =>
    rw [hr] at h2 h3
    refine ⟨box, (saveAtoms scale hx offset (k + 1) (mol.atoms.drop (k + 1)) box2.1 box2.2).out,
      ?_, fun e2 he2 => ?_⟩
    · rw [h2]
      simp only []
      rw [hblock, List.append_assoc]
      rfl
    · rw [hr] at he2
      cases he2

theorem saveBonds_append (hx : Bool) (l1 l2 : List Edge) :
    saveBonds hx (l1 ++ l2) = saveBonds hx l1 ++ saveBonds hx l2 := by
  induction l1 with
  | nil => rfl
  | cons e l1 ih => simp [saveBonds, ih]

theorem saveBonds_split (hx : Bool) (edges : List Edge) (j : ℕ) (edge : Edge)
    (hj : edges[j]? = some edge) :
    saveBonds hx edges =
      saveBonds hx (edges.take j) ++ saveBond hx edge ++ saveBonds hx (edges.drop (j + 1)) := by
  have hjlt : j < edges.length := by
    rcases Nat.lt_or_ge j edges.length with h | h
    · exact h
    · rw [List.getElem?_eq_none h] at hj; cases hj
  have hget : edges[j] = edge := by
    rw [List.getElem?_eq_getElem hjlt] at hj
    exact Option.some.inj hj
  have hsplit : edges = edges.take j ++ edge :: edges.drop (j + 1) := by
    rw [← hget, List.getElem_cons_drop _ _ hjlt, List.take_append_drop]
  conv_lhs => rw [hsplit]
  rw [saveBonds_append, saveBonds, List.append_assoc]

/-- When no atom is unsupported the call returns, and what it wrote is the opening tag, the
atoms, the bonds, the chirality mark if any, and the closing tag. -/
theorem saveMoleculeFragment_supported (sv : MoleculeCdxmlSaver) (mol : Molecule)
    (offset : Vec2f) (sc : ℚ) (hsup : ∀ b ∈ mol.atoms, ¬ unsupported b) :
    ∃ box : Vec2f × Vec2f, saveMoleculeFragment sv mol offset sc =
      ⟨⟨"<fragment>\n", []⟩ ::
          ((saveAtoms (sc * sv._bond_length) mol.have_xyz offset 0 mol.atoms ⟨0, 0⟩ ⟨0, 0⟩).out ++
            saveBonds mol.have_xyz mol.edges ++
            (if mol.chiral then chiralMark sv (sc * sv._bond_length) box.2 else []) ++
            [⟨"</fragment>\n", []⟩]),
        .ok ()⟩ := by
  obtain ⟨⟨box, hbox⟩, _⟩ :=
    saveAtoms_supported (sc * sv._bond_length) mol.have_xyz offset mol.atoms 0
      ⟨0, 0⟩ ⟨0, 0⟩ ⟨0, 0⟩ ⟨0, 0⟩ hsup
  exact ⟨box, saveMoleculeFragment_ok sv mol offset sc box hbox⟩

/-! ## Bonds: the circular ordering -/

/-- C1. On a molecule without coordinates whose atoms are all supported, the call returns
and the block of bond `j` stands in the output after the atoms and the bonds before `j`;
the stereo attribute of that block is a `BondCircularOrdering` whose slots are, for the
substituents `(a, b, c, d)`, `(a+1, b+1, d+1, c+1)` when the parity is trans and
`(a+1, b+1, c+1, d+1)` when it is cis. -/
theorem bond_circular_ordering (sv : MoleculeCdxmlSaver) (mol : Molecule) (offset : Vec2f)
    (sc : ℚ) (j : ℕ) (edge : Edge)
    (hxyz : mol.have_xyz = false)
    (hsup : ∀ b ∈ mol.atoms, ¬ unsupported b)
    (hj : mol.edges[j]? = some edge) :
    (saveMoleculeFragment sv mol offset sc).res = .ok () ∧
    (∃ post, (saveMoleculeFragment sv mol offset sc).out =
      ⟨"<fragment>\n", []⟩ ::
        ((saveAtoms (sc * sv._bond_length) false offset 0 mol.atoms ⟨0, 0⟩ ⟨0, 0⟩).out ++
          saveBonds false (mol.edges.take j) ++ saveBond false edge ++ post)) ∧
    saveBond false edge =
      [⟨"    <b B=\"%d\" E=\"%d\"", [.d (edge.beg + 1), .d (edge.end_ + 1)]⟩] ++
        bondOrderAttr edge.order ++ bondStereoAttr false edge ++ [⟨"/>\n", []⟩] ∧
    (edge.parity = MoleculeCisTrans.TRANS →
      bondStereoAttr false edge =
        [evBondCircularOrdering (edge.subst.s0 + 1) (edge.subst.s1 + 1)
          (edge.subst.s3 + 1) (edge.subst.s2 + 1)]) ∧
    (edge.parity = MoleculeCisTrans.CIS →
      bondStereoAttr false edge =
        [evBondCircularOrdering (edge.subst.s0 + 1) (edge.subst.s1 + 1)
          (edge.subst.s2 + 1) (edge.subst.s3 + 1)]) := by
  obtain ⟨box, hfrag⟩ := saveMoleculeFragment_supported sv mol offset sc hsup
  refine ⟨by rw [hfrag], ?_, rfl, ?_, ?_⟩
  · refine ⟨saveBonds false (mol.edges.drop (j + 1)) ++
      ((if mol.chiral then chiralMark sv (sc * sv._bond_length) box.2 else []) ++
        [⟨"</fragment>\n", []⟩]), ?_⟩
    rw [hfrag, hxyz, saveBonds_split false mol.edges j edge hj]
    simp only [List.append_assoc]
  · intro hp
    simp [bondStereoAttr, hp, MoleculeCisTrans.TRANS, evBondCircularOrdering]
  · intro hp
    simp [bondStereoAttr, hp, MoleculeCisTrans.CIS, MoleculeCisTrans.TRANS,
      evBondCircularOrdering]

/-- C1 at the middle bond of `butene`, a trans bond with substituents `(0, -1, 3, -1)`. -/
theorem bond_circular_ordering_witness :
    butene.have_xyz = false ∧
    (∀ b ∈ butene.atoms, ¬ unsupported b) ∧
    butene.edges[1]? = some buteneBond ∧
    buteneBond.parity = MoleculeCisTrans.TRANS ∧
    bondStereoAttr false buteneBond = [evBondCircularOrdering 1 0 0 4] :=
  ⟨rfl, by decide, rfl, rfl,
    (bond_circular_ordering new butene ⟨0, 0⟩ 1 1 buteneBond rfl (by decide) rfl).2.2.2.1 rfl⟩

/-! ## Atoms: the block of one atom -/

/-- The block of a supported atom: head, radical, hydrogen count, position, end. -/
theorem atomBlock_supported (scale : ℚ) (hx : Bool) (offset : Vec2f) (i : ℕ) (a : Atom)
    (h : ¬ unsupported a) :
    ∃ orad, radicalAttr a.radical = .ok orad ∧
      atomBlock scale hx offset i a =
        atomHead i a ++ orad ++ hcountAttr a ++ positionAttr hx (atomPos scale offset a) a ++
          atomClose (atomPos scale offset a) a := by
  have h1 : ¬ a.isRSite = true := fun hc => h (Or.inl hc)
  have h2 : ¬ a.isPseudoAtom = true := fun hc => h (Or.inr (Or.inl hc))
  have h3 : ¬ (a.radical ≠ 0 ∧ a.radical ≠ RADICAL_DOUBLET ∧ a.radical ≠ RADICAL_SINGLET) :=
    fun hc => h (Or.inr (Or.inr hc))
  unfold atomBlock saveAtom
  rw [if_neg h1]
  cases hr : radicalAttr a.radical with
  | error e => exact absurd ((radicalAttr_error_iff a.radical).1 ⟨e, hr⟩) h3
  | ok orad =>
    simp only []
    rw [if_neg h2]
    exact ⟨orad, rfl, rfl⟩

theorem mem_take_succ_of_getElem {α : Type} (l : List α) (i : ℕ) (a : α)
    (hi : l[i]? = some a) : a ∈ l.take (i + 1) := by
  rw [List.mem_iff_getElem?]
  refine ⟨i, ?_⟩
  rw [List.getElem?_take_of_lt (Nat.lt_succ_self i)]
  exact hi

theorem mem_take_succ_of_mem_take {α : Type} (l : List α) (i : ℕ) (b : α)
    (hb : b ∈ l.take i) : b ∈ l.take (i + 1) := by
  rw [List.mem_iff_getElem?] at hb ⊢
  obtain ⟨n, hn⟩ := hb
  have hlt : n < i := by
    by_contra hge
    rw [List.getElem?_take_eq_none (Nat.le_of_not_lt hge)] at hn
    cases hn
  refine ⟨n, ?_⟩
  rw [List.getElem?_take_of_lt hlt] at hn
  rw [List.getElem?_take_of_lt (Nat.lt_succ_of_lt hlt)]
  exact hn

/-- The output of the call starts with the opening tag and what the atom loop wrote. -/
theorem saveMoleculeFragment_out (sv : MoleculeCdxmlSaver) (mol : Molecule) (offset : Vec2f)
    (sc : ℚ) :
    ∃ tail, (saveMoleculeFragment sv mol offset sc).out =
      ⟨"<fragment>\n", []⟩ ::
        ((saveAtoms (sc * sv._bond_length) mol.have_xyz offset 0 mol.atoms ⟨0, 0⟩ ⟨0, 0⟩).out ++
          tail) := by
  cases hr : (saveAtoms (sc * sv._bond_length) mol.have_xyz offset 0 mol.atoms
      ⟨0, 0⟩ ⟨0, 0⟩).res with
  | error e =>
    rw [saveMoleculeFragment_error sv mol offset sc e hr]
    exact ⟨[], by simp⟩
  | ok box =>
    rw [saveMoleculeFragment_ok sv mol offset sc box hr]
    exact ⟨saveBonds mol.have_xyz mol.edges ++
      ((if mol.chiral then chiralMark sv (sc * sv._bond_length) box.2 else []) ++
        [⟨"</fragment>\n", []⟩]), by simp only [List.append_assoc]⟩

/-- When the atoms up to atom `i` are supported, the block of atom `i` stands in the output
after the opening tag and the blocks of the atoms before it. -/
theorem saveMoleculeFragment_atom (sv : MoleculeCdxmlSaver) (mol : Molecule) (offset : Vec2f)
    (sc : ℚ) (i : ℕ) (a : Atom) (hi : mol.atoms[i]? = some a)
    (hpre : ∀ b ∈ mol.atoms.take i, ¬ unsupported b) :
    ∃ post, (saveMoleculeFragment sv mol offset sc).out =
      ⟨"<fragment>\n", []⟩ ::
        (atomsBefore (sc * sv._bond_length) mol.have_xyz offset i mol ++
          atomBlock (sc * sv._bond_length) mol.have_xyz offset i a ++ post) := by
  obtain ⟨tail, htail⟩ := saveMoleculeFragment_out sv mol offset sc
  obtain ⟨_, post, hpost, _⟩ :=
    saveAtoms_reach (sc * sv._bond_length) mol.have_xyz offset mol i a hi hpre
  refine ⟨post ++ tail, ?_⟩
  rw [htail, hpost]
  simp only [List.append_assoc]

/-! ## Atoms: the neighbour ordering of a stereocenter -/

/-- C2, as stated, fails on `stereoMol`: the stereocenter has the pyramid `(0, 1, 2, 3)`,
whose first slot holds 0, and the `BondOrdering` written is `1 2 3 4`, not the `0 2 3 4`
the stated rule gives. -/
theorem bond_ordering_zero_slot_counterexample :
    stereoMol.have_xyz = false ∧
    stereoMol.atoms[4]? = some stereoCenter ∧
    stereoCenter.stereoType > MoleculeStereocenters.ATOM_ANY ∧
    stereoCenter.pyramid = ⟨0, 1, 2, 3⟩ ∧
    (saveMoleculeFragment new stereoMol ⟨0, 0⟩ 1).res = .ok () ∧
    evBondOrdering 1 2 3 4 ∈ (saveMoleculeFragment new stereoMol ⟨0, 0⟩ 1).out ∧
    evBondOrdering (specBondOrderingSlot 0) (specBondOrderingSlot 1) (specBondOrderingSlot 2)
      (specBondOrderingSlot 3) ∉ (saveMoleculeFragment new stereoMol ⟨0, 0⟩ 1).out := by
  refine ⟨rfl, rfl, by decide, rfl, rfl, ?_, ?_⟩
  · decide
  · decide

/-- C2, amended. On a molecule without coordinates, for an atom `i` that is a stereocenter
above `ATOM_ANY` and is reached and supported, the block of the atom stands in the output
and carries `Geometry` followed by a `BondOrdering` whose slot `k` is the pyramid slot
`p_k` plus one, whatever `p_k` is: a slot holding 0 is written as 1. -/
theorem bond_ordering_slots (sv : MoleculeCdxmlSaver) (mol : Molecule) (offset : Vec2f)
    (sc : ℚ) (i : ℕ) (a : Atom)
    (hxyz : mol.have_xyz = false)
    (hi : mol.atoms[i]? = some a)
    (hsup : ∀ b ∈ mol.atoms.take (i + 1), ¬ unsupported b)
    (hst : a.stereoType > MoleculeStereocenters.ATOM_ANY) :
    (∃ post, (saveMoleculeFragment sv mol offset sc).out =
      ⟨"<fragment>\n", []⟩ ::
        (atomsBefore (sc * sv._bond_length) false offset i mol ++
          atomBlock (sc * sv._bond_length) false offset i a ++ post)) ∧
    (∃ orad, radicalAttr a.radical = .ok orad ∧
      atomBlock (sc * sv._bond_length) false offset i a =
        atomHead i a ++ orad ++ hcountAttr a ++
          [⟨" Geometry=\"Tetrahedral\"", []⟩,
           evBondOrdering (a.pyramid.s0 + 1) (a.pyramid.s1 + 1) (a.pyramid.s2 + 1)
             (a.pyramid.s3 + 1)] ++
          atomClose (atomPos (sc * sv._bond_length) offset a) a) := by
  have ha : ¬ unsupported a := hsup a (mem_take_succ_of_getElem mol.atoms i a hi)
  have hpre : ∀ b ∈ mol.atoms.take i, ¬ unsupported b :=
    fun b hb => hsup b (mem_take_succ_of_mem_take mol.atoms i b hb)
  constructor
  · have h := saveMoleculeFragment_atom sv mol offset sc i a hi hpre
    rw [hxyz] at h
    exact h
  · obtain ⟨orad, hrad, hblock⟩ :=
      atomBlock_supported (sc * sv._bond_length) false offset i a ha
    refine ⟨orad, hrad, ?_⟩
    rw [hblock]
    simp [positionAttr, hst, evBondOrdering]

/-- C2, amended, at the stereocenter of `stereoMol`: the pyramid `(0, 1, 2, 3)` is written
as `1 2 3 4`. -/
theorem bond_ordering_slots_witness :
    stereoMol.have_xyz = false ∧
    stereoMol.atoms[4]? = some stereoCenter ∧
    (∀ b ∈ stereoMol.atoms.take (4 + 1), ¬ unsupported b) ∧
    stereoCenter.stereoType > MoleculeStereocenters.ATOM_ANY ∧
    (∃ orad, radicalAttr stereoCenter.radical = .ok orad ∧
      atomBlock (1 * new._bond_length) false ⟨0, 0⟩ 4 stereoCenter =
        atomHead 4 stereoCenter ++ orad ++ hcountAttr stereoCenter ++
          [⟨" Geometry=\"Tetrahedral\"", []⟩, evBondOrdering 1 2 3 4] ++
          atomClose (atomPos (1 * new._bond_length) ⟨0, 0⟩ stereoCenter) stereoCenter) :=
  ⟨rfl, rfl, by decide, by decide,
    (bond_ordering_slots new stereoMol ⟨0, 0⟩ 1 4 stereoCenter rfl rfl (by decide)
      (by decide)).2⟩

/-! ## The calls the atom loop makes -/

theorem radicalAttr_ok_cases (r : ℤ) (orad : Output) (h : radicalAttr r = .ok orad) :
    (r = 0 ∧ orad = []) ∨
    (r = RADICAL_DOUBLET ∧ orad = [⟨" Radical=\"%s\"", [.s "Doublet"]⟩]) ∨
    (r = RADICAL_SINGLET ∧ orad = [⟨" Radical=\"%s\"", [.s "Singlet"]⟩]) := by
  unfold radicalAttr at h
  by_cases h0 : r = 0
  · rw [if_neg (not_not.2 h0)] at h
    exact Or.inl ⟨h0, (Except.ok.inj h).symm⟩
  · rw [if_pos h0] at h
    by_cases h1 : r = RADICAL_DOUBLET
    · rw [if_pos h1] at h
      exact Or.inr (Or.inl ⟨h1, (Except.ok.inj h).symm⟩)
    · rw [if_neg h1] at h
      by_cases h2 : r = RADICAL_SINGLET
      · rw [if_pos h2] at h
        exact Or.inr (Or.inr ⟨h2, (Except.ok.inj h).symm⟩)
      · rw [if_neg h2] at h
        cases h

theorem atomHead_eq (i : ℕ) (a : Atom) :
    ∃ attrs, atomHead i a = ⟨atomMarkerFmt, [.d ((i : ℤ) + 1), .d a.number]⟩ :: attrs ∧
      ∀ p ∈ attrs, p.fmt ∈ attrFmts := by
  refine ⟨(if a.isotope ≠ 0 then [⟨" Isotope=\"%d\"", [.d a.isotope]⟩] else []) ++
    (if a.charge ≠ 0 then [⟨" Charge=\"%d\"", [.d a.charge]⟩] else []), ?_, ?_⟩
  · unfold atomHead
    simp [atomMarkerFmt]
  · intro p hp
    rcases List.mem_append.1 hp with hp | hp
    · split_ifs at hp
      · rw [List.mem_singleton] at hp; subst hp; simp [attrFmts]
      · cases hp
    · split_ifs at hp
      · rw [List.mem_singleton] at hp; subst hp; simp [attrFmts]
      · cases hp

theorem hcountAttr_events (a : Atom) : ∀ p ∈ hcountAttr a, p.fmt ∈ attrFmts := by
  intro p hp
  unfold hcountAttr at hp
  simp only [] at hp
  split_ifs at hp
  · rw [List.mem_singleton] at hp; subst hp; simp [attrFmts]
  · cases hp
  · cases hp

theorem positionAttr_events (hx : Bool) (pos : Vec2f) (a : Atom) :
    ∀ p ∈ positionAttr hx pos a, p.fmt ∈ attrFmts := by
  intro p hp
  unfold positionAttr at hp
  simp only [] at hp
  split_ifs at hp
  · rw [List.mem_singleton] at hp; subst hp; simp [attrFmts]
  · simp only [List.mem_cons, List.mem_singleton, List.not_mem_nil, or_false] at hp
    rcases hp with hp | hp <;> (subst hp; simp [attrFmts])
  · cases hp

theorem atomClose_events (pos : Vec2f) (a : Atom) :
    ∀ p ∈ atomClose pos a, p.fmt ∈ closeFmts := by
  intro p hp
  unfold atomClose at hp
  simp only [] at hp
  split_ifs at hp
  · simp only [List.mem_cons, List.mem_singleton, List.not_mem_nil, or_false] at hp
    rcases hp with hp | hp | hp <;> (subst hp; simp [closeFmts, ch4LabelFmt])
  · rw [List.mem_singleton] at hp; subst hp; simp [closeFmts]

theorem radicalAttr_events (r : ℤ) (orad : Output) (h : radicalAttr r = .ok orad) :
    ∀ p ∈ orad, p.fmt ∈ attrFmts := by
  intro p hp
  rcases radicalAttr_ok_cases r orad h with ⟨_, ho⟩ | ⟨_, ho⟩ | ⟨_, ho⟩
  · rw [ho] at hp; cases hp
  · rw [ho, List.mem_singleton] at hp; subst hp; simp [attrFmts]
  · rw [ho, List.mem_singleton] at hp; subst hp; simp [attrFmts]

theorem atomHead_events (i : ℕ) (a : Atom) :
    ∀ p ∈ atomHead i a,
      p = ⟨atomMarkerFmt, [.d ((i : ℤ) + 1), .d a.number]⟩ ∨ p.fmt ∈ atomAttrFmts := by
  intro p hp
  obtain ⟨attrs, heq, hattrs⟩ := atomHead_eq i a
  rw [heq] at hp
  rcases List.mem_cons.1 hp with hp | hp
  · exact Or.inl hp
  · exact Or.inr (List.mem_append_left _ (hattrs p hp))

/-- Every call the body of the atom loop makes for atom `i` is the one that opens the atom,
with the arguments `i + 1` and the element, or one of the attribute calls. -/
theorem saveAtom_events (scale : ℚ) (hx : Bool) (offset : Vec2f) (i : ℕ) (a : Atom)
    (mn mx : Vec2f) :
    ∀ p ∈ (saveAtom scale hx offset i a mn mx).out,
      p = ⟨atomMarkerFmt, [.d ((i : ℤ) + 1), .d a.number]⟩ ∨ p.fmt ∈ atomAttrFmts := by
  intro p hp
  unfold saveAtom at hp
  by_cases h1 : a.isRSite = true
  · rw [if_pos h1] at hp; cases hp
  · rw [if_neg h1] at hp
    cases hr : radicalAttr a.radical with
    | error e =>
      rw [hr] at hp
      exact atomHead_events i a p hp
    | ok orad =>
      rw [hr] at hp
      simp only [] at hp
      have key : p ∈ atomHead i a ∨ p ∈ orad ∨ p ∈ hcountAttr a ∨
          p ∈ positionAttr hx (atomPos scale offset a) a ∨
          p ∈ atomClose (atomPos scale offset a) a := by
        unfold atomPos
        by_cases h2 : a.isPseudoAtom = true
        · rw [if_pos h2] at hp
          simp only [List.mem_append] at hp
          tauto
        · rw [if_neg h2] at hp
          simp only [List.mem_append] at hp
          tauto
      rcases key with h | h | h | h | h
      · exact atomHead_events i a p h
      · exact Or.inr (List.mem_append_left _ (radicalAttr_events a.radical orad hr p h))
      · exact Or.inr (List.mem_append_left _ (hcountAttr_events a p h))
      · exact Or.inr (List.mem_append_left _ (positionAttr_events hx _ a p h))
      · exact Or.inr (List.mem_append_right _ (atomClose_events _ a p h))

/-- Every call the atom loop makes from atom `i` on is the opening of one of its atoms,
numbered from `i + 1` in list order, or one of the attribute calls. -/
theorem saveAtoms_events (scale : ℚ) (hx : Bool) (offset : Vec2f) (l : List Atom) :
    ∀ (i : ℕ) (mn mx : Vec2f), ∀ p ∈ (saveAtoms scale hx offset i l mn mx).out,
      (∃ j a, l[j]? = some a ∧
        p = ⟨atomMarkerFmt, [.d (((i + j : ℕ) : ℤ) + 1), .d a.number]⟩) ∨
      p.fmt ∈ atomAttrFmts := by
  induction l with
  | nil => intro i mn mx p hp; cases hp
  | cons a rest ih =>
    intro i mn mx p hp
    rw [saveAtoms_cons] at hp
    have hhere : p ∈ (saveAtom scale hx offset i a mn mx).out →
        (∃ j b, (a :: rest)[j]? = some b ∧
          p = ⟨atomMarkerFmt, [.d (((i + j : ℕ) : ℤ) + 1), .d b.number]⟩) ∨
        p.fmt ∈ atomAttrFmts := by
      intro h
      rcases saveAtom_events scale hx offset i a mn mx p h with h | h
      · exact Or.inl ⟨0, a, by simp, by simpa using h⟩
      · exact Or.inr h
    cases hr : (saveAtom scale hx offset i a mn mx).res with
    | error e =>
      rw [hr] at hp
      exact hhere hp
    | ok box =>
      rw [hr] at hp
      simp only [List.mem_append] at hp
      rcases hp with hp | hp
      · exact hhere hp
      · rcases ih (i + 1) box.1 box.2 p hp with ⟨j, b, hj, hpj⟩ | h
        · refine Or.inl ⟨j + 1, b, by simpa using hj, ?_⟩
          rw [hpj]
          have : i + 1 + j = i + (j + 1) := by omega
          rw [this]
        · exact Or.inr h

/-- The atom loop throws as soon as one of its atoms is unsupported. -/
theorem saveAtoms_fails (scale : ℚ) (hx : Bool) (offset : Vec2f) (l : List Atom) :
    ∀ (i : ℕ) (mn mx : Vec2f), (∃ a ∈ l, unsupported a) →
      ∃ e, (saveAtoms scale hx offset i l mn mx).res = .error e := by
  induction l with
  | nil => intro i mn mx h; obtain ⟨a, ha, _⟩ := h; cases ha
  | cons a rest ih =>
    intro i mn mx h
    rw [saveAtoms_cons]
    cases hr : (saveAtom scale hx offset i a mn mx).res with
    | error e => exact ⟨e, rfl⟩
    | ok box =>
      simp only []
      apply ih
      obtain ⟨b, hb, hu⟩ := h
      rcases List.mem_cons.1 hb with hba | hbr
      · subst hba
        obtain ⟨e, he⟩ := saveAtom_res_unsupported scale hx offset i b mn mx hu
        rw [hr] at he
        cases he
      · exact ⟨b, hbr, hu⟩

/-! ## Failure on an R-site or a pseudoatom -/

/-- C3. When some atom of the molecule is an R-site or a pseudoatom, the call throws the
saver's error, and none of the calls made on the stream before the throw opens a bond or
closes the fragment. -/
theorem rsite_or_pseudoatom_fails (sv : MoleculeCdxmlSaver) (mol : Molecule) (offset : Vec2f)
    (sc : ℚ) (h : ∃ a ∈ mol.atoms, a.isRSite = true ∨ a.isPseudoAtom = true) :
    (∃ e, (saveMoleculeFragment sv mol offset sc).res = .error e) ∧
    ∀ p ∈ (saveMoleculeFragment sv mol offset sc).out,
      p.fmt ≠ bondMarkerFmt ∧ p.fmt ≠ fragmentCloseFmt := by
  have hu : ∃ a ∈ mol.atoms, unsupported a := by
    obtain ⟨a, ha, h1 | h2⟩ := h
    · exact ⟨a, ha, Or.inl h1⟩
    · exact ⟨a, ha, Or.inr (Or.inl h2)⟩
  obtain ⟨e, he⟩ :=
    saveAtoms_fails (sc * sv._bond_length) mol.have_xyz offset mol.atoms 0 ⟨0, 0⟩ ⟨0, 0⟩ hu
  rw [saveMoleculeFragment_error sv mol offset sc e he]
  refine ⟨⟨e, rfl⟩, ?_⟩
  intro p hp
  rcases List.mem_cons.1 hp with hp | hp
  · subst hp
    exact ⟨by decide, by decide⟩
  · rcases saveAtoms_events _ _ _ _ _ _ _ p hp with ⟨j, a, _, hpj⟩ | hattr
    · subst hpj
      exact ⟨show atomMarkerFmt ≠ bondMarkerFmt by decide,
        show atomMarkerFmt ≠ fragmentCloseFmt by decide⟩
    · constructor
      · intro hc
        rw [hc] at hattr
        revert hattr
        decide
      · intro hc
        rw [hc] at hattr
        revert hattr
        decide

/-- C3 on `rsiteMol`, whose second atom is an R-site. -/
theorem rsite_or_pseudoatom_fails_witness :
    (∃ a ∈ rsiteMol.atoms, a.isRSite = true ∨ a.isPseudoAtom = true) ∧
    (∃ e, (saveMoleculeFragment new rsiteMol ⟨0, 0⟩ 1).res = .error e) ∧
    ∀ p ∈ (saveMoleculeFragment new rsiteMol ⟨0, 0⟩ 1).out,
      p.fmt ≠ bondMarkerFmt ∧ p.fmt ≠ fragmentCloseFmt :=
  ⟨⟨rsiteAtom, by simp [rsiteMol], Or.inl rfl⟩,
    rsite_or_pseudoatom_fails new rsiteMol ⟨0, 0⟩ 1
      ⟨rsiteAtom, by simp [rsiteMol], Or.inl rfl⟩⟩

/-! ## Radicals -/

theorem radicalAttr_bad (r : ℤ)
    (h : r ≠ 0 ∧ r ≠ RADICAL_DOUBLET ∧ r ≠ RADICAL_SINGLET) :
    radicalAttr r = .error (.radical r) := by
  unfold radicalAttr
  rw [if_pos h.1, if_neg h.2.1, if_neg h.2.2]

/-- On a radical that is neither absent, nor a doublet, nor a singlet, the body of the atom
loop throws after the head of the atom, unless the atom is an R-site. -/
theorem saveAtom_bad_radical (scale : ℚ) (hx : Bool) (offset : Vec2f) (i : ℕ) (a : Atom)
    (mn mx : Vec2f) (hr : a.isRSite = false)
    (h : a.radical ≠ 0 ∧ a.radical ≠ RADICAL_DOUBLET ∧ a.radical ≠ RADICAL_SINGLET) :
    saveAtom scale hx offset i a mn mx = ⟨atomHead i a, .error (.radical a.radical)⟩ := by
  unfold saveAtom
  rw [hr, radicalAttr_bad a.radical h]
  rfl

/-- C4. For an atom `k` that the atom loop reaches: when the atom is supported its block
stands in the output and its radical part is `Radical="Doublet"` for a doublet,
`Radical="Singlet"` for a singlet and nothing for no radical; when its radical is of
another kind the call throws at this atom (with the radical error unless the atom is an
R-site), the output ends with the block of atom `k`, and every atom opened in the output
has an index of at most `k`. -/
theorem radical_attribute (sv : MoleculeCdxmlSaver) (mol : Molecule) (offset : Vec2f)
    (sc : ℚ) (k : ℕ) (a : Atom)
    (hk : mol.atoms[k]? = some a)
    (hpre : ∀ b ∈ mol.atoms.take k, ¬ unsupported b) :
    (¬ unsupported a →
      (∃ post, (saveMoleculeFragment sv mol offset sc).out =
        ⟨"<fragment>\n", []⟩ ::
          (atomsBefore (sc * sv._bond_length) mol.have_xyz offset k mol ++
            atomBlock (sc * sv._bond_length) mol.have_xyz offset k a ++ post)) ∧
      ∃ orad,
        atomBlock (sc * sv._bond_length) mol.have_xyz offset k a =
          atomHead k a ++ orad ++ hcountAttr a ++
            positionAttr mol.have_xyz (atomPos (sc * sv._bond_length) offset a) a ++
            atomClose (atomPos (sc * sv._bond_length) offset a) a ∧
        (a.radical = RADICAL_DOUBLET → orad = [⟨" Radical=\"%s\"", [.s "Doublet"]⟩]) ∧
        (a.radical = RADICAL_SINGLET → orad = [⟨" Radical=\"%s\"", [.s "Singlet"]⟩]) ∧
        (a.radical = 0 → orad = [])) ∧
    ((a.radical ≠ 0 ∧ a.radical ≠ RADICAL_DOUBLET ∧ a.radical ≠ RADICAL_SINGLET) →
      (∃ e, (saveMoleculeFragment sv mol offset sc).res = .error e ∧
        (a.isRSite = false → e = .radical a.radical ∧
          atomBlock (sc * sv._bond_length) mol.have_xyz offset k a = atomHead k a)) ∧
      (saveMoleculeFragment sv mol offset sc).out =
        ⟨"<fragment>\n", []⟩ ::
          (atomsBefore (sc * sv._bond_length) mol.have_xyz offset k mol ++
            atomBlock (sc * sv._bond_length) mol.have_xyz offset k a) ∧
      ∀ p ∈ (saveMoleculeFragment sv mol offset sc).out, p.fmt = atomMarkerFmt →
        ∃ j : ℕ, j ≤ k ∧ ∃ n, p.args = [.d ((j : ℤ) + 1), .d n]) := by
  constructor
  · intro ha
    refine ⟨saveMoleculeFragment_atom sv mol offset sc k a hk hpre, ?_⟩
    obtain ⟨orad, hrad, hblock⟩ :=
      atomBlock_supported (sc * sv._bond_length) mol.have_xyz offset k a ha
    refine ⟨orad, hblock, ?_, ?_, ?_⟩
    · intro h
      rcases radicalAttr_ok_cases a.radical orad hrad with ⟨h0, _⟩ | ⟨_, ho⟩ | ⟨h2, _⟩
      · rw [h] at h0; exact absurd h0 (by decide)
      · exact ho
      · rw [h] at h2; exact absurd h2 (by decide)
    · intro h
      rcases radicalAttr_ok_cases a.radical orad hrad with ⟨h0, _⟩ | ⟨h1, _⟩ | ⟨_, ho⟩
      · rw [h] at h0; exact absurd h0 (by decide)
      · rw [h] at h1; exact absurd h1 (by decide)
      · exact ho
    · intro h
      rcases radicalAttr_ok_cases a.radical orad hrad with ⟨_, ho⟩ | ⟨h1, _⟩ | ⟨h2, _⟩
      · exact ho
      · rw [h] at h1; exact absurd h1 (by decide)
      · rw [h] at h2; exact absurd h2 (by decide)
  · intro hbad
    have hu : unsupported a := Or.inr (Or.inr hbad)
    obtain ⟨box, post, hout, hfail⟩ :=
      saveAtoms_reach (sc * sv._bond_length) mol.have_xyz offset mol k a hk hpre
    obtain ⟨e, he⟩ :=
      saveAtom_res_unsupported (sc * sv._bond_length) mol.have_xyz offset k a box.1 box.2 hu
    obtain ⟨hpost, hres⟩ := hfail e he
    rw [hpost, List.append_nil] at hout
    have hfrag := saveMoleculeFragment_error sv mol offset sc e hres
    rw [hout] at hfrag
    refine ⟨⟨e, by rw [hfrag], ?_⟩, by rw [hfrag], ?_⟩
    · intro hrs
      have hsa := saveAtom_bad_radical (sc * sv._bond_length) mol.have_xyz offset k a
        box.1 box.2 hrs hbad
      constructor
      · rw [hsa] at he
        exact (Except.error.inj he).symm
      · have hsa0 := saveAtom_bad_radical (sc * sv._bond_length) mol.have_xyz offset k a
          ⟨0, 0⟩ ⟨0, 0⟩ hrs hbad
        unfold atomBlock
        rw [hsa0]
    · intro p hp hfmt
      rw [hfrag] at hp
      rcases List.mem_cons.1 hp with hp | hp
      · subst hp
        exact absurd hfmt (by decide)
      · rcases List.mem_append.1 hp with hp | hp
        · rcases saveAtoms_events _ _ _ _ _ _ _ p hp with ⟨j, b, hj, hpj⟩ | hattr
          · have hjk : j < k := by
              by_contra hge
              rw [List.getElem?_take_eq_none (Nat.le_of_not_lt hge)] at hj
              cases hj
            refine ⟨j, Nat.le_of_lt hjk, b.number, ?_⟩
            rw [hpj]
            simp
          · rw [hfmt] at hattr
            exact absurd hattr (by decide)
        · rcases saveAtom_events _ _ _ _ _ _ _ p hp with hpk | hattr
          · exact ⟨k, Nat.le_refl k, a.number, by rw [hpk]⟩
          · rw [hfmt] at hattr
            exact absurd hattr (by decide)

/-- C4 on `radicalMol`: atom 1 carries a radical of kind 3 and the call throws there, with
no atom beyond it opened; atom 0 is a doublet and gets `Radical="Doublet"`. -/
theorem radical_attribute_witness :
    radicalMol.atoms[1]? = some (radicalCarbon 3) ∧
    (∀ b ∈ radicalMol.atoms.take 1, ¬ unsupported b) ∧
    ((radicalCarbon 3).radical ≠ 0 ∧ (radicalCarbon 3).radical ≠ RADICAL_DOUBLET ∧
      (radicalCarbon 3).radical ≠ RADICAL_SINGLET) ∧
    ((∃ e, (saveMoleculeFragment new radicalMol ⟨0, 0⟩ 1).res = .error e ∧
        ((radicalCarbon 3).isRSite = false → e = .radical (radicalCarbon 3).radical ∧
          atomBlock (1 * new._bond_length) radicalMol.have_xyz ⟨0, 0⟩ 1 (radicalCarbon 3) =
            atomHead 1 (radicalCarbon 3))) ∧
      (saveMoleculeFragment new radicalMol ⟨0, 0⟩ 1).out =
        ⟨"<fragment>\n", []⟩ ::
          (atomsBefore (1 * new._bond_length) radicalMol.have_xyz ⟨0, 0⟩ 1 radicalMol ++
            atomBlock (1 * new._bond_length) radicalMol.have_xyz ⟨0, 0⟩ 1 (radicalCarbon 3)) ∧
      ∀ p ∈ (saveMoleculeFragment new radicalMol ⟨0, 0⟩ 1).out, p.fmt = atomMarkerFmt →
        ∃ j : ℕ, j ≤ 1 ∧ ∃ n, p.args = [.d ((j : ℤ) + 1), .d n]) ∧
    radicalMol.atoms[0]? = some (radicalCarbon 2) ∧
    (∀ b ∈ radicalMol.atoms.take 0, ¬ unsupported b) ∧
    ¬ unsupported (radicalCarbon 2) ∧
    (∃ orad,
      atomBlock (1 * new._bond_length) radicalMol.have_xyz ⟨0, 0⟩ 0 (radicalCarbon 2) =
        atomHead 0 (radicalCarbon 2) ++ orad ++ hcountAttr (radicalCarbon 2) ++
          positionAttr radicalMol.have_xyz
            (atomPos (1 * new._bond_length) ⟨0, 0⟩ (radicalCarbon 2)) (radicalCarbon 2) ++
          atomClose (atomPos (1 * new._bond_length) ⟨0, 0⟩ (radicalCarbon 2))
            (radicalCarbon 2) ∧
      ((radicalCarbon 2).radical = RADICAL_DOUBLET →
        orad = [⟨" Radical=\"%s\"", [.s "Doublet"]⟩]) ∧
      ((radicalCarbon 2).radical = RADICAL_SINGLET →
        orad = [⟨" Radical=\"%s\"", [.s "Singlet"]⟩]) ∧
      ((radicalCarbon 2).radical = 0 → orad = [])) :=
  ⟨rfl, by decide, by decide,
    (radical_attribute new radicalMol ⟨0, 0⟩ 1 1 (radicalCarbon 3) rfl (by decide)).2
      (by decide),
    rfl, by decide, by decide,
    ((radical_attribute new radicalMol ⟨0, 0⟩ 1 0 (radicalCarbon 2) rfl (by decide)).1
      (by decide)).2⟩

/-! ## The lone carbon -/

/-- The block of a supported atom: the call that opens it, attribute calls, and its end. -/
theorem atomBlock_shape (scale : ℚ) (hx : Bool) (offset : Vec2f) (i : ℕ) (a : Atom)
    (h : ¬ unsupported a) :
    ∃ attrs, (∀ p ∈ attrs, p.fmt ∈ attrFmts) ∧
      atomBlock scale hx offset i a =
        ⟨atomMarkerFmt, [.d ((i : ℤ) + 1), .d a.number]⟩ :: attrs ++
          atomClose (atomPos scale offset a) a := by
  obtain ⟨orad, hrad, hblock⟩ := atomBlock_supported scale hx offset i a h
  obtain ⟨hattrs, hhead, hmem⟩ := atomHead_eq i a
  refine ⟨hattrs ++ orad ++ hcountAttr a ++ positionAttr hx (atomPos scale offset a) a, ?_, ?_⟩
  · intro p hp
    simp only [List.mem_append] at hp
    rcases hp with ((hp | hp) | hp) | hp
    · exact hmem p hp
    · exact radicalAttr_events a.radical orad hrad p hp
    · exact hcountAttr_events a p hp
    · exact positionAttr_events hx _ a p hp
  · rw [hblock, hhead]
    simp only [List.cons_append, List.append_assoc]

/-- C5. For an atom `i` that is reached and supported, the block of the atom stands in the
output and is the call that opens the atom, attribute calls, and the end of the atom. For a
carbon of degree 0 with charge 0 and radical 0 the end is the end of the opening tag, the
`CH4` label at the scaled position and the closing tag, and the block has no end of an
empty element; for any other atom the end is the end of an empty element and the block has
no `CH4` label. -/
theorem lone_carbon_label (sv : MoleculeCdxmlSaver) (mol : Molecule) (offset : Vec2f)
    (sc : ℚ) (i : ℕ) (a : Atom)
    (hi : mol.atoms[i]? = some a)
    (hsup : ∀ b ∈ mol.atoms.take (i + 1), ¬ unsupported b) :
    (∃ post, (saveMoleculeFragment sv mol offset sc).out =
      ⟨"<fragment>\n", []⟩ ::
        (atomsBefore (sc * sv._bond_length) mol.have_xyz offset i mol ++
          atomBlock (sc * sv._bond_length) mol.have_xyz offset i a ++ post)) ∧
    (∃ attrs, (∀ p ∈ attrs, p.fmt ∈ attrFmts) ∧
      atomBlock (sc * sv._bond_length) mol.have_xyz offset i a =
        ⟨atomMarkerFmt, [.d ((i : ℤ) + 1), .d a.number]⟩ :: attrs ++
          atomClose (atomPos (sc * sv._bond_length) offset a) a) ∧
    ((a.degree = 0 ∧ a.number = ELEM_C ∧ a.charge = 0 ∧ a.radical = 0) →
      atomClose (atomPos (sc * sv._bond_length) offset a) a =
        [⟨">\n", []⟩,
         ⟨ch4LabelFmt, [.f (atomPos (sc * sv._bond_length) offset a).x,
           .f (-(atomPos (sc * sv._bond_length) offset a).y)]⟩,
         ⟨"</n>\n", []⟩] ∧
      ∀ p ∈ atomBlock (sc * sv._bond_length) mol.have_xyz offset i a, p.fmt ≠ "/>\n") ∧
    (¬ (a.degree = 0 ∧ a.number = ELEM_C ∧ a.charge = 0 ∧ a.radical = 0) →
      atomClose (atomPos (sc * sv._bond_length) offset a) a = [⟨"/>\n", []⟩] ∧
      ∀ p ∈ atomBlock (sc * sv._bond_length) mol.have_xyz offset i a,
        p.fmt ≠ ch4LabelFmt) := by
  have ha : ¬ unsupported a := hsup a (mem_take_succ_of_getElem mol.atoms i a hi)
  have hpre : ∀ b ∈ mol.atoms.take i, ¬ unsupported b :=
    fun b hb => hsup b (mem_take_succ_of_mem_take mol.atoms i b hb)
  obtain ⟨attrs, hattrs, hshape⟩ :=
    atomBlock_shape (sc * sv._bond_length) mol.have_xyz offset i a ha
  refine ⟨saveMoleculeFragment_atom sv mol offset sc i a hi hpre, ⟨attrs, hattrs, hshape⟩,
    ?_, ?_⟩
  · intro hc
    have hclose : atomClose (atomPos (sc * sv._bond_length) offset a) a =
        [⟨">\n", []⟩,
         ⟨ch4LabelFmt, [.f (atomPos (sc * sv._bond_length) offset a).x,
           .f (-(atomPos (sc * sv._bond_length) offset a).y)]⟩,
         ⟨"</n>\n", []⟩] := by
      unfold atomClose
      simp only []
      rw [if_pos hc]
      rfl
    refine ⟨hclose, ?_⟩
    intro p hp hfmt
    rw [hshape, hclose] at hp
    rcases List.mem_cons.1 hp with hp | hp
    · subst hp
      exact absurd hfmt (show atomMarkerFmt ≠ _ by decide)
    · rcases List.mem_append.1 hp with hp | hp
      · have := hattrs p hp
        rw [hfmt] at this
        exact absurd this (by decide)
      · simp only [List.mem_cons, List.mem_singleton, List.not_mem_nil, or_false] at hp
        rcases hp with hp | hp | hp
        · subst hp; exact absurd hfmt (show ">\n" ≠ "/>\n" by decide)
        · subst hp; exact absurd hfmt (show ch4LabelFmt ≠ "/>\n" by decide)
        · subst hp; exact absurd hfmt (show "</n>\n" ≠ "/>\n" by decide)
  · intro hc
    have hclose : atomClose (atomPos (sc * sv._bond_length) offset a) a = [⟨"/>\n", []⟩] := by
      unfold atomClose
      simp only []
      rw [if_neg hc]
    refine ⟨hclose, ?_⟩
    intro p hp hfmt
    rw [hshape, hclose] at hp
    rcases List.mem_cons.1 hp with hp | hp
    · subst hp
      exact absurd hfmt (show atomMarkerFmt ≠ _ by decide)
    · rcases List.mem_append.1 hp with hp | hp
      · have := hattrs p hp
        rw [hfmt] at this
        exact absurd this (by decide)
      · rw [List.mem_singleton] at hp
        subst hp
        exact absurd hfmt (by decide)

/-- C5 on `methaneMol`: atom 0 is a lone carbon and ends with the `CH4` label, atom 1 is a
bound carbon and ends as an empty element. -/
theorem lone_carbon_label_witness :
    methaneMol.atoms[0]? = some (carbonAt 0 2 3) ∧
    (∀ b ∈ methaneMol.atoms.take (0 + 1), ¬ unsupported b) ∧
    ((carbonAt 0 2 3).degree = 0 ∧ (carbonAt 0 2 3).number = ELEM_C ∧
      (carbonAt 0 2 3).charge = 0 ∧ (carbonAt 0 2 3).radical = 0) ∧
    (atomClose (atomPos (1 * new._bond_length) ⟨0, 0⟩ (carbonAt 0 2 3)) (carbonAt 0 2 3) =
        [⟨">\n", []⟩,
         ⟨ch4LabelFmt, [.f (atomPos (1 * new._bond_length) ⟨0, 0⟩ (carbonAt 0 2 3)).x,
           .f (-(atomPos (1 * new._bond_length) ⟨0, 0⟩ (carbonAt 0 2 3)).y)]⟩,
         ⟨"</n>\n", []⟩] ∧
      ∀ p ∈ atomBlock (1 * new._bond_length) methaneMol.have_xyz ⟨0, 0⟩ 0 (carbonAt 0 2 3),
        p.fmt ≠ "/>\n") ∧
    methaneMol.atoms[1]? = some (carbonAt 1 4 5) ∧
    (∀ b ∈ methaneMol.atoms.take (1 + 1), ¬ unsupported b) ∧
    ¬ ((carbonAt 1 4 5).degree = 0 ∧ (carbonAt 1 4 5).number = ELEM_C ∧
      (carbonAt 1 4 5).charge = 0 ∧ (carbonAt 1 4 5).radical = 0) ∧
    (atomClose (atomPos (1 * new._bond_length) ⟨0, 0⟩ (carbonAt 1 4 5)) (carbonAt 1 4 5) =
        [⟨"/>\n", []⟩] ∧
      ∀ p ∈ atomBlock (1 * new._bond_length) methaneMol.have_xyz ⟨0, 0⟩ 1 (carbonAt 1 4 5),
        p.fmt ≠ ch4LabelFmt) :=
  ⟨rfl, by decide, by decide,
    (lone_carbon_label new methaneMol ⟨0, 0⟩ 1 0 (carbonAt 0 2 3) rfl (by decide)).2.2.1
      (by decide),
    rfl, by decide, by decide,
    (lone_carbon_label new methaneMol ⟨0, 0⟩ 1 1 (carbonAt 1 4 5) rfl (by decide)).2.2.2
      (by decide)⟩

/-! ## The position of an atom -/

/-- C6. On a molecule with coordinates, for an atom `i` that is reached and supported, with
raw position `(x, y, z)`, the block of the atom stands in the output and its position part
is the one attribute `p` with the values `scale * (x + ox)` and `-(scale * (y + oy))`, where
`scale` is the structure scale times `_bond_length`; with structure scale 1 these are
`_bond_length * (x + ox)` and `-(_bond_length * (y + oy))`. -/
theorem atom_position (sv : MoleculeCdxmlSaver) (mol : Molecule) (offset : Vec2f)
    (sc : ℚ) (i : ℕ) (a : Atom)
    (hxyz : mol.have_xyz = true)
    (hi : mol.atoms[i]? = some a)
    (hsup : ∀ b ∈ mol.atoms.take (i + 1), ¬ unsupported b) :
    (∃ post, (saveMoleculeFragment sv mol offset sc).out =
      ⟨"<fragment>\n", []⟩ ::
        (atomsBefore (sc * sv._bond_length) true offset i mol ++
          atomBlock (sc * sv._bond_length) true offset i a ++ post)) ∧
    (∃ orad, radicalAttr a.radical = .ok orad ∧
      atomBlock (sc * sv._bond_length) true offset i a =
        atomHead i a ++ orad ++ hcountAttr a ++
          positionAttr true (atomPos (sc * sv._bond_length) offset a) a ++
          atomClose (atomPos (sc * sv._bond_length) offset a) a) ∧
    positionAttr true (atomPos (sc * sv._bond_length) offset a) a =
      [evPosition (sc * sv._bond_length * (a.xyz.x + offset.x))
        (-(sc * sv._bond_length * (a.xyz.y + offset.y)))] ∧
    (sc = 1 →
      positionAttr true (atomPos (sc * sv._bond_length) offset a) a =
        [evPosition (sv._bond_length * (a.xyz.x + offset.x))
          (-(sv._bond_length * (a.xyz.y + offset.y)))]) := by
  have ha : ¬ unsupported a := hsup a (mem_take_succ_of_getElem mol.atoms i a hi)
  have hpre : ∀ b ∈ mol.atoms.take i, ¬ unsupported b :=
    fun b hb => hsup b (mem_take_succ_of_mem_take mol.atoms i b hb)
  have hpos : ∀ s : ℚ, positionAttr true (atomPos s offset a) a =
      [evPosition (s * (a.xyz.x + offset.x)) (-(s * (a.xyz.y + offset.y)))] := by
    intro s
    simp [positionAttr, atomPos, Vec2f.add, Vec2f.scale, evPosition, mul_comm]
  refine ⟨?_, ?_, hpos _, ?_⟩
  · have h := saveMoleculeFragment_atom sv mol offset sc i a hi hpre
    rw [hxyz] at h
    exact h
  · exact atomBlock_supported (sc * sv._bond_length) true offset i a ha
  · intro h1
    rw [hpos, h1, one_mul]

/-- C6 on `methaneMol` with the offset `(1/2, -3)` and the length unit 30 of a new saver:
the atom at `(4, 5)` is written at `(135, -60)`. -/
theorem atom_position_witness :
    methaneMol.have_xyz = true ∧
    methaneMol.atoms[1]? = some (carbonAt 1 4 5) ∧
    (∀ b ∈ methaneMol.atoms.take (1 + 1), ¬ unsupported b) ∧
    positionAttr true (atomPos (1 * new._bond_length) ⟨1 / 2, -3⟩ (carbonAt 1 4 5))
      (carbonAt 1 4 5) = [evPosition 135 (-60)] := by
  refine ⟨rfl, rfl, by decide, ?_⟩
  rw [(atom_position new methaneMol ⟨1 / 2, -3⟩ 1 1 (carbonAt 1 4 5) rfl rfl
    (by decide)).2.2.1]
  norm_num [new, carbonAt]

/-! ## Single-precision arithmetic: rounding -/

theorem roundEven_eq (q : ℚ) (n : ℤ) (h1 : (n : ℚ) - 1 / 2 < q) (h2 : q < (n : ℚ) + 1 / 2) :
    roundEven q = n := by
  unfold roundEven
  by_cases hq : (n : ℚ) ≤ q
  · have hf : ⌊q⌋ = n := by
      rw [Int.floor_eq_iff]
      constructor
      · exact hq
      · linarith
    rw [hf, if_pos (by linarith)]
  · have hq2 : q < n := not_le.1 hq
    have hf : ⌊q⌋ = n - 1 := by
      rw [Int.floor_eq_iff]
      push_cast
      constructor
      · linarith
      · linarith
    rw [hf]
    push_cast
    rw [if_neg (by linarith), if_pos (by linarith)]
    ring

theorem roundEven_intCast (n : ℤ) : roundEven (n : ℚ) = n :=
  roundEven_eq _ n (by linarith) (by linarith)

theorem abs_roundEven_sub_le (q : ℚ) : |(roundEven q : ℚ) - q| ≤ 1 / 2 := by
  have h1 : (⌊q⌋ : ℚ) ≤ q := Int.floor_le q
  have h2 : q < ⌊q⌋ + 1 := Int.lt_floor_add_one q
  unfold roundEven
  rw [abs_le]
  split_ifs with ha hb hc
  · constructor <;> linarith
  · push_cast
    constructor <;> linarith
  · constructor <;> linarith
  · push_cast
    constructor <;> linarith

theorem ulp32_eq (q : ℚ) (e : ℤ) (hlo : (2 : ℚ) ^ e ≤ |q|) (hhi : |q| < (2 : ℚ) ^ (e + 1))
    (he : -126 ≤ e) : ulp32 q = (2 : ℚ) ^ (e - 23) := by
  have hpos : (0 : ℚ) < |q| := lt_of_lt_of_le (by positivity) hlo
  have h1 : e ≤ Int.log 2 |q| := (Int.zpow_le_iff_le_log (by norm_num) hpos).1 (by exact_mod_cast hlo)
  have h2 : Int.log 2 |q| < e + 1 := (Int.lt_zpow_iff_log_lt (by norm_num) hpos).1 (by exact_mod_cast hhi)
  have h3 : Int.log 2 |q| = e := by omega
  unfold ulp32
  rw [h3, max_eq_left he]

theorem round32_eq (q : ℚ) (e n : ℤ) (hlo : (2 : ℚ) ^ e ≤ |q|) (hhi : |q| < (2 : ℚ) ^ (e + 1))
    (he : -126 ≤ e) (hn : roundEven (q / (2 : ℚ) ^ (e - 23)) = n) :
    round32 q = n * (2 : ℚ) ^ (e - 23) := by
  unfold round32
  rw [ulp32_eq q e hlo hhi he, hn]

theorem ulp32_pos (q : ℚ) : 0 < ulp32 q := by
  unfold ulp32
  positivity

theorem abs_round32_sub_le (q : ℚ) : |round32 q - q| ≤ ulp32 q / 2 := by
  have hu := ulp32_pos q
  have h := abs_roundEven_sub_le (q / ulp32 q)
  have h2 : round32 q - q = ((roundEven (q / ulp32 q) : ℚ) - q / ulp32 q) * ulp32 q := by
    unfold round32
    field_simp
  rw [h2, abs_mul, abs_of_pos hu]
  calc |(roundEven (q / ulp32 q) : ℚ) - q / ulp32 q| * ulp32 q ≤ 1 / 2 * ulp32 q :=
        mul_le_mul_of_nonneg_right h hu.le
    _ = ulp32 q / 2 := by ring

theorem ulp32_le (q : ℚ) (h : 1 ≤ |q|) : ulp32 q ≤ |q| * (2 : ℚ) ^ (-23 : ℤ) := by
  have hpos : (0 : ℚ) < |q| := lt_of_lt_of_le one_pos h
  have h0 : (0 : ℤ) ≤ Int.log 2 |q| :=
    (Int.zpow_le_iff_le_log (by norm_num) hpos).1 (by simpa using h)
  have h1 : ((2 : ℕ) : ℚ) ^ Int.log 2 |q| ≤ |q| := Int.zpow_log_le_self (by norm_num) hpos
  unfold ulp32
  rw [max_eq_left (by omega), sub_eq_add_neg, zpow_add₀ (by norm_num)]
  apply mul_le_mul_of_nonneg_right _ (by positivity)
  exact_mod_cast h1

theorem abs_round32_sub_le_rel (q : ℚ) (h : 1 ≤ |q|) :
    |round32 q - q| ≤ |q| * (2 : ℚ) ^ (-24 : ℤ) := by
  have h1 := abs_round32_sub_le q
  have h2 := ulp32_le q h
  have h3 : |q| * (2 : ℚ) ^ (-24 : ℤ) = |q| * (2 : ℚ) ^ (-23 : ℤ) / 2 := by
    norm_num
    ring
  rw [h3]
  exact le_trans h1 (div_le_div_of_nonneg_right h2 (by norm_num))

theorem round32_zero : round32 0 = 0 := by
  unfold round32
  rw [zero_div, show roundEven 0 = 0 from roundEven_intCast 0]
  simp

/-- The error of a rounding: at most `2 ^ (-24)` of the magnitude, or `2 ^ (-150)` for a
subnormal result. -/
theorem abs_round32_sub_le_gen (q : ℚ) :
    |round32 q - q| ≤ |q| * (2 : ℚ) ^ (-24 : ℤ) + (2 : ℚ) ^ (-150 : ℤ) := by
  rcases eq_or_ne q 0 with rfl | hq
  · rw [round32_zero]
    simp
    positivity
  · have hpos : (0 : ℚ) < |q| := abs_pos.2 hq
    have h1 := abs_round32_sub_le q
    by_cases hl : -126 ≤ Int.log 2 |q|
    · have h2 : ((2 : ℕ) : ℚ) ^ Int.log 2 |q| ≤ |q| := Int.zpow_log_le_self (by norm_num) hpos
      have h3 : ulp32 q ≤ |q| * (2 : ℚ) ^ (-23 : ℤ) := by
        unfold ulp32
        rw [max_eq_left hl, sub_eq_add_neg, zpow_add₀ (by norm_num)]
        apply mul_le_mul_of_nonneg_right _ (by positivity)
        exact_mod_cast h2
      have h4 : |q| * (2 : ℚ) ^ (-24 : ℤ) = |q| * (2 : ℚ) ^ (-23 : ℤ) / 2 := by
        norm_num
        ring
      have h5 : (0 : ℚ) ≤ (2 : ℚ) ^ (-150 : ℤ) := by positivity
      rw [h4]
      have h6 := div_le_div_of_nonneg_right h3 (show (0 : ℚ) ≤ 2 by norm_num)
      linarith
    · have h3 : ulp32 q = (2 : ℚ) ^ (-149 : ℤ) := by
        unfold ulp32
        rw [max_eq_right (by omega)]
        norm_num
      have h4 : (2 : ℚ) ^ (-149 : ℤ) / 2 = (2 : ℚ) ^ (-150 : ℤ) := by norm_num
      have h5 : (0 : ℚ) ≤ |q| * (2 : ℚ) ^ (-24 : ℤ) := by positivity
      rw [h3, h4] at h1
      linarith

theorem round32_near (q M e : ℚ) (hq : |q| ≤ M)
    (he : M * (2 : ℚ) ^ (-24 : ℤ) + (2 : ℚ) ^ (-150 : ℤ) ≤ e) :
    |round32 q - q| ≤ e := by
  have h1 := abs_round32_sub_le_gen q
  have h2 : |q| * (2 : ℚ) ^ (-24 : ℤ) ≤ M * (2 : ℚ) ^ (-24 : ℤ) :=
    mul_le_mul_of_nonneg_right hq (by positivity)
  linarith

theorem roundEven_tie (q : ℚ) (n : ℤ) (h : q = (n : ℚ) + 1 / 2) :
    roundEven q = if n % 2 = 0 then n else n + 1 := by
  have hf : ⌊q⌋ = n := by
    rw [Int.floor_eq_iff]
    constructor <;> linarith
  unfold roundEven
  rw [hf, if_neg (by linarith), if_neg (by linarith)]

theorem roundEven_neg (q : ℚ) : roundEven (-q) = -roundEven q := by
  have h1 : (⌊q⌋ : ℚ) ≤ q := Int.floor_le q
  have h2 : q < ⌊q⌋ + 1 := Int.lt_floor_add_one q
  by_cases ht : q - ⌊q⌋ = 1 / 2
  · have hq : q = (⌊q⌋ : ℚ) + 1 / 2 := by linarith
    have hn : -q = ((-(⌊q⌋ + 1) : ℤ) : ℚ) + 1 / 2 := by push_cast; linarith
    rw [roundEven_tie (-q) _ hn, roundEven_tie q _ hq]
    split_ifs <;> omega
  · have hb : ((roundEven q : ℤ) : ℚ) - 1 / 2 < q ∧ q < ((roundEven q : ℤ) : ℚ) + 1 / 2 := by
      unfold roundEven
      by_cases hlt : q - ⌊q⌋ < 1 / 2
      · rw [if_pos hlt]
        constructor <;> linarith
      · have hgt : 1 / 2 < q - ⌊q⌋ := lt_of_le_of_ne (not_lt.1 hlt) (Ne.symm ht)
        rw [if_neg hlt, if_pos hgt]
        push_cast
        constructor <;> linarith
    exact roundEven_eq _ _ (by push_cast; linarith [hb.2]) (by push_cast; linarith [hb.1])

theorem round32_neg (q : ℚ) : round32 (-q) = -round32 q := by
  unfold round32 ulp32
  rw [abs_neg, neg_div, roundEven_neg]
  push_cast
  ring

/-- Rounding is symmetric in the sign. -/
theorem binary32_neg (q r : ℚ) (h : binary32 q = some r) : binary32 (-q) = some (-r) := by
  unfold binary32 at h ⊢
  rw [round32_neg, abs_neg]
  split_ifs at h ⊢ with hlt
  simp only [Option.some.injEq] at h
  rw [h]

theorem round32_eval (q : ℚ) (e n : ℤ) (r : ℚ) (hlo : (2 : ℚ) ^ e ≤ q)
    (hhi : q < (2 : ℚ) ^ (e + 1)) (he : -126 ≤ e)
    (h1 : (n : ℚ) - 1 / 2 < q / (2 : ℚ) ^ (e - 23))
    (h2 : q / (2 : ℚ) ^ (e - 23) < (n : ℚ) + 1 / 2)
    (hr : (n : ℚ) * (2 : ℚ) ^ (e - 23) = r) : round32 q = r := by
  have hq : 0 < q := lt_of_lt_of_le (by positivity) hlo
  rw [round32_eq q e n (by rw [abs_of_pos hq]; exact hlo) (by rw [abs_of_pos hq]; exact hhi) he
    (roundEven_eq _ n h1 h2), hr]

/-- The value of an operation whose exact result `q` is positive, has the exponent `e` and
is not half-way between two binary32 values. -/
theorem binary32_eq (q : ℚ) (e n : ℤ) (r : ℚ) (hlo : (2 : ℚ) ^ e ≤ q)
    (hhi : q < (2 : ℚ) ^ (e + 1)) (he : -126 ≤ e)
    (h1 : (n : ℚ) - 1 / 2 < q / (2 : ℚ) ^ (e - 23))
    (h2 : q / (2 : ℚ) ^ (e - 23) < (n : ℚ) + 1 / 2)
    (hr : (n : ℚ) * (2 : ℚ) ^ (e - 23) = r) (hfin : r < 2 ^ 128) (hfin2 : -2 ^ 128 < r) :
    binary32 q = some r := by
  unfold binary32
  rw [round32_eval q e n r hlo hhi he h1 h2 hr, if_pos (abs_lt.2 ⟨hfin2, hfin⟩)]

/-- The value of an operation whose exact result `q` is positive, has the exponent `e` and
is half-way between the binary32 values of significands `n` and `n + 1`. -/
theorem binary32_tie (q : ℚ) (e n m : ℤ) (r : ℚ) (hlo : (2 : ℚ) ^ e ≤ q)
    (hhi : q < (2 : ℚ) ^ (e + 1)) (he : -126 ≤ e)
    (h : q / (2 : ℚ) ^ (e - 23) = (n : ℚ) + 1 / 2)
    (hm : (if n % 2 = 0 then n else n + 1) = m)
    (hr : (m : ℚ) * (2 : ℚ) ^ (e - 23) = r) (hfin : r < 2 ^ 128) (hfin2 : -2 ^ 128 < r) :
    binary32 q = some r := by
  have hq : 0 < q := lt_of_lt_of_le (by positivity) hlo
  have hr2 : round32 q = r := by
    rw [round32_eq q e m (by rw [abs_of_pos hq]; exact hlo) (by rw [abs_of_pos hq]; exact hhi) he
      (by rw [roundEven_tie _ n h, hm]), hr]
  unfold binary32
  rw [hr2, if_pos (abs_lt.2 ⟨hfin2, hfin⟩)]

theorem fmul_some (x y r : ℚ) (h : binary32 (x * y) = some r) : fmul (some x) y = some r := h

theorem fadd_some (x y r : ℚ) (h : binary32 (x + y) = some r) : fadd (some x) y = some r := h

theorem fdiv_some (x y r : ℚ) (hy : y ≠ 0) (h : binary32 (x / y) = some r) :
    fdiv (some x) y = some r := by
  unfold fdiv
  rw [Option.some_bind, if_neg hy, h]

theorem round32_intCast (n : ℤ) (h : |n| < 2 ^ 24) : round32 (n : ℚ) = n := by
  rcases eq_or_ne n 0 with rfl | hn
  · simpa using round32_zero
  · have hq : (n : ℚ) ≠ 0 := by exact_mod_cast hn
    have hpos : (0 : ℚ) < |(n : ℚ)| := abs_pos.2 hq
    have h1 : (1 : ℚ) ≤ |(n : ℚ)| := by
      rw [← Int.cast_abs]
      exact_mod_cast Int.one_le_abs hn
    have h2 : |(n : ℚ)| < (2 : ℚ) ^ (24 : ℤ) := by
      rw [← Int.cast_abs]
      rw [show (2 : ℚ) ^ (24 : ℤ) = ((2 ^ 24 : ℤ) : ℚ) by norm_num]
      exact_mod_cast h
    have he0 : (0 : ℤ) ≤ Int.log 2 |(n : ℚ)| :=
      (Int.zpow_le_iff_le_log (by norm_num) hpos).1 (by simpa using h1)
    have he1 : Int.log 2 |(n : ℚ)| < 24 :=
      (Int.lt_zpow_iff_log_lt (by norm_num) hpos).1 (by exact_mod_cast h2)
    obtain ⟨k, hk⟩ : ∃ k : ℕ, Int.log 2 |(n : ℚ)| - 23 = -(k : ℤ) :=
      ⟨(23 - Int.log 2 |(n : ℚ)|).toNat, by omega⟩
    have hu : ulp32 (n : ℚ) = ((2 : ℚ) ^ k)⁻¹ := by
      unfold ulp32
      rw [max_eq_left (by omega), hk, zpow_neg, zpow_natCast]
    unfold round32
    rw [hu, div_inv_eq_mul]
    have hc : (n : ℚ) * (2 : ℚ) ^ k = ((n * 2 ^ k : ℤ) : ℚ) := by push_cast; rfl
    rw [hc, roundEven_intCast]
    push_cast
    field_simp

theorem floatToInt_intCast (n : ℤ) : floatToInt (n : ℚ) = n := by
  unfold floatToInt
  split_ifs
  · exact Int.floor_intCast n
  · exact Int.ceil_intCast n

theorem castInt_range (a : Option ℚ) : -2147483648 ≤ castInt a ∧ castInt a < 2147483648 := by
  cases a with
  | none => exact ⟨le_refl _, by decide⟩
  | some q =>
    simp only [castInt]
    split_ifs with h
    · exact h
    · exact ⟨le_refl _, by decide⟩

theorem castInt_intCast (n : ℤ) (h1 : -2147483648 ≤ n) (h2 : n < 2147483648) :
    castInt (some (n : ℚ)) = n := by
  simp only [castInt]
  rw [floatToInt_intCast, if_pos ⟨h1, h2⟩]

theorem round32_bounds (q : ℚ) (h : 1 ≤ q) :
    q * (1 - (2 : ℚ) ^ (-24 : ℤ)) ≤ round32 q ∧ round32 q ≤ q * (1 + (2 : ℚ) ^ (-24 : ℤ)) := by
  have hq : |q| = q := abs_of_nonneg (by linarith)
  have h1 := abs_round32_sub_le_rel q (by rw [hq]; exact h)
  rw [hq, abs_le] at h1
  constructor <;> linarith [h1.1, h1.2]

theorem binary32_of_bounds (q : ℚ) (h1 : -(2 : ℚ) ^ 128 < round32 q)
    (h2 : round32 q < (2 : ℚ) ^ 128) : binary32 q = some (round32 q) := by
  unfold binary32
  rw [if_pos (abs_lt.2 ⟨h1, h2⟩)]

theorem pageCount_eq_ceil_round32 (h m : ℤ) (hm : 0 < m) (hm2 : m < 2 ^ 24) (hmh : m < h)
    (hh : h ≤ 2147483000 * m) :
    pageCount h m = ⌈round32 (round32 (h : ℚ) / (m : ℚ))⌉ ∧
    (1 : ℚ) ≤ round32 (h : ℚ) / (m : ℚ) ∧
    round32 (h : ℚ) / (m : ℚ) ≤ 2147483000 * (1 + 1 / 16777216) := by
  have hmq : (0 : ℚ) < (m : ℚ) := by exact_mod_cast hm
  have hm1 : (1 : ℚ) ≤ (m : ℚ) := by exact_mod_cast hm
  have hm24 : (m : ℚ) + 1 ≤ 16777216 := by
    have h0 : m + 1 ≤ 16777216 := by
      have := hm2
      norm_num at this
      omega
    exact_mod_cast h0
  have hhq : (m : ℚ) + 1 ≤ (h : ℚ) := by exact_mod_cast hmh
  have hhq2 : (h : ℚ) ≤ 2147483000 * (m : ℚ) := by exact_mod_cast hh
  have hx := round32_bounds (h : ℚ) (by linarith)
  have hc : (2 : ℚ) ^ (-24 : ℤ) = 1 / 16777216 := by norm_num
  rw [hc] at hx
  have hmE : intToFloat m = m := round32_intCast m (by rw [abs_of_pos hm]; exact hm2)
  have hxm : (m : ℚ) ≤ round32 (h : ℚ) := by
    have h3 := mul_le_mul_of_nonneg_right hhq (show (0 : ℚ) ≤ 1 - 1 / 16777216 by norm_num)
    linarith [hx.1]
  have hq1 : (1 : ℚ) ≤ round32 (h : ℚ) / (m : ℚ) := by
    rw [le_div_iff₀ hmq]
    linarith
  have hq2 : round32 (h : ℚ) / (m : ℚ) ≤ 2147483000 * (1 + 1 / 16777216) := by
    rw [div_le_iff₀ hmq]
    have h3 := mul_le_mul_of_nonneg_right hhq2 (show (0 : ℚ) ≤ 1 + 1 / 16777216 by norm_num)
    linarith [hx.2]
  have hr := round32_bounds _ hq1
  rw [hc] at hr
  have hr1 : (0 : ℚ) < round32 (round32 (h : ℚ) / (m : ℚ)) := by linarith [hr.1]
  have hr2 : round32 (round32 (h : ℚ) / (m : ℚ)) < 2147483647 := by
    have h3 := mul_le_mul_of_nonneg_right hq2 (show (0 : ℚ) ≤ 1 + 1 / 16777216 by norm_num)
    linarith [hr.2]
  have hb : binary32 (round32 (h : ℚ) / (m : ℚ)) = some (round32 (round32 (h : ℚ) / (m : ℚ))) :=
    binary32_of_bounds _ (by linarith) (by linarith)
  have hd : fdiv (some (intToFloat h)) (intToFloat m) =
      some (round32 (round32 (h : ℚ) / (m : ℚ))) := by
    rw [hmE]
    exact fdiv_some _ _ _ (ne_of_gt hmq) hb
  have hc1 : (1 : ℤ) ≤ ⌈round32 (round32 (h : ℚ) / (m : ℚ))⌉ := by
    have : (0 : ℤ) < ⌈round32 (round32 (h : ℚ) / (m : ℚ))⌉ := Int.ceil_pos.2 hr1
    omega
  have hc2 : ⌈round32 (round32 (h : ℚ) / (m : ℚ))⌉ < 2147483648 := by
    have : ⌈round32 (round32 (h : ℚ) / (m : ℚ))⌉ ≤ 2147483647 :=
      Int.ceil_le.2 (by push_cast; linarith)
    omega
  refine ⟨?_, hq1, hq2⟩
  unfold pageCount
  rw [hd]
  show castInt (some ((⌈round32 (round32 (h : ℚ) / (m : ℚ))⌉ : ℤ) : ℚ)) = _
  exact castInt_intCast _ (by omega) hc2

/-- A height above the page height 16600 gives at least two pages. -/
theorem two_le_pageCount (h : ℤ) (h1 : 16600 < h) (h2 : h < 2147483648) :
    2 ≤ pageCount h 16600 := by
  obtain ⟨hp, hq1, hq2⟩ := pageCount_eq_ceil_round32 h 16600 (by norm_num) (by norm_num) h1
    (by omega)
  rw [hp]
  have hhq : (16601 : ℚ) ≤ (h : ℚ) := by exact_mod_cast h1
  have hx := round32_bounds (h : ℚ) (by linarith)
  have hc : (2 : ℚ) ^ (-24 : ℤ) = 1 / 16777216 := by norm_num
  rw [hc] at hx
  have hq : (16600 + 1 / 2 : ℚ) / 16600 ≤ round32 (h : ℚ) / ((16600 : ℤ) : ℚ) := by
    push_cast
    apply div_le_div_of_nonneg_right _ (by norm_num)
    have h3 := mul_le_mul_of_nonneg_right hhq (show (0 : ℚ) ≤ 1 - 1 / 16777216 by norm_num)
    linarith [hx.1]
  have hr := round32_bounds _ hq1
  rw [hc] at hr
  have hr1 : (1 : ℚ) < round32 (round32 (h : ℚ) / ((16600 : ℤ) : ℚ)) := by
    have h3 := mul_le_mul_of_nonneg_right hq (show (0 : ℚ) ≤ 1 - 1 / 16777216 by norm_num)
    have h4 : (1 : ℚ) < (16600 + 1 / 2 : ℚ) / 16600 * (1 - 1 / 16777216) := by norm_num
    linarith [hr.1]
  have : (1 : ℤ) < ⌈round32 (round32 (h : ℚ) / ((16600 : ℤ) : ℚ))⌉ :=
    Int.lt_ceil.2 (by exact_mod_cast hr1)
  omega

/-- For a height below `2 ^ 24` the page count is the ceiling of the exact quotient. -/
theorem pageCount_eq_ceil (h m : ℤ) (hm : 0 < m) (hmh : m < h) (hh : h < 2 ^ 24) :
    pageCount h m = ⌈(h : ℚ) / (m : ℚ)⌉ := by
  have hh0 : h < 16777216 := by
    have := hh
    norm_num at this
    exact this
  obtain ⟨hp, hq1, _⟩ := pageCount_eq_ceil_round32 h m hm (by norm_num; omega) hmh
    (by nlinarith)
  rw [hp, round32_intCast h (by rw [abs_of_pos (by omega)]; exact hh)] at *
  have hmq : (0 : ℚ) < (m : ℚ) := by exact_mod_cast hm
  have hc : (2 : ℚ) ^ (-24 : ℤ) = 1 / 16777216 := by norm_num
  have hr := round32_bounds _ hq1
  rw [hc] at hr
  have hhq : (h : ℚ) < 16777216 := by exact_mod_cast hh0
  -- the error of the quotient is below 1 / m
  have herr : (h : ℚ) / (m : ℚ) * (1 / 16777216) < 1 / (m : ℚ) := by
    rw [div_mul_eq_mul_div, div_lt_div_iff_of_pos_right hmq]
    linarith
  set c := ⌈(h : ℚ) / (m : ℚ)⌉ with hcdef
  have hc1 : ((c : ℚ) - 1) < (h : ℚ) / (m : ℚ) := by
    have := Int.ceil_lt_add_one ((h : ℚ) / (m : ℚ))
    rw [← hcdef] at this
    linarith
  have hc2 : (h : ℚ) / (m : ℚ) ≤ c := Int.le_ceil _
  -- the quotient is at least 1 / m above c - 1
  have hstep : ((c : ℚ) - 1) + 1 / (m : ℚ) ≤ (h : ℚ) / (m : ℚ) := by
    have h5 : ((c - 1) * m : ℤ) < h := by
      have : (((c - 1) * m : ℤ) : ℚ) < (h : ℚ) := by
        push_cast
        rw [lt_div_iff₀ hmq] at hc1
        linarith
      exact_mod_cast this
    have h6 : (((c - 1) * m + 1 : ℤ) : ℚ) ≤ (h : ℚ) := by exact_mod_cast h5
    rw [le_div_iff₀ hmq]
    push_cast at h6
    field_simp
    linarith
  rw [Int.ceil_eq_iff]
  constructor
  · linarith [hr.1]
  · rcases eq_or_lt_of_le hc2 with heq | hlt
    · -- an integral quotient is exact
      have hm1 : (1 : ℚ) ≤ (m : ℚ) := by exact_mod_cast hm
      have hcq : (c : ℚ) ≤ (h : ℚ) := by
        have hh1 : (0 : ℚ) ≤ (h : ℚ) := by exact_mod_cast (show (0 : ℤ) ≤ h by omega)
        have h9 := mul_le_mul_of_nonneg_left hm1 hh1
        rw [← heq, div_le_iff₀ hmq]
        linarith
      have hcpos : (0 : ℚ) < (c : ℚ) := by rw [← heq]; linarith
      have hc3 : c < 2 ^ 24 := by
        have : (c : ℚ) < ((16777216 : ℤ) : ℚ) := by push_cast; linarith
        have h8 : c < 16777216 := by exact_mod_cast this
        norm_num
        exact h8
      have hc4 : 0 < c := by exact_mod_cast hcpos
      rw [heq, round32_intCast c (by rw [abs_of_pos hc4]; exact hc3)]
    · have h7 : (h : ℚ) / (m : ℚ) + 1 / (m : ℚ) ≤ c := by
        have h5 : h < c * m := by
          have : (h : ℚ) < ((c * m : ℤ) : ℚ) := by
            push_cast
            rw [div_lt_iff₀ hmq] at hlt
            linarith
          exact_mod_cast this
        have h6 : ((h + 1 : ℤ) : ℚ) ≤ ((c * m : ℤ) : ℚ) := by exact_mod_cast h5
        push_cast at h6
        rw [← add_div, div_le_iff₀ hmq]
        linarith
      linarith [hr.2]

/-! ## The document: pages and print settings -/

/-- What `beginDocument` writes when bounds are given: the head of the document, the print
margins, and the print settings slot by slot for the final height and the width. -/
theorem beginDocument_bounds (sv : MoleculeCdxmlSaver) (b : Bounds) :
    (beginDocument sv (some b)).1 =
      documentHead sv ++
        [⟨" PrintMargins=\"36 36 36 36\"\n", []⟩, ⟨" MacPrintInfo=\"", []⟩] ++
        printMacPrintInfo (mac_print_info (heightAfter sv b) (width sv b)) ++
        [⟨"\"\n", []⟩, ⟨">\n", []⟩] ∧
    (beginDocument sv (some b)).2 = { sv with _pages_height := pagesAfter sv b } :=
  ⟨rfl, rfl⟩

theorem intToFloat_dpi_logical : intToFloat dpi_logical = 72 := by
  have h := round32_intCast 72 (by norm_num)
  exact_mod_cast h

theorem intToFloat_one : intToFloat 1 = 1 := by
  have h := round32_intCast 1 (by norm_num)
  exact_mod_cast h

theorem intToFloat_dpi_print : intToFloat dpi_print = 600 := by
  have h := round32_intCast 600 (by norm_num)
  exact_mod_cast h

/-- The chain of four operations `(v * u / 72 + 1) * 600` of `beginDocument`, from the
values of its steps. -/
theorem dim_eval (v u a b c d : ℚ) (h1 : binary32 (v * u) = some a)
    (h2 : binary32 (a / 72) = some b) (h3 : binary32 (b + 1) = some c)
    (h4 : binary32 (c * 600) = some d) :
    fmul (fadd (fdiv (fmul (some v) u) (intToFloat dpi_logical)) (intToFloat 1))
      (intToFloat dpi_print) = some d := by
  rw [intToFloat_dpi_logical, intToFloat_one, intToFloat_dpi_print, fmul_some _ _ _ h1,
    fdiv_some _ _ _ (by norm_num) h2, fadd_some _ _ _ h3, fmul_some _ _ _ h4]

theorem castInt_some (q : ℚ) (n : ℤ) (h : floatToInt q = n) (h1 : -2147483648 ≤ n)
    (h2 : n < 2147483648) : castInt (some q) = n := by
  simp only [castInt]
  rw [h, if_pos ⟨h1, h2⟩]

theorem floatToInt_near (d E : ℚ) (hd : 0 ≤ d) (hE : 0 ≤ E) (h : |d - E| ≤ 1 / 2) :
    |floatToInt d - floatToInt E| ≤ 1 := by
  unfold floatToInt
  rw [if_pos hd, if_pos hE]
  have h1 := Int.floor_le d
  have h2 := Int.lt_floor_add_one d
  have h3 := Int.floor_le E
  have h4 := Int.lt_floor_add_one E
  obtain ⟨h5, h6⟩ := abs_le.1 h
  rw [abs_le]
  constructor
  · have : ((⌊E⌋ - ⌊d⌋ : ℤ) : ℚ) < 2 := by push_cast; linarith
    have h7 : ⌊E⌋ - ⌊d⌋ < 2 := by exact_mod_cast this
    omega
  · have : ((⌊d⌋ - ⌊E⌋ : ℤ) : ℚ) < 2 := by push_cast; linarith
    have h7 : ⌊d⌋ - ⌊E⌋ < 2 := by exact_mod_cast this
    omega

/-- With the length unit 30 and `0 ≤ y ≤ 4096`, the four roundings of
`(y * 30 / 72 + 1) * 600` give a finite value within a half of the exact one. -/
theorem dim_near (y : ℚ) (h0 : 0 ≤ y) (h1 : y ≤ 4096) :
    ∃ d : ℚ,
      fmul (fadd (fdiv (fmul (some y) 30) (intToFloat dpi_logical)) (intToFloat 1))
        (intToFloat dpi_print) = some d ∧
      |d - (y * 30 / 72 + 1) * 600| ≤ 1 / 2 := by
  have hbig : (1030000 : ℚ) < 2 ^ 128 := by norm_num
  have ha : |round32 (y * 30) - y * 30| ≤ 1 / 100 :=
    round32_near _ 122880 _ (by rw [abs_of_nonneg (by linarith)]; linarith) (by norm_num)
  obtain ⟨ha1, ha2⟩ := abs_le.1 ha
  have hb : |round32 (round32 (y * 30) / 72) - round32 (y * 30) / 72| ≤ 1 / 5000 :=
    round32_near _ 1707 _ (by rw [abs_le]; constructor <;> linarith) (by norm_num)
  obtain ⟨hb1, hb2⟩ := abs_le.1 hb
  have hc : |round32 (round32 (round32 (y * 30) / 72) + 1) -
      (round32 (round32 (y * 30) / 72) + 1)| ≤ 1 / 5000 :=
    round32_near _ 1709 _ (by rw [abs_le]; constructor <;> linarith) (by norm_num)
  obtain ⟨hc1, hc2⟩ := abs_le.1 hc
  have hd : |round32 (round32 (round32 (round32 (y * 30) / 72) + 1) * 600) -
      round32 (round32 (round32 (y * 30) / 72) + 1) * 600| ≤ 1 / 10 :=
    round32_near _ 1026000 _ (by rw [abs_le]; constructor <;> linarith) (by norm_num)
  obtain ⟨hd1, hd2⟩ := abs_le.1 hd
  refine ⟨round32 (round32 (round32 (round32 (y * 30) / 72) + 1) * 600), ?_, ?_⟩
  · rw [intToFloat_dpi_logical, intToFloat_one, intToFloat_dpi_print,
      fmul_some _ _ _ (binary32_of_bounds _ (by linarith) (by linarith)),
      fdiv_some _ _ _ (by norm_num) (binary32_of_bounds _ (by linarith) (by linarith)),
      fadd_some _ _ _ (binary32_of_bounds _ (by linarith) (by linarith)),
      fmul_some _ _ _ (binary32_of_bounds _ (by linarith) (by linarith))]
  · rw [abs_le]
    constructor <;> linarith

/-- With the length unit 30 and `0 ≤ max.y ≤ 4096` the height is within one print dot of
the truncation of the exact `(max.y * 30 / 72 + 1) * 600`. -/
theorem height_near_formula (sv : MoleculeCdxmlSaver) (b : Bounds)
    (hu : sv._bond_length = 30) (h0 : 0 ≤ b.max.y) (h1 : b.max.y ≤ 4096) :
    |height sv b - specHeight sv._bond_length b.max.y| ≤ 1 := by
  obtain ⟨d, hd, hnear⟩ := dim_near b.max.y h0 h1
  obtain ⟨hn1, hn2⟩ := abs_le.1 hnear
  have hE : (600 : ℚ) ≤ (b.max.y * 30 / 72 + 1) * 600 := by linarith
  have hE2 : (b.max.y * 30 / 72 + 1) * 600 ≤ 1024600 := by linarith
  have hd0 : (0 : ℚ) ≤ d := by linarith
  have hfl : floatToInt d = ⌊d⌋ := by
    unfold floatToInt
    rw [if_pos hd0]
  have hlo : (0 : ℤ) ≤ ⌊d⌋ := Int.floor_nonneg.2 hd0
  have hhi : ⌊d⌋ < 2147483648 := by
    rw [Int.floor_lt]
    push_cast
    linarith
  have hh : height sv b = floatToInt d := by
    unfold height y_inch
    rw [hu, hd]
    simp only [castInt]
    rw [if_pos ⟨by rw [hfl]; omega, by rw [hfl]; exact hhi⟩]
  rw [hh, hu]
  exact floatToInt_near _ _ hd0 (by linarith) hnear

theorem max_height_new : max_height new = 16600 := by
  have h1 : binary32 (64 * 30) = some (1920) :=
    binary32_eq _ 10 15728640 _ (by norm_num) (by norm_num) (by norm_num) (by norm_num)
      (by norm_num) (by norm_num) (by norm_num) (by norm_num)
  have h2 : binary32 (1920 / 72) = some (13981013 / 524288) :=
    binary32_eq _ 4 13981013 _ (by norm_num) (by norm_num) (by norm_num) (by norm_num)
      (by norm_num) (by norm_num) (by norm_num) (by norm_num)
  have h3 : binary32 (13981013 / 524288 + 1) = some (14505301 / 524288) :=
    binary32_eq _ 4 14505301 _ (by norm_num) (by norm_num) (by norm_num) (by norm_num)
      (by norm_num) (by norm_num) (by norm_num) (by norm_num)
  have h4 : binary32 (14505301 / 524288 * 600) = some (16600) :=
    binary32_eq _ 14 8499200 _ (by norm_num) (by norm_num) (by norm_num) (by norm_num)
      (by norm_num) (by norm_num) (by norm_num) (by norm_num)
  show castInt (fmul (fadd (fdiv (fmul (some (64)) 30) (intToFloat dpi_logical))
      (intToFloat 1)) (intToFloat dpi_print)) = 16600
  rw [dim_eval _ _ _ _ _ _ h1 h2 h3 h4]
  exact castInt_some _ _ (by norm_num [floatToInt, Int.floor_eq_iff]) (by norm_num) (by norm_num)

theorem height_tallBounds : height new tallBounds = 25600 := by
  have h1 : binary32 (13107331 / 131072 * 30) = some (12288123 / 4096) :=
    binary32_eq _ 11 12288123 _ (by norm_num) (by norm_num) (by norm_num) (by norm_num)
      (by norm_num) (by norm_num) (by norm_num) (by norm_num)
  have h2 : binary32 (12288123 / 4096 / 72) = some (1365347 / 32768) :=
    binary32_eq _ 5 10922776 _ (by norm_num) (by norm_num) (by norm_num) (by norm_num)
      (by norm_num) (by norm_num) (by norm_num) (by norm_num)
  have h3 : binary32 (1365347 / 32768 + 1) = some (1398115 / 32768) :=
    binary32_eq _ 5 11184920 _ (by norm_num) (by norm_num) (by norm_num) (by norm_num)
      (by norm_num) (by norm_num) (by norm_num) (by norm_num)
  have h4 : binary32 (1398115 / 32768 * 600) = some (102401 / 4) :=
    binary32_eq _ 14 13107328 _ (by norm_num) (by norm_num) (by norm_num) (by norm_num)
      (by norm_num) (by norm_num) (by norm_num) (by norm_num)
  show castInt (fmul (fadd (fdiv (fmul (some (13107331 / 131072)) 30) (intToFloat dpi_logical))
      (intToFloat 1)) (intToFloat dpi_print)) = 25600
  rw [dim_eval _ _ _ _ _ _ h1 h2 h3 h4]
  exact castInt_some _ _ (by norm_num [floatToInt, Int.floor_eq_iff]) (by norm_num) (by norm_num)

theorem height_shortBounds : height new shortBounds = 3100 := by
  have h1 : binary32 (10 * 30) = some (300) :=
    binary32_eq _ 8 9830400 _ (by norm_num) (by norm_num) (by norm_num) (by norm_num)
      (by norm_num) (by norm_num) (by norm_num) (by norm_num)
  have h2 : binary32 (300 / 72) = some (8738133 / 2097152) :=
    binary32_eq _ 2 8738133 _ (by norm_num) (by norm_num) (by norm_num) (by norm_num)
      (by norm_num) (by norm_num) (by norm_num) (by norm_num)
  have h3 : binary32 (8738133 / 2097152 + 1) = some (10835285 / 2097152) :=
    binary32_eq _ 2 10835285 _ (by norm_num) (by norm_num) (by norm_num) (by norm_num)
      (by norm_num) (by norm_num) (by norm_num) (by norm_num)
  have h4 : binary32 (10835285 / 2097152 * 600) = some (3100) :=
    binary32_eq _ 11 12697600 _ (by norm_num) (by norm_num) (by norm_num) (by norm_num)
      (by norm_num) (by norm_num) (by norm_num) (by norm_num)
  show castInt (fmul (fadd (fdiv (fmul (some (10)) 30) (intToFloat dpi_logical))
      (intToFloat 1)) (intToFloat dpi_print)) = 3100
  rw [dim_eval _ _ _ _ _ _ h1 h2 h3 h4]
  exact castInt_some _ _ (by norm_num [floatToInt, Int.floor_eq_iff]) (by norm_num) (by norm_num)

theorem width_tallBounds : width new tallBounds = 1350 := by
  have h1 : binary32 (3 * 30) = some (90) :=
    binary32_eq _ 6 11796480 _ (by norm_num) (by norm_num) (by norm_num) (by norm_num)
      (by norm_num) (by norm_num) (by norm_num) (by norm_num)
  have h2 : binary32 (90 / 72) = some (5 / 4) :=
    binary32_eq _ 0 10485760 _ (by norm_num) (by norm_num) (by norm_num) (by norm_num)
      (by norm_num) (by norm_num) (by norm_num) (by norm_num)
  have h3 : binary32 (5 / 4 + 1) = some (9 / 4) :=
    binary32_eq _ 1 9437184 _ (by norm_num) (by norm_num) (by norm_num) (by norm_num)
      (by norm_num) (by norm_num) (by norm_num) (by norm_num)
  have h4 : binary32 (9 / 4 * 600) = some (1350) :=
    binary32_eq _ 10 11059200 _ (by norm_num) (by norm_num) (by norm_num) (by norm_num)
      (by norm_num) (by norm_num) (by norm_num) (by norm_num)
  show castInt (fmul (fadd (fdiv (fmul (some (3)) 30) (intToFloat dpi_logical))
      (intToFloat 1)) (intToFloat dpi_print)) = 1350
  rw [dim_eval _ _ _ _ _ _ h1 h2 h3 h4]
  exact castInt_some _ _ (by norm_num [floatToInt, Int.floor_eq_iff]) (by norm_num) (by norm_num)

theorem height_roundedBounds : height new roundedBounds = 348601 := by
  have h1 : binary32 (356353 / 256 * 30) = some (5345295 / 128) :=
    binary32_eq _ 15 10690590 _ (by norm_num) (by norm_num) (by norm_num) (by norm_num)
      (by norm_num) (by norm_num) (by norm_num) (by norm_num)
  have h2 : binary32 (5345295 / 128 / 72) = some (9502747 / 16384) :=
    binary32_eq _ 9 9502747 _ (by norm_num) (by norm_num) (by norm_num) (by norm_num)
      (by norm_num) (by norm_num) (by norm_num) (by norm_num)
  have h3 : binary32 (9502747 / 16384 + 1) = some (9519131 / 16384) :=
    binary32_eq _ 9 9519131 _ (by norm_num) (by norm_num) (by norm_num) (by norm_num)
      (by norm_num) (by norm_num) (by norm_num) (by norm_num)
  have h4 : binary32 (9519131 / 16384 * 600) = some (348601) :=
    binary32_eq _ 18 11155232 _ (by norm_num) (by norm_num) (by norm_num) (by norm_num)
      (by norm_num) (by norm_num) (by norm_num) (by norm_num)
  show castInt (fmul (fadd (fdiv (fmul (some (356353 / 256)) 30) (intToFloat dpi_logical))
      (intToFloat 1)) (intToFloat dpi_print)) = 348601
  rw [dim_eval _ _ _ _ _ _ h1 h2 h3 h4]
  exact castInt_some _ _ (by norm_num [floatToInt, Int.floor_eq_iff]) (by norm_num) (by norm_num)

theorem height_lowBounds : height new lowBounds = 5349 := by
  have h1 : binary32 (19 * 30) = some (570) :=
    binary32_eq _ 9 9338880 _ (by norm_num) (by norm_num) (by norm_num) (by norm_num)
      (by norm_num) (by norm_num) (by norm_num) (by norm_num)
  have h2 : binary32 (570 / 72) = some (16602453 / 2097152) :=
    binary32_eq _ 2 16602453 _ (by norm_num) (by norm_num) (by norm_num) (by norm_num)
      (by norm_num) (by norm_num) (by norm_num) (by norm_num)
  have h3 : binary32 (16602453 / 2097152 + 1) = some (4674901 / 524288) :=
    binary32_tie _ 3 9349802 9349802 _ (by norm_num) (by norm_num) (by norm_num) (by norm_num)
      (by decide) (by norm_num) (by norm_num) (by norm_num)
  have h4 : binary32 (4674901 / 524288 * 600) = some (10956799 / 2048) :=
    binary32_eq _ 12 10956799 _ (by norm_num) (by norm_num) (by norm_num) (by norm_num)
      (by norm_num) (by norm_num) (by norm_num) (by norm_num)
  show castInt (fmul (fadd (fdiv (fmul (some (19)) 30) (intToFloat dpi_logical))
      (intToFloat 1)) (intToFloat dpi_print)) = 5349
  rw [dim_eval _ _ _ _ _ _ h1 h2 h3 h4]
  exact castInt_some _ _ (by norm_num [floatToInt, Int.floor_eq_iff]) (by norm_num) (by norm_num)

theorem height_hugeBounds : height new hugeBounds = 136468608 := by
  have h1 : binary32 (545872 * 30) = some (16376160) :=
    binary32_eq _ 23 16376160 _ (by norm_num) (by norm_num) (by norm_num) (by norm_num)
      (by norm_num) (by norm_num) (by norm_num) (by norm_num)
  have h2 : binary32 (16376160 / 72) = some (14556587 / 64) :=
    binary32_eq _ 17 14556587 _ (by norm_num) (by norm_num) (by norm_num) (by norm_num)
      (by norm_num) (by norm_num) (by norm_num) (by norm_num)
  have h3 : binary32 (14556587 / 64 + 1) = some (14556651 / 64) :=
    binary32_eq _ 17 14556651 _ (by norm_num) (by norm_num) (by norm_num) (by norm_num)
      (by norm_num) (by norm_num) (by norm_num) (by norm_num)
  have h4 : binary32 (14556651 / 64 * 600) = some (136468608) :=
    binary32_eq _ 27 8529288 _ (by norm_num) (by norm_num) (by norm_num) (by norm_num)
      (by norm_num) (by norm_num) (by norm_num) (by norm_num)
  show castInt (fmul (fadd (fdiv (fmul (some (545872)) 30) (intToFloat dpi_logical))
      (intToFloat 1)) (intToFloat dpi_print)) = 136468608
  rw [dim_eval _ _ _ _ _ _ h1 h2 h3 h4]
  exact castInt_some _ _ (by norm_num [floatToInt, Int.floor_eq_iff]) (by norm_num) (by norm_num)

/-- On a new saver with the max corner `(4, -5)`: the width is 1599 and the height -649,
where `(v * 30 / 72 + 1) * 600` in exact arithmetic gives 1600 for `v = 4` and -650 for
`v = -5`. -/
theorem width_height_lowerBounds :
    width new lowerBounds = 1599 ∧ height new lowerBounds = -649 ∧
    specHeight new._bond_length lowerBounds.max.x = 1600 ∧
    specHeight new._bond_length lowerBounds.max.y = -650 := by
  refine ⟨?_, ?_, ?_, ?_⟩
  · -- the width
    have h1 : binary32 (4 * 30) = some (120) :=
      binary32_eq _ 6 15728640 _ (by norm_num) (by norm_num) (by norm_num) (by norm_num)
        (by norm_num) (by norm_num) (by norm_num) (by norm_num)
    have h2 : binary32 (120 / 72) = some (13981013 / 8388608) :=
      binary32_eq _ 0 13981013 _ (by norm_num) (by norm_num) (by norm_num) (by norm_num)
        (by norm_num) (by norm_num) (by norm_num) (by norm_num)
    have h3 : binary32 (13981013 / 8388608 + 1) = some (5592405 / 2097152) :=
      binary32_tie _ 1 11184810 11184810 _ (by norm_num) (by norm_num) (by norm_num) (by norm_num)
        (by decide) (by norm_num) (by norm_num) (by norm_num)
    have h4 : binary32 (5592405 / 2097152 * 600) = some (13107199 / 8192) :=
      binary32_eq _ 10 13107199 _ (by norm_num) (by norm_num) (by norm_num) (by norm_num)
        (by norm_num) (by norm_num) (by norm_num) (by norm_num)
    show castInt (fmul (fadd (fdiv (fmul (some 4) 30) (intToFloat dpi_logical))
      (intToFloat 1)) (intToFloat dpi_print)) = 1599
    rw [dim_eval _ _ _ _ _ _ h1 h2 h3 h4]
    exact castInt_some _ _ (by norm_num [floatToInt, Int.floor_eq_iff]) (by norm_num)
      (by norm_num)
  · -- the height: every step is negative
    have h1 : binary32 (-5 * 30) = some (-150) := by
      rw [show (-5 : ℚ) * 30 = -150 by norm_num]
      exact binary32_neg _ _ (binary32_eq _ 7 9830400 _ (by norm_num) (by norm_num)
        (by norm_num) (by norm_num) (by norm_num) (by norm_num) (by norm_num) (by norm_num))
    have h2 : binary32 (-150 / 72) = some (-(8738133 / 4194304)) := by
      rw [show (-150 : ℚ) / 72 = -(25 / 12) by norm_num]
      exact binary32_neg _ _ (binary32_eq _ 1 8738133 _ (by norm_num) (by norm_num)
        (by norm_num) (by norm_num) (by norm_num) (by norm_num) (by norm_num) (by norm_num))
    have h3 : binary32 (-(8738133 / 4194304) + 1) = some (-(4543829 / 4194304)) := by
      rw [show -(8738133 / 4194304 : ℚ) + 1 = -(4543829 / 4194304) by norm_num]
      exact binary32_neg _ _ (binary32_eq _ 0 9087658 _ (by norm_num) (by norm_num)
        (by norm_num) (by norm_num) (by norm_num) (by norm_num) (by norm_num) (by norm_num))
    have h4 : binary32 (-(4543829 / 4194304) * 600) = some (-(10649599 / 16384)) := by
      rw [show -(4543829 / 4194304 : ℚ) * 600 = -(340787175 / 524288) by norm_num]
      exact binary32_neg _ _ (binary32_eq _ 9 10649599 _ (by norm_num) (by norm_num)
        (by norm_num) (by norm_num) (by norm_num) (by norm_num) (by norm_num) (by norm_num))
    show castInt (fmul (fadd (fdiv (fmul (some (-5)) 30) (intToFloat dpi_logical))
      (intToFloat 1)) (intToFloat dpi_print)) = -649
    rw [dim_eval _ _ _ _ _ _ h1 h2 h3 h4]
    exact castInt_some _ _ (by norm_num [floatToInt, Int.ceil_eq_iff]) (by norm_num)
      (by norm_num)
  · norm_num [specHeight, new, lowerBounds, floatToInt, Int.floor_eq_iff]
  · norm_num [specHeight, new, lowerBounds, floatToInt, Int.ceil_eq_iff]

/-- The array `mac_print_info` written out slot by slot. -/
theorem mac_print_info_eq (height width : ℤ) :
    mac_print_info height width =
      [3, 0, 600, 600, 0, 0, height, width, 0, 0,
       height, width, 871, Int.tdiv height 5, Int.tdiv width 5, 0, 0, 0, 0, 0,
       0, 0, 0, 0, 100, 100, 0, 0, 0, 0,
       0, 0, 0, 0, 0, 0, 0, 0, 0, 0,
       0, 0, 0, 0, 0, 0, 0, 0, 0, 0,
       0, 0, 0, 0, 0, 0, 0, 0, 0, 0] := rfl

/-- The slots of the print settings that hold the height, and the calls that write them:
the slots come after five calls, so slot `i` is written by call `5 + i`. -/
theorem height_slots (sv : MoleculeCdxmlSaver) (b : Bounds) :
    (mac_print_info (heightAfter sv b) (width sv b))[6]? = some (heightAfter sv b) ∧
    (mac_print_info (heightAfter sv b) (width sv b))[10]? = some (heightAfter sv b) ∧
    (mac_print_info (heightAfter sv b) (width sv b))[13]? =
      some (Int.tdiv (heightAfter sv b) 5) ∧
    (beginDocument sv (some b)).1[11]? =
      some ⟨"%04hx", [.hx (toUShort (heightAfter sv b))]⟩ ∧
    (beginDocument sv (some b)).1[15]? =
      some ⟨"%04hx", [.hx (toUShort (heightAfter sv b))]⟩ ∧
    (beginDocument sv (some b)).1[18]? =
      some ⟨"%04hx", [.hx (toUShort (Int.tdiv (heightAfter sv b) 5))]⟩ := by
  have hout : (beginDocument sv (some b)).1 =
      documentHead sv ++
        [⟨" PrintMargins=\"36 36 36 36\"\n", []⟩, ⟨" MacPrintInfo=\"", []⟩] ++
        printMacPrintInfo (mac_print_info (heightAfter sv b) (width sv b)) ++
        [⟨"\"\n", []⟩, ⟨">\n", []⟩] := rfl
  rw [hout, mac_print_info_eq]
  exact ⟨rfl, rfl, rfl, rfl, rfl, rfl⟩

theorem height_range (sv : MoleculeCdxmlSaver) (b : Bounds) :
    -2147483648 ≤ height sv b ∧ height sv b < 2147483648 :=
  castInt_range _

theorem pagesAfter_tallBounds : pagesAfter new tallBounds = 2 := by
  unfold pagesAfter
  rw [height_tallBounds, max_height_new, if_pos (by decide),
    pageCount_eq_ceil 25600 16600 (by decide) (by decide) (by norm_num), Int.ceil_eq_iff]
  norm_num

theorem pagesAfter_roundedBounds : pagesAfter new roundedBounds = 22 := by
  unfold pagesAfter
  rw [height_roundedBounds, max_height_new, if_pos (by decide),
    pageCount_eq_ceil 348601 16600 (by decide) (by decide) (by norm_num), Int.ceil_eq_iff]
  norm_num

theorem pagesAfter_hugeBounds : pagesAfter new hugeBounds = 8221 := by
  have hx : round32 ((136468608 : ℤ) : ℚ) = 136468608 :=
    round32_eval _ 27 8529288 _ (by norm_num) (by norm_num) (by norm_num) (by norm_num)
      (by norm_num) (by norm_num)
  have hy : intToFloat 16600 = 16600 := by
    have h := round32_intCast 16600 (by norm_num)
    exact_mod_cast h
  have hq : binary32 (136468608 / 16600) = some 8221 :=
    binary32_eq _ 13 8418304 _ (by norm_num) (by norm_num) (by norm_num) (by norm_num)
      (by norm_num) (by norm_num) (by norm_num) (by norm_num)
  unfold pagesAfter
  rw [height_hugeBounds, max_height_new, if_pos (by decide)]
  unfold pageCount
  rw [hy]
  unfold intToFloat
  rw [hx, fdiv_some _ _ _ (by norm_num) hq]
  exact castInt_intCast 8221 (by decide) (by decide)

/-- C7, as stated, fails: single-precision rounding changes the height and the page count.
On a new saver the page height is 16600, by the formula of the specification as in
`beginDocument`. For `roundedBounds` the formula gives the height 348600, which is above
16600 and 21 times 16600, hence 21 pages, while `beginDocument` computes the height 348601
and leaves 22 pages. For `lowBounds` the formula gives 5350, within a page, and
`beginDocument` writes 5349. For `hugeBounds` the height computed is 136468608, which is
not a multiple of 16600 and whose exact quotient by 16600 has the ceiling 8222, while
`beginDocument` leaves 8221 pages. -/
theorem pagination_exact_formula_counterexample :
    specHeight new._bond_length new._max_page_height = 16600 ∧
    max_height new = 16600 ∧
    specHeight new._bond_length roundedBounds.max.y = 348600 ∧
    ((348600 : ℤ) : ℚ) = 21 * ((16600 : ℤ) : ℚ) ∧
    specPages 348600 16600 = 21 ∧
    height new roundedBounds = 348601 ∧
    (beginDocument new (some roundedBounds)).2._pages_height = 22 ∧
    (beginDocument new (some roundedBounds)).2._pages_height ≠
      specPages (specHeight new._bond_length roundedBounds.max.y)
        (specHeight new._bond_length new._max_page_height) ∧
    specHeight new._bond_length lowBounds.max.y = 5350 ∧
    height new lowBounds = 5349 ∧
    (mac_print_info (heightAfter new lowBounds) (width new lowBounds))[6]? = some 5349 ∧
    height new hugeBounds = 136468608 ∧
    (136468608 : ℤ) % 16600 ≠ 0 ∧
    specPages 136468608 16600 = 8222 ∧
    (beginDocument new (some hugeBounds)).2._pages_height = 8221 := by
  have hlow : heightAfter new lowBounds = 5349 := by
    unfold heightAfter
    rw [height_lowBounds, max_height_new]
    rfl
  have hm : specHeight new._bond_length new._max_page_height = 16600 := by
    norm_num [specHeight, new, floatToInt, Int.floor_eq_iff]
  have hs : specHeight new._bond_length roundedBounds.max.y = 348600 := by
    norm_num [specHeight, new, roundedBounds, floatToInt, Int.floor_eq_iff]
  have hp : specPages 348600 16600 = 21 := by
    unfold specPages
    rw [Int.ceil_eq_iff]
    norm_num
  have h22 : (beginDocument new (some roundedBounds)).2._pages_height = 22 :=
    pagesAfter_roundedBounds
  refine ⟨hm, max_height_new, hs, by norm_num, hp, height_roundedBounds, h22, ?_, ?_,
    height_lowBounds, ?_, height_hugeBounds, by decide, ?_, pagesAfter_hugeBounds⟩
  · rw [h22, hs, hm, hp]
    decide
  · norm_num [specHeight, new, lowBounds, floatToInt, Int.floor_eq_iff]
  · rw [(height_slots new lowBounds).1, hlow]
  · unfold specPages
    rw [Int.ceil_eq_iff]
    norm_num

/-- C7, amended. With bounds given, `beginDocument` writes the print settings of
`mac_print_info` for the height after the page test and the width, `height` and
`max_height` being computed in single precision: with the length unit 30 and
`0 ≤ max.y ≤ 4096` the height is within one print dot of the truncation of the exact
`(max.y * 30 / 72 + 1) * 600`, and need not be equal to it. When `height > max_height`, the
page count left in the saver is `(int)ceil((float)height / max_height)`, the quotient being
taken in single precision; if moreover `max_height` is positive and `height` is below
`2 ^ 24`, this is the ceiling of the exact quotient, hence the ceiling of `k` whenever
`height = k * max_height`. The height written is then `max_height`: slots 6 and 10 of the
print settings hold `max_height` and slot 13 holds `max_height / 5`, and the calls of index
11, 15 and 18 of the output, counted from 0, write these slots (five calls come before
slot 0). When `height ≤ max_height` the page count is left as it was, and the same slots
and calls hold `height` and `height / 5`. -/
theorem pagination (sv : MoleculeCdxmlSaver) (b : Bounds) :
    (beginDocument sv (some b)).1 =
      documentHead sv ++
        [⟨" PrintMargins=\"36 36 36 36\"\n", []⟩, ⟨" MacPrintInfo=\"", []⟩] ++
        printMacPrintInfo (mac_print_info (heightAfter sv b) (width sv b)) ++
        [⟨"\"\n", []⟩, ⟨">\n", []⟩] ∧
    ((sv._bond_length = 30 ∧ 0 ≤ b.max.y ∧ b.max.y ≤ 4096) →
      |height sv b - specHeight sv._bond_length b.max.y| ≤ 1) ∧
    (height sv b > max_height sv →
      (beginDocument sv (some b)).2._pages_height =
        castInt (fceil (fdiv (some (intToFloat (height sv b)))
          (intToFloat (max_height sv)))) ∧
      ((0 < max_height sv ∧ height sv b < 2 ^ 24) →
        (beginDocument sv (some b)).2._pages_height =
          ⌈((height sv b : ℤ) : ℚ) / ((max_height sv : ℤ) : ℚ)⌉ ∧
        ∀ k : ℚ, ((height sv b : ℤ) : ℚ) = k * ((max_height sv : ℤ) : ℚ) →
          (beginDocument sv (some b)).2._pages_height = ⌈k⌉) ∧
      heightAfter sv b = max_height sv ∧
      (mac_print_info (heightAfter sv b) (width sv b))[6]? = some (max_height sv) ∧
      (mac_print_info (heightAfter sv b) (width sv b))[10]? = some (max_height sv) ∧
      (mac_print_info (heightAfter sv b) (width sv b))[13]? =
        some (Int.tdiv (max_height sv) 5) ∧
      (beginDocument sv (some b)).1[11]? =
        some ⟨"%04hx", [.hx (toUShort (max_height sv))]⟩ ∧
      (beginDocument sv (some b)).1[15]? =
        some ⟨"%04hx", [.hx (toUShort (max_height sv))]⟩ ∧
      (beginDocument sv (some b)).1[18]? =
        some ⟨"%04hx", [.hx (toUShort (Int.tdiv (max_height sv) 5))]⟩) ∧
    (height sv b ≤ max_height sv →
      (beginDocument sv (some b)).2._pages_height = sv._pages_height ∧
      heightAfter sv b = height sv b ∧
      (mac_print_info (heightAfter sv b) (width sv b))[6]? = some (height sv b) ∧
      (mac_print_info (heightAfter sv b) (width sv b))[10]? = some (height sv b) ∧
      (mac_print_info (heightAfter sv b) (width sv b))[13]? =
        some (Int.tdiv (height sv b) 5) ∧
      (beginDocument sv (some b)).1[11]? =
        some ⟨"%04hx", [.hx (toUShort (height sv b))]⟩ ∧
      (beginDocument sv (some b)).1[15]? =
        some ⟨"%04hx", [.hx (toUShort (height sv b))]⟩ ∧
      (beginDocument sv (some b)).1[18]? =
        some ⟨"%04hx", [.hx (toUShort (Int.tdiv (height sv b) 5))]⟩) := by
  obtain ⟨s6, s10, s13, c11, c15, c18⟩ := height_slots sv b
  refine ⟨rfl, fun h => height_near_formula sv b h.1 h.2.1 h.2.2, ?_, ?_⟩
  · intro hgt
    have hpages : (beginDocument sv (some b)).2._pages_height =
        pageCount (height sv b) (max_height sv) := by
      show pagesAfter sv b = _
      unfold pagesAfter
      rw [if_pos hgt]
    have hha : heightAfter sv b = max_height sv := by
      unfold heightAfter
      rw [if_pos hgt]
    refine ⟨hpages, ?_, hha, by rw [s6, hha], by rw [s10, hha], by rw [s13, hha],
      by rw [c11, hha], by rw [c15, hha], by rw [c18, hha]⟩
    rintro ⟨hm, hh⟩
    have hceil : (beginDocument sv (some b)).2._pages_height =
        ⌈((height sv b : ℤ) : ℚ) / ((max_height sv : ℤ) : ℚ)⌉ := by
      rw [hpages]
      exact pageCount_eq_ceil _ _ hm hgt hh
    refine ⟨hceil, ?_⟩
    intro k hk
    have hmq : ((max_height sv : ℤ) : ℚ) ≠ 0 := by exact_mod_cast (ne_of_gt hm)
    have hkq : ((height sv b : ℤ) : ℚ) / ((max_height sv : ℤ) : ℚ) = k := by
      rw [hk, mul_div_assoc, div_self hmq, mul_one]
    rw [hceil, hkq]
  · intro hle
    have hng : ¬ height sv b > max_height sv := not_lt.2 hle
    have hha : heightAfter sv b = height sv b := by
      unfold heightAfter
      rw [if_neg hng]
    refine ⟨?_, hha, by rw [s6, hha], by rw [s10, hha], by rw [s13, hha],
      by rw [c11, hha], by rw [c15, hha], by rw [c18, hha]⟩
    show pagesAfter sv b = _
    unfold pagesAfter
    rw [if_neg hng]

/-- C7 on a new saver: for `tallBounds` the height 25600 is `128/83` times the page
height 16600, the page count becomes 2 and the height written is 16600, with 3320 in
slot 13; for `shortBounds` the height 3100 is written, with 620 in slot 13, and the page
count stays 1; for `lowBounds` the height is one less than the truncation of the exact
formula. -/
theorem pagination_witness :
    height new tallBounds > max_height new ∧
    (0 < max_height new ∧ height new tallBounds < 2 ^ 24) ∧
    ((height new tallBounds : ℤ) : ℚ) = (128 / 83 : ℚ) * ((max_height new : ℤ) : ℚ) ∧
    (beginDocument new (some tallBounds)).2._pages_height = ⌈(128 / 83 : ℚ)⌉ ∧
    ⌈(128 / 83 : ℚ)⌉ = 2 ∧
    max_height new = 16600 ∧
    (mac_print_info (heightAfter new tallBounds) (width new tallBounds))[6]? =
      some (max_height new) ∧
    (mac_print_info (heightAfter new tallBounds) (width new tallBounds))[13]? =
      some (Int.tdiv (max_height new) 5) ∧
    Int.tdiv (max_height new) 5 = 3320 ∧
    (beginDocument new (some tallBounds)).1[11]? =
      some ⟨"%04hx", [.hx (toUShort (max_height new))]⟩ ∧
    height new shortBounds ≤ max_height new ∧
    height new shortBounds = 3100 ∧
    (mac_print_info (heightAfter new shortBounds) (width new shortBounds))[6]? =
      some (height new shortBounds) ∧
    (mac_print_info (heightAfter new shortBounds) (width new shortBounds))[13]? =
      some (Int.tdiv (height new shortBounds) 5) ∧
    Int.tdiv (height new shortBounds) 5 = 620 ∧
    (beginDocument new (some shortBounds)).2._pages_height = new._pages_height ∧
    (new._bond_length = 30 ∧ 0 ≤ lowBounds.max.y ∧ lowBounds.max.y ≤ 4096) ∧
    |height new lowBounds - specHeight new._bond_length lowBounds.max.y| ≤ 1 ∧
    height new lowBounds - specHeight new._bond_length lowBounds.max.y = -1 := by
  have hgt : height new tallBounds > max_height new := by
    rw [height_tallBounds, max_height_new]; decide
  have hr : 0 < max_height new ∧ height new tallBounds < 2 ^ 24 := by
    rw [height_tallBounds, max_height_new]
    exact ⟨by decide, by norm_num⟩
  have hk : ((height new tallBounds : ℤ) : ℚ) = (128 / 83 : ℚ) * ((max_height new : ℤ) : ℚ) := by
    rw [height_tallBounds, max_height_new]; norm_num
  have hle : height new shortBounds ≤ max_height new := by
    rw [height_shortBounds, max_height_new]; decide
  have hceil : ⌈(128 / 83 : ℚ)⌉ = 2 := by
    rw [Int.ceil_eq_iff]; norm_num
  have h5a : Int.tdiv (max_height new) 5 = 3320 := by rw [max_height_new]; rfl
  have h5b : Int.tdiv (height new shortBounds) 5 = 620 := by rw [height_shortBounds]; rfl
  have hlow : new._bond_length = 30 ∧ 0 ≤ lowBounds.max.y ∧ lowBounds.max.y ≤ 4096 :=
    ⟨rfl, by norm_num [lowBounds], by norm_num [lowBounds]⟩
  have hspec : specHeight new._bond_length lowBounds.max.y = 5350 := by
    norm_num [specHeight, new, lowBounds, floatToInt, Int.floor_eq_iff]
  exact ⟨hgt, hr, hk, (((pagination new tallBounds).2.2.1 hgt).2.1 hr).2 _ hk, hceil,
    max_height_new,
    ((pagination new tallBounds).2.2.1 hgt).2.2.2.1,
    ((pagination new tallBounds).2.2.1 hgt).2.2.2.2.2.1, h5a,
    ((pagination new tallBounds).2.2.1 hgt).2.2.2.2.2.2.1,
    hle, height_shortBounds,
    ((pagination new shortBounds).2.2.2 hle).2.2.1,
    ((pagination new shortBounds).2.2.2 hle).2.2.2.2.1, h5b,
    ((pagination new shortBounds).2.2.2 hle).1,
    hlow, (pagination new lowBounds).2.1 hlow,
    by rw [height_lowBounds, hspec]; rfl⟩

/-- C8. With bounds given, the print settings written are those of `mac_print_info` for the
height after the page test and the width; the array has 60 slots, and slot `i` holds what
the table of the specification says: 3 in slot 0, 600 in slots 2 and 3, the height in
slots 6 and 10, the width in slots 7 and 11, 871 in slot 12, the height and the width
divided by 5 in slots 13 and 14, 100 in slots 24 and 25, and 0 elsewhere. -/
theorem print_settings_slots (sv : MoleculeCdxmlSaver) (b : Bounds) :
    (beginDocument sv (some b)).1 =
      documentHead sv ++
        [⟨" PrintMargins=\"36 36 36 36\"\n", []⟩, ⟨" MacPrintInfo=\"", []⟩] ++
        printMacPrintInfo (mac_print_info (heightAfter sv b) (width sv b)) ++
        [⟨"\"\n", []⟩, ⟨">\n", []⟩] ∧
    (mac_print_info (heightAfter sv b) (width sv b)).length = 60 ∧
    ∀ i : ℕ, i < 60 →
      (mac_print_info (heightAfter sv b) (width sv b))[i]? =
        some (specSlot (heightAfter sv b) (width sv b) i) := by
  refine ⟨rfl, rfl, ?_⟩
  intro i hi
  rw [mac_print_info_eq]
  interval_cases i <;> rfl

/-- C8 on a new saver with `tallBounds`: the height after the page test is 16600 and the
width 1350, so slots 13 and 14 hold 3320 and 270. -/
theorem print_settings_slots_witness :
    (mac_print_info (heightAfter new tallBounds) (width new tallBounds))[13]? =
      some (specSlot (heightAfter new tallBounds) (width new tallBounds) 13) ∧
    specSlot (heightAfter new tallBounds) (width new tallBounds) 13 = 3320 ∧
    (mac_print_info (heightAfter new tallBounds) (width new tallBounds))[14]? =
      some (specSlot (heightAfter new tallBounds) (width new tallBounds) 14) ∧
    specSlot (heightAfter new tallBounds) (width new tallBounds) 14 = 270 := by
  have hh : heightAfter new tallBounds = 16600 := by
    unfold heightAfter
    rw [height_tallBounds, max_height_new]
    rfl
  have hw : width new tallBounds = 1350 := width_tallBounds
  refine ⟨(print_settings_slots new tallBounds).2.2 13 (by decide), ?_,
    (print_settings_slots new tallBounds).2.2 14 (by decide), ?_⟩
  · rw [hh, hw]; rfl
  · rw [hh, hw]; rfl

/-! ## The text of the print settings -/

theorem hexDigit_val : ∀ n : ℕ, n < 16 → hexDigitVal (hexDigit n) = n := by
  decide

theorem hexDigit_mem : ∀ n : ℕ, n < 16 → hexDigit n ∈ "0123456789abcdef".data := by
  decide

theorem hex4_length (u : ℤ) : (hex4 u).length = 4 := rfl

theorem hex4_mem (u : ℤ) : ∀ c ∈ hex4 u, c ∈ "0123456789abcdef".data := by
  intro c hc
  unfold hex4 at hc
  simp only [List.mem_cons, List.mem_singleton, List.not_mem_nil, or_false] at hc
  rcases hc with hc | hc | hc | hc <;>
    (rw [hc]; exact hexDigit_mem _ (Nat.mod_lt _ (by decide)))

theorem hex4_value (v : ℤ) : (hexValue (hex4 (v % 65536)) : ℤ) = v % 65536 := by
  have h0 : 0 ≤ v % 65536 := Int.emod_nonneg v (by decide)
  have h1 : v % 65536 < 65536 := Int.emod_lt_of_pos v (by decide)
  obtain ⟨n, hn⟩ := Int.eq_ofNat_of_zero_le h0
  rw [hn] at h1 ⊢
  have hlt : n < 65536 := by exact_mod_cast h1
  have hval : hexValue (hex4 (n : ℤ)) = n := by
    unfold hexValue hex4
    simp only [Int.toNat_ofNat, List.foldl_cons, List.foldl_nil]
    rw [hexDigit_val _ (Nat.mod_lt _ (by decide)), hexDigit_val _ (Nat.mod_lt _ (by decide)),
      hexDigit_val _ (Nat.mod_lt _ (by decide)), hexDigit_val _ (Nat.mod_lt _ (by decide))]
    omega
  rw [hval]

theorem text_printMacPrintInfo (fmtF : ℚ → String) (l : List ℤ) :
    Output.text fmtF (printMacPrintInfo l) = hexText l := by
  induction l with
  | nil => rfl
  | cons v rest ih =>
    show Printf.text fmtF ⟨"%04hx", [.hx (toUShort v)]⟩ ++
      Output.text fmtF (printMacPrintInfo rest) = hex4 (v % 65536) ++ hexText rest
    rw [ih]
    rfl

theorem hexText_length (l : List ℤ) : (hexText l).length = 4 * l.length := by
  induction l with
  | nil => rfl
  | cons v rest ih =>
    rw [hexText, List.length_append, ih, hex4_length, List.length_cons]
    omega

theorem hexText_mem (l : List ℤ) : ∀ c ∈ hexText l, c ∈ "0123456789abcdef".data := by
  induction l with
  | nil => intro c hc; cases hc
  | cons v rest ih =>
    intro c hc
    rw [hexText, List.mem_append] at hc
    rcases hc with hc | hc
    · exact hex4_mem _ c hc
    · exact ih c hc

/-- C9. With bounds given, the calls between the opening of the `MacPrintInfo` attribute and
its closing quote are one `%04hx` call per slot; for every rendering of `%f` the text they
write is the concatenation, in slot order, of the four hexadecimal digits of each slot
modulo `2 ^ 16`; this text has 240 characters, all of them lowercase hexadecimal digits, and
the four digits of a slot read back as the slot modulo `2 ^ 16`, whatever the sign and the
size of the slot. -/
theorem mac_print_info_text (fmtF : ℚ → String) (sv : MoleculeCdxmlSaver) (b : Bounds) :
    (beginDocument sv (some b)).1 =
      documentHead sv ++
        [⟨" PrintMargins=\"36 36 36 36\"\n", []⟩, ⟨" MacPrintInfo=\"", []⟩] ++
        printMacPrintInfo (mac_print_info (heightAfter sv b) (width sv b)) ++
        [⟨"\"\n", []⟩, ⟨">\n", []⟩] ∧
    Output.text fmtF (printMacPrintInfo (mac_print_info (heightAfter sv b) (width sv b))) =
      hexText (mac_print_info (heightAfter sv b) (width sv b)) ∧
    (hexText (mac_print_info (heightAfter sv b) (width sv b))).length = 240 ∧
    (∀ c ∈ hexText (mac_print_info (heightAfter sv b) (width sv b)),
      c ∈ "0123456789abcdef".data) ∧
    (∀ v : ℤ, (hex4 (v % 65536)).length = 4 ∧
      (hexValue (hex4 (v % 65536)) : ℤ) = v % 65536) := by
  refine ⟨rfl, text_printMacPrintInfo fmtF _, ?_, hexText_mem _, fun v => ⟨rfl, hex4_value v⟩⟩
  rw [hexText_length]
  rfl

/-- The text of three slots: a negative one, one above 65535 and a small one. -/
theorem hexText_examples : hexText [-1, 70000, 3] = "ffff11700003".data := by
  decide

/-! ## Running a session twice -/

theorem pagesAfter_with (sv : MoleculeCdxmlSaver) (p : ℤ) (b : Bounds) :
    pagesAfter { sv with _pages_height := p } b =
      if height sv b > max_height sv then pageCount (height sv b) (max_height sv)
      else p := rfl

theorem pagesAfter_idem (sv : MoleculeCdxmlSaver) (b : Bounds) :
    pagesAfter { sv with _pages_height := pagesAfter sv b } b = pagesAfter sv b := by
  rw [pagesAfter_with]
  by_cases h : height sv b > max_height sv
  · rw [if_pos h]
    unfold pagesAfter
    rw [if_pos h]
  · rw [if_neg h]

/-- A second `beginDocument` with the same bounds writes the same calls and leaves the
saver as the first left it. -/
theorem beginDocument_idem (sv : MoleculeCdxmlSaver) (bounds : Option Bounds) :
    beginDocument (beginDocument sv bounds).2 bounds = beginDocument sv bounds := by
  cases bounds with
  | none => rfl
  | some b =>
    have hst : (beginDocument { sv with _pages_height := pagesAfter sv b } (some b)).2 =
        { sv with _pages_height := pagesAfter sv b } := by
      show ({ { sv with _pages_height := pagesAfter sv b } with
        _pages_height := pagesAfter { sv with _pages_height := pagesAfter sv b } b } :
          MoleculeCdxmlSaver) = _
      rw [pagesAfter_idem]
    exact Prod.ext rfl hst

/-- C10. A second session run on the saver the first one left, with the same bounds,
molecule, offset and scale, writes the same calls, throws the same error if any and leaves
the same saver; hence the text written is the same for every rendering of `%f`; and the
same holds for `saveMolecule` called twice. -/
theorem session_twice (sv : MoleculeCdxmlSaver) (bounds : Option Bounds) (mol : Molecule)
    (offset : Vec2f) (sc : ℚ) :
    session (session sv bounds mol offset sc).2.2 bounds mol offset sc =
      session sv bounds mol offset sc ∧
    (∀ fmtF : ℚ → String,
      Output.text fmtF (session (session sv bounds mol offset sc).2.2 bounds mol offset sc).1 =
        Output.text fmtF (session sv bounds mol offset sc).1) ∧
    saveMolecule (saveMolecule sv mol).2.2 mol = saveMolecule sv mol ∧
    (∀ fmtF : ℚ → String,
      Output.text fmtF (saveMolecule (saveMolecule sv mol).2.2 mol).1 =
        Output.text fmtF (saveMolecule sv mol).1) := by
  have key : ∀ (bd : Option Bounds) (off : Vec2f) (s : ℚ),
      session (session sv bd mol off s).2.2 bd mol off s = session sv bd mol off s := by
    intro bd off s
    have hst : (session sv bd mol off s).2.2 = (beginDocument sv bd).2 := by
      unfold session
      simp only []
      cases (saveMoleculeFragment (beginDocument sv bd).2 mol off s).res <;> rfl
    rw [hst]
    conv_lhs => unfold session
    rw [beginDocument_idem]
    rfl
  refine ⟨key bounds offset sc, fun fmtF => by rw [key], ?_, fun fmtF => ?_⟩
  · exact key none (saveMoleculeOffset mol) 1
  · have h : saveMolecule (saveMolecule sv mol).2.2 mol = saveMolecule sv mol :=
      key none (saveMoleculeOffset mol) 1
    rw [h]

/-! ## The calls of a whole fragment and of `saveMolecule` -/

theorem bondOrderAttr_events (order : ℤ) :
    ∀ p ∈ bondOrderAttr order, p.fmt ∈ bondAttrFmts := by
  intro p hp
  unfold bondOrderAttr at hp
  split_ifs at hp
  · rw [List.mem_singleton] at hp; subst hp; simp [bondAttrFmts]
  · rw [List.mem_singleton] at hp; subst hp; simp [bondAttrFmts]
  · cases hp

theorem bondStereoAttr_events (hx : Bool) (edge : Edge) :
    ∀ p ∈ bondStereoAttr hx edge, p.fmt ∈ bondAttrFmts := by
  intro p hp
  unfold bondStereoAttr at hp
  simp only [] at hp
  split_ifs at hp
  all_goals first
    | (rw [List.mem_singleton] at hp; subst hp; simp [bondAttrFmts])
    | cases hp

theorem saveBond_events (hx : Bool) (edge : Edge) :
    ∀ p ∈ saveBond hx edge, p.fmt ∈ bondFmts := by
  intro p hp
  unfold saveBond at hp
  simp only [List.mem_append, List.mem_singleton] at hp
  rcases hp with ((hp | hp) | hp) | hp
  · subst hp; simp [bondFmts, bondMarkerFmt]
  · exact List.mem_cons_of_mem _ (List.mem_append_left _ (bondOrderAttr_events _ p hp))
  · exact List.mem_cons_of_mem _ (List.mem_append_left _ (bondStereoAttr_events _ _ p hp))
  · subst hp; simp [bondFmts]

theorem saveBonds_events (hx : Bool) (l : List Edge) :
    ∀ p ∈ saveBonds hx l, p.fmt ∈ bondFmts := by
  induction l with
  | nil => intro p hp; cases hp
  | cons e rest ih =>
    intro p hp
    rw [saveBonds, List.mem_append] at hp
    rcases hp with hp | hp
    · exact saveBond_events hx e p hp
    · exact ih p hp

theorem chiralMark_events (sv : MoleculeCdxmlSaver) (scale : ℚ) (mx : Vec2f) :
    ∀ p ∈ chiralMark sv scale mx, p.fmt ∈ chiralFmts := by
  intro p hp
  unfold chiralMark addText addText3 at hp
  simp only [List.mem_append, List.mem_singleton] at hp
  rcases hp with (hp | hp) | hp <;> (subst hp; simp [chiralFmts])

/-- Every call `saveMoleculeFragment` makes has one of the format strings of
`fragmentFmts`, whether it returns or throws. -/
theorem saveMoleculeFragment_events (sv : MoleculeCdxmlSaver) (mol : Molecule)
    (offset : Vec2f) (sc : ℚ) :
    ∀ p ∈ (saveMoleculeFragment sv mol offset sc).out, p.fmt ∈ fragmentFmts := by
  have hatoms : ∀ p ∈ (saveAtoms (sc * sv._bond_length) mol.have_xyz offset 0 mol.atoms
      ⟨0, 0⟩ ⟨0, 0⟩).out, p.fmt ∈ fragmentFmts := by
    intro p hp
    rcases saveAtoms_events _ _ _ _ _ _ _ p hp with ⟨j, a, _, hpj⟩ | h
    · subst hpj; simp [fragmentFmts]
    · simp only [fragmentFmts, List.mem_append]
      exact Or.inl (Or.inl (Or.inl (Or.inr h)))
  intro p hp
  cases hr : (saveAtoms (sc * sv._bond_length) mol.have_xyz offset 0 mol.atoms
      ⟨0, 0⟩ ⟨0, 0⟩).res with
  | error e =>
    rw [saveMoleculeFragment_error sv mol offset sc e hr] at hp
    rcases List.mem_cons.1 hp with hp | hp
    · subst hp; simp [fragmentFmts]
    · exact hatoms p hp
  | ok box =>
    rw [saveMoleculeFragment_ok sv mol offset sc box hr] at hp
    simp only [List.mem_cons, List.mem_append, List.mem_singleton, List.not_mem_nil,
      or_false] at hp
    rcases hp with hp | ((hp | hp) | hp) | hp
    · subst hp; simp [fragmentFmts]
    · exact hatoms p hp
    · have := saveBonds_events _ _ p hp
      simp only [fragmentFmts, List.mem_append]
      exact Or.inl (Or.inl (Or.inr this))
    · split_ifs at hp
      · have := chiralMark_events _ _ _ p hp
        simp only [fragmentFmts, List.mem_append]
        exact Or.inl (Or.inr this)
      · cases hp
    · subst hp; simp [fragmentFmts, fragmentCloseFmt]

/-- What `saveMolecule` writes: the head of the document and the end of its opening tag,
the page opening, the fragment, and, unless the fragment throws, the two closing tags. -/
theorem saveMolecule_out (sv : MoleculeCdxmlSaver) (mol : Molecule) :
    ∃ rest, (rest = [] ∨ rest = endPage ++ endDocument) ∧
      (saveMolecule sv mol).1 =
        documentHead sv ++ [⟨">\n", []⟩] ++ beginPage sv none ++
          (saveMoleculeFragment sv mol (saveMoleculeOffset mol) 1).out ++ rest ∧
      (saveMolecule sv mol).2.2 = sv := by
  unfold saveMolecule session
  simp only []
  cases hr : (saveMoleculeFragment (beginDocument sv none).2 mol (saveMoleculeOffset mol) 1).res with
  | error e => exact ⟨[], Or.inl rfl, by simp [beginDocument, documentHead], rfl⟩
  | ok u =>
    exact ⟨endPage ++ endDocument, Or.inr rfl, by simp [beginDocument, documentHead], rfl⟩

theorem filter_fmt_fragment (sv : MoleculeCdxmlSaver) (mol : Molecule) (offset : Vec2f)
    (sc : ℚ) (f : String) (hf : f ∉ fragmentFmts) :
    (saveMoleculeFragment sv mol offset sc).out.filter (fun p => decide (p.fmt = f)) = [] := by
  rw [List.filter_eq_nil_iff]
  intro p hp hdec
  have hfmt : p.fmt = f := of_decide_eq_true hdec
  have := saveMoleculeFragment_events sv mol offset sc p hp
  rw [hfmt] at this
  exact hf this

/-! ## `beginDocument` without bounds -/

/-- C11, as stated, fails: the saver left by `beginDocument` with `tallBounds` on a new
saver is reachable and has the page count 2; `beginDocument` without bounds leaves it at 2,
and `saveMolecule` on that saver writes `HeightPages="2"` and no `HeightPages="1"`. -/
theorem beginDocument_none_stale_pages_counterexample :
    Reachable (beginDocument new (some tallBounds)).2 ∧
    (beginDocument (beginDocument new (some tallBounds)).2 none).2._pages_height = 2 ∧
    (saveMolecule (beginDocument new (some tallBounds)).2 ethane).1.filter
      (fun p => decide (p.fmt = pageAttrFmt)) = [evPage 2] ∧
    evPage 1 ∉ (saveMolecule (beginDocument new (some tallBounds)).2 ethane).1 := by
  have hst : (beginDocument new (some tallBounds)).2 =
      { new with _pages_height := 2 } := by
    show ({ new with _pages_height := pagesAfter new tallBounds } : MoleculeCdxmlSaver) = _
    rw [pagesAfter_tallBounds]
  refine ⟨Reachable.doc new (some tallBounds) Reachable.init, ?_, ?_, ?_⟩
  · rw [hst]; rfl
  · rw [hst]; decide
  · rw [hst]; decide

theorem filter_fmt_saveMolecule (sv : MoleculeCdxmlSaver) (mol : Molecule) (f : String)
    (hf : f ∉ fragmentFmts) (hend : f ≠ "</page>\n" ∧ f ≠ "</CDXML>\n") :
    (saveMolecule sv mol).1.filter (fun p => decide (p.fmt = f)) =
      (documentHead sv ++ [(⟨">\n", []⟩ : Printf)] ++ beginPage sv none).filter
        (fun p => decide (p.fmt = f)) := by
  obtain ⟨rest, hrest, hout, _⟩ := saveMolecule_out sv mol
  have hr : rest.filter (fun p => decide (p.fmt = f)) = [] := by
    rcases hrest with h | h
    · rw [h]; rfl
    · rw [h, List.filter_eq_nil_iff]
      intro p hp hdec
      have hfmt : p.fmt = f := of_decide_eq_true hdec
      simp only [endPage, endDocument, List.mem_append, List.mem_singleton] at hp
      rcases hp with hp | hp
      · subst hp; exact hend.1 hfmt.symm
      · subst hp; exact hend.2 hfmt.symm
  rw [hout, List.filter_append, List.filter_append, hr,
    filter_fmt_fragment sv mol _ 1 f hf, List.append_nil, List.append_nil]

/-- C11, amended. For every saver, `beginDocument` without bounds leaves the saver, and so
the page count, as it was, and writes the head of the document and the end of its opening
tag only: no `PrintMargins` and no `MacPrintInfo`. Hence `saveMolecule` opens one page and
writes one pair of page counts, `HeightPages` being the page count the saver holds and
`WidthPages` 1, and leaves the saver as it was; on a new saver the page count is 1 and
`HeightPages="1"` is written. -/
theorem beginDocument_without_bounds (sv : MoleculeCdxmlSaver) (mol : Molecule) :
    (beginDocument sv none).2 = sv ∧
    (beginDocument sv none).1 = documentHead sv ++ [⟨">\n", []⟩] ∧
    (∀ p ∈ (beginDocument sv none).1,
      p.fmt ≠ printMarginsFmt ∧ p.fmt ≠ macPrintInfoFmt) ∧
    (saveMolecule sv mol).1.filter (fun p => decide (p.fmt = "<page ")) = [⟨"<page ", []⟩] ∧
    (saveMolecule sv mol).1.filter (fun p => decide (p.fmt = pageAttrFmt)) =
      [evPage sv._pages_height] ∧
    (saveMolecule sv mol).2.2 = sv ∧
    new._pages_height = 1 ∧
    (saveMolecule new mol).1.filter (fun p => decide (p.fmt = pageAttrFmt)) = [evPage 1] := by
  have hpage : ∀ s : MoleculeCdxmlSaver,
      (saveMolecule s mol).1.filter (fun p => decide (p.fmt = pageAttrFmt)) =
        [evPage s._pages_height] := by
    intro s
    rw [filter_fmt_saveMolecule s mol pageAttrFmt (by decide) ⟨by decide, by decide⟩]
    simp [documentHead, beginPage, evPage, pageAttrFmt, List.filter]
  refine ⟨rfl, rfl, ?_, ?_, hpage sv, (saveMolecule_out sv mol).choose_spec.2.2, rfl,
    hpage new⟩
  · intro p hp
    have hp2 : p ∈ documentHead sv ++ [⟨">\n", []⟩] := hp
    simp only [documentHead, List.mem_append, List.mem_cons, List.mem_singleton,
      List.not_mem_nil, or_false] at hp2
    rcases hp2 with (hp2 | hp2 | hp2) | hp2 <;>
      (subst hp2; simp [printMarginsFmt, macPrintInfoFmt])
  · rw [filter_fmt_saveMolecule sv mol "<page " (by decide) ⟨by decide, by decide⟩]
    simp [documentHead, beginPage, List.filter]

/-! ## The blocks of a whole document -/

theorem filter_isBlockMark_nil (l : Output) (F : List String)
    (hl : ∀ p ∈ l, p.fmt ∈ F) (hF : ∀ f ∈ F, f ∉ blockFmts) :
    l.filter isBlockMark = [] := by
  rw [List.filter_eq_nil_iff]
  intro p hp hmark
  exact hF p.fmt (hl p hp) (of_decide_eq_true hmark)

theorem isBlockMark_mk (f : String) (args : List Arg) (h : f ∈ blockFmts) :
    isBlockMark ⟨f, args⟩ = true := decide_eq_true h

theorem filter_isBlockMark_atomBlock (scale : ℚ) (hx : Bool) (offset : Vec2f) (i : ℕ)
    (a : Atom) (h : ¬ unsupported a) :
    (atomBlock scale hx offset i a).filter isBlockMark =
      [⟨atomMarkerFmt, [.d ((i : ℤ) + 1), .d a.number]⟩] := by
  obtain ⟨attrs, hattrs, hshape⟩ := atomBlock_shape scale hx offset i a h
  rw [hshape, List.cons_append,
    List.filter_cons_of_pos (isBlockMark_mk atomMarkerFmt _ (by decide)),
    List.filter_append,
    filter_isBlockMark_nil attrs attrFmts hattrs (by decide),
    filter_isBlockMark_nil _ closeFmts (atomClose_events _ a) (by decide)]
  rfl

theorem filter_isBlockMark_saveAtoms (scale : ℚ) (hx : Bool) (offset : Vec2f)
    (l : List Atom) :
    ∀ (i : ℕ) (mn mx : Vec2f), (∀ b ∈ l, ¬ unsupported b) →
      (saveAtoms scale hx offset i l mn mx).out.filter isBlockMark = atomMarkers i l := by
  induction l with
  | nil => intro i mn mx _; rfl
  | cons a rest ih =>
    intro i mn mx hall
    have ha : ¬ unsupported a := hall a (List.mem_cons_self _ _)
    have hrest : ∀ b ∈ rest, ¬ unsupported b := fun b hb => hall b (List.mem_cons_of_mem _ hb)
    obtain ⟨box, hbox⟩ := saveAtom_res_supported scale hx offset i a mn mx ha
    have hblock : (saveAtom scale hx offset i a mn mx).out = atomBlock scale hx offset i a :=
      saveAtom_out_indep scale hx offset i a mn mx ⟨0, 0⟩ ⟨0, 0⟩
    rw [saveAtoms_cons, hbox]
    simp only []
    rw [List.filter_append, hblock, filter_isBlockMark_atomBlock scale hx offset i a ha,
      ih (i + 1) box.1 box.2 hrest]
    rfl

theorem filter_isBlockMark_saveBond (hx : Bool) (e : Edge) :
    (saveBond hx e).filter isBlockMark =
      [⟨bondMarkerFmt, [.d (e.beg + 1), .d (e.end_ + 1)]⟩] := by
  unfold saveBond
  rw [List.append_assoc, List.append_assoc, List.singleton_append,
    List.filter_cons_of_pos (isBlockMark_mk "    <b B=\"%d\" E=\"%d\"" _ (by decide)),
    List.filter_append, List.filter_append,
    filter_isBlockMark_nil _ bondAttrFmts (bondOrderAttr_events _) (by decide),
    filter_isBlockMark_nil _ bondAttrFmts (bondStereoAttr_events _ _) (by decide)]
  rfl

theorem filter_isBlockMark_saveBonds (hx : Bool) (l : List Edge) :
    (saveBonds hx l).filter isBlockMark = bondMarkers l := by
  induction l with
  | nil => rfl
  | cons e rest ih =>
    rw [saveBonds, List.filter_append, filter_isBlockMark_saveBond, ih]
    rfl

theorem atomMarkers_length (l : List Atom) : ∀ i, (atomMarkers i l).length = l.length := by
  induction l with
  | nil => intro i; rfl
  | cons a rest ih => intro i; simp [atomMarkers, ih]

theorem bondMarkers_length (l : List Edge) : (bondMarkers l).length = l.length := by
  induction l with
  | nil => rfl
  | cons e rest ih => simp [bondMarkers, ih]

theorem atomMarkers_getElem (l : List Atom) :
    ∀ (i k : ℕ) (a : Atom), l[k]? = some a →
      (atomMarkers i l)[k]? = some ⟨atomMarkerFmt, [.d (((i + k : ℕ) : ℤ) + 1), .d a.number]⟩ := by
  induction l with
  | nil => intro i k a h; simp at h
  | cons b rest ih =>
    intro i k a h
    cases k with
    | zero =>
      simp only [List.getElem?_cons_zero, Option.some.injEq] at h
      subst h
      simp [atomMarkers]
    | succ k =>
      simp only [List.getElem?_cons_succ] at h
      have := ih (i + 1) k a h
      simp only [atomMarkers, List.getElem?_cons_succ]
      rw [this]
      have hidx : i + 1 + k = i + (k + 1) := by omega
      rw [hidx]

theorem bondMarkers_getElem (l : List Edge) :
    ∀ (k : ℕ) (e : Edge), l[k]? = some e →
      (bondMarkers l)[k]? = some ⟨bondMarkerFmt, [.d (e.beg + 1), .d (e.end_ + 1)]⟩ := by
  induction l with
  | nil => intro k e h; simp at h
  | cons b rest ih =>
    intro k e h
    cases k with
    | zero =>
      simp only [List.getElem?_cons_zero, Option.some.injEq] at h
      subst h
      simp [bondMarkers]
    | succ k =>
      simp only [List.getElem?_cons_succ] at h
      simp only [bondMarkers, List.getElem?_cons_succ]
      exact ih k e h

/-- When no atom is unsupported `saveMolecule` returns, having written the document head,
the page opening, the fragment and the two closing tags. -/
theorem saveMolecule_supported (sv : MoleculeCdxmlSaver) (mol : Molecule)
    (hsup : ∀ b ∈ mol.atoms, ¬ unsupported b) :
    saveMolecule sv mol =
      (documentHead sv ++ [⟨">\n", []⟩] ++ beginPage sv none ++
          (saveMoleculeFragment sv mol (saveMoleculeOffset mol) 1).out ++
          endPage ++ endDocument, none, sv) := by
  obtain ⟨box, hfrag⟩ := saveMoleculeFragment_supported sv mol (saveMoleculeOffset mol) 1 hsup
  have hres : (saveMoleculeFragment sv mol (saveMoleculeOffset mol) 1).res = .ok () := by
    rw [hfrag]
  unfold saveMolecule session
  simp only []
  have hst : (beginDocument sv none).2 = sv := rfl
  rw [hst, hres]
  rfl

/-- C12. For a molecule whose atoms are all supported, `saveMolecule` on a new saver
returns, and the calls that open or close a page or a fragment or open an atom or a bond
are, in order: one page opening, one fragment opening, one opening per atom in index order
with `id` the index plus one, one opening per bond in index order with `B` and `E` the ends
plus one, one fragment closing and one page closing. For `ethane` the whole output is
written out: the atoms have the ids 1 and 2, and the only bond has `B=1`, `E=2` and no
`Order`. -/
theorem whole_document_blocks (mol : Molecule) (hsup : ∀ b ∈ mol.atoms, ¬ unsupported b) :
    (saveMolecule new mol).2.1 = none ∧
    (saveMolecule new mol).1.filter isBlockMark =
      [⟨"<page ", []⟩, ⟨"<fragment>\n", []⟩] ++ atomMarkers 0 mol.atoms ++
        bondMarkers mol.edges ++ [⟨fragmentCloseFmt, []⟩, ⟨"</page>\n", []⟩] ∧
    (atomMarkers 0 mol.atoms).length = mol.atoms.length ∧
    (bondMarkers mol.edges).length = mol.edges.length ∧
    (∀ (i : ℕ) (a : Atom), mol.atoms[i]? = some a →
      (atomMarkers 0 mol.atoms)[i]? = some ⟨atomMarkerFmt, [.d ((i : ℤ) + 1), .d a.number]⟩) ∧
    (∀ (j : ℕ) (e : Edge), mol.edges[j]? = some e →
      (bondMarkers mol.edges)[j]? =
        some ⟨bondMarkerFmt, [.d (e.beg + 1), .d (e.end_ + 1)]⟩) ∧
    (saveMolecule new ethane).1 =
      documentHead new ++
        [⟨">\n", []⟩, ⟨"<page ", []⟩, evPage 1, ⟨">\n", []⟩, ⟨"<fragment>\n", []⟩,
         ⟨atomMarkerFmt, [.d 1, .d 6]⟩, ⟨"/>\n", []⟩,
         ⟨atomMarkerFmt, [.d 2, .d 6]⟩, ⟨"/>\n", []⟩,
         ⟨bondMarkerFmt, [.d 1, .d 2]⟩, ⟨"/>\n", []⟩,
         ⟨fragmentCloseFmt, []⟩, ⟨"</page>\n", []⟩, ⟨"</CDXML>\n", []⟩] := by
  obtain ⟨box, hfrag⟩ :=
    saveMoleculeFragment_supported new mol (saveMoleculeOffset mol) 1 hsup
  refine ⟨by rw [saveMolecule_supported new mol hsup], ?_, atomMarkers_length _ 0,
    bondMarkers_length _, ?_, bondMarkers_getElem _, by decide⟩
  · rw [saveMolecule_supported new mol hsup, hfrag]
    simp only [List.filter_append, List.filter_cons]
    rw [filter_isBlockMark_saveAtoms _ _ _ _ 0 _ _ hsup, filter_isBlockMark_saveBonds]
    have hchiral : (if mol.chiral = true then chiralMark new (1 * new._bond_length) box.2
        else []).filter isBlockMark = [] := by
      split_ifs
      · exact filter_isBlockMark_nil _ chiralFmts (chiralMark_events _ _ _) (by decide)
      · rfl
    rw [hchiral]
    simp [documentHead, beginPage, endPage, endDocument, isBlockMark, blockFmts,
      fragmentCloseFmt, atomMarkerFmt, bondMarkerFmt]
  · intro i a hi
    have := atomMarkers_getElem mol.atoms 0 i a hi
    rw [this]
    simp

/-- C12 on `ethane`: the two carbons are supported, and the blocks are the page, the
fragment, the atoms 1 and 2 and the bond from 1 to 2. -/
theorem whole_document_blocks_witness :
    (∀ b ∈ ethane.atoms, ¬ unsupported b) ∧
    (saveMolecule new ethane).2.1 = none ∧
    (saveMolecule new ethane).1.filter isBlockMark =
      [⟨"<page ", []⟩, ⟨"<fragment>\n", []⟩] ++ atomMarkers 0 ethane.atoms ++
        bondMarkers ethane.edges ++ [⟨fragmentCloseFmt, []⟩, ⟨"</page>\n", []⟩] ∧
    atomMarkers 0 ethane.atoms = [⟨atomMarkerFmt, [.d 1, .d 6]⟩, ⟨atomMarkerFmt, [.d 2, .d 6]⟩] ∧
    bondMarkers ethane.edges = [⟨bondMarkerFmt, [.d 1, .d 2]⟩] :=
  ⟨by decide, (whole_document_blocks ethane (by decide)).1,
    (whole_document_blocks ethane (by decide)).2.1, by decide, by decide⟩

/-! ## Bonds: order and stereo attributes -/

/-- When no atom is unsupported the call returns and the block of bond `j` stands in the
output after the atoms and the bonds before `j`. -/
theorem saveMoleculeFragment_bond (sv : MoleculeCdxmlSaver) (mol : Molecule) (offset : Vec2f)
    (sc : ℚ) (j : ℕ) (edge : Edge)
    (hsup : ∀ b ∈ mol.atoms, ¬ unsupported b)
    (hj : mol.edges[j]? = some edge) :
    (saveMoleculeFragment sv mol offset sc).res = .ok () ∧
    ∃ post, (saveMoleculeFragment sv mol offset sc).out =
      ⟨"<fragment>\n", []⟩ ::
        ((saveAtoms (sc * sv._bond_length) mol.have_xyz offset 0 mol.atoms ⟨0, 0⟩ ⟨0, 0⟩).out ++
          saveBonds mol.have_xyz (mol.edges.take j) ++ saveBond mol.have_xyz edge ++ post) := by
  obtain ⟨box, hfrag⟩ := saveMoleculeFragment_supported sv mol offset sc hsup
  refine ⟨by rw [hfrag], ?_⟩
  refine ⟨saveBonds mol.have_xyz (mol.edges.drop (j + 1)) ++
    ((if mol.chiral then chiralMark sv (sc * sv._bond_length) box.2 else []) ++
      [⟨"</fragment>\n", []⟩]), ?_⟩
  rw [hfrag, saveBonds_split mol.have_xyz mol.edges j edge hj]
  simp only [List.append_assoc]

theorem bondOrderAttr_fmt (order : ℤ) :
    ∀ p ∈ bondOrderAttr order, p.fmt = orderFmt ∨ p.fmt = orderAromaticFmt := by
  intro p hp
  unfold bondOrderAttr at hp
  split_ifs at hp
  · rw [List.mem_singleton] at hp; subst hp; exact Or.inl rfl
  · rw [List.mem_singleton] at hp; subst hp; exact Or.inr rfl
  · cases hp

theorem bondStereoAttr_fmt (hx : Bool) (edge : Edge) :
    ∀ p ∈ bondStereoAttr hx edge, p.fmt = displayFmt ∨ p.fmt = circularOrderingFmt := by
  intro p hp
  unfold bondStereoAttr at hp
  simp only [] at hp
  split_ifs at hp
  all_goals first
    | (rw [List.mem_singleton] at hp; subst hp; exact Or.inl rfl)
    | (rw [List.mem_singleton] at hp; subst hp; exact Or.inr rfl)
    | cases hp

/-- C13. For a bond `j` of a molecule whose atoms are all supported, the call returns and
the block of the bond stands in the output; it is the opening of the bond, its order part,
its stereo part and the end of the element. The order part is `Order` with the number 2
for a double bond, with the number 3 for a triple bond, the fixed `Order="1.5"` for an
aromatic bond, and nothing for any other order; the stereo part writes no `Order`. -/
theorem bond_order_attribute (sv : MoleculeCdxmlSaver) (mol : Molecule) (offset : Vec2f)
    (sc : ℚ) (j : ℕ) (edge : Edge)
    (hsup : ∀ b ∈ mol.atoms, ¬ unsupported b)
    (hj : mol.edges[j]? = some edge) :
    (saveMoleculeFragment sv mol offset sc).res = .ok () ∧
    (∃ post, (saveMoleculeFragment sv mol offset sc).out =
      ⟨"<fragment>\n", []⟩ ::
        ((saveAtoms (sc * sv._bond_length) mol.have_xyz offset 0 mol.atoms ⟨0, 0⟩ ⟨0, 0⟩).out ++
          saveBonds mol.have_xyz (mol.edges.take j) ++ saveBond mol.have_xyz edge ++ post)) ∧
    saveBond mol.have_xyz edge =
      [⟨bondMarkerFmt, [.d (edge.beg + 1), .d (edge.end_ + 1)]⟩] ++
        bondOrderAttr edge.order ++ bondStereoAttr mol.have_xyz edge ++ [⟨"/>\n", []⟩] ∧
    (∀ p ∈ bondStereoAttr mol.have_xyz edge,
      p.fmt ≠ orderFmt ∧ p.fmt ≠ orderAromaticFmt) ∧
    (edge.order = BOND_DOUBLE → bondOrderAttr edge.order = [⟨orderFmt, [.d 2]⟩]) ∧
    (edge.order = BOND_TRIPLE → bondOrderAttr edge.order = [⟨orderFmt, [.d 3]⟩]) ∧
    (edge.order = BOND_AROMATIC → bondOrderAttr edge.order = [⟨orderAromaticFmt, []⟩]) ∧
    ((edge.order ≠ BOND_DOUBLE ∧ edge.order ≠ BOND_TRIPLE ∧ edge.order ≠ BOND_AROMATIC) →
      bondOrderAttr edge.order = []) := by
  obtain ⟨hres, hout⟩ := saveMoleculeFragment_bond sv mol offset sc j edge hsup hj
  refine ⟨hres, hout, rfl, ?_, ?_, ?_, ?_, ?_⟩
  · intro p hp
    rcases bondStereoAttr_fmt _ _ p hp with h | h
    · rw [h]; exact ⟨by decide, by decide⟩
    · rw [h]; exact ⟨by decide, by decide⟩
  · intro h
    rw [h]; rfl
  · intro h
    rw [h]; rfl
  · intro h
    rw [h]; rfl
  · intro h
    unfold bondOrderAttr
    rw [if_neg (fun hc => hc.elim h.1 h.2.1), if_neg h.2.2]

/-- C13 on `wedgeMol`: bond 0 is double and gets `Order` 2, bond 1 is aromatic and gets
`Order="1.5"`, bond 2 is single and gets no order part, bond 3 is triple and gets
`Order` 3. -/
theorem bond_order_attribute_witness :
    (∀ b ∈ wedgeMol.atoms, ¬ unsupported b) ∧
    wedgeMol.edges[0]? = some doubleBond ∧
    doubleBond.order = BOND_DOUBLE ∧
    bondOrderAttr doubleBond.order = [⟨orderFmt, [.d 2]⟩] ∧
    wedgeMol.edges[1]? = some aromaticBond ∧
    aromaticBond.order = BOND_AROMATIC ∧
    bondOrderAttr aromaticBond.order = [⟨orderAromaticFmt, []⟩] ∧
    wedgeMol.edges[2]? = some wedgeUpBond ∧
    (wedgeUpBond.order ≠ BOND_DOUBLE ∧ wedgeUpBond.order ≠ BOND_TRIPLE ∧
      wedgeUpBond.order ≠ BOND_AROMATIC) ∧
    bondOrderAttr wedgeUpBond.order = [] ∧
    wedgeMol.edges[3]? = some wedgeDownBond ∧
    wedgeDownBond.order = BOND_TRIPLE ∧
    bondOrderAttr wedgeDownBond.order = [⟨orderFmt, [.d 3]⟩] :=
  ⟨by decide, rfl, rfl,
    (bond_order_attribute new wedgeMol ⟨0, 0⟩ 1 0 doubleBond (by decide) rfl).2.2.2.2.1 rfl,
    rfl, rfl,
    (bond_order_attribute new wedgeMol ⟨0, 0⟩ 1 1 aromaticBond (by decide) rfl).2.2.2.2.2.2.1
      rfl,
    rfl, by decide,
    (bond_order_attribute new wedgeMol ⟨0, 0⟩ 1 2 wedgeUpBond (by decide) rfl).2.2.2.2.2.2.2
      (by decide),
    rfl, rfl,
    (bond_order_attribute new wedgeMol ⟨0, 0⟩ 1 3 wedgeDownBond (by decide) rfl).2.2.2.2.2.1
      rfl⟩

/-- C14. For a bond `j` of a molecule whose atoms are all supported, the call returns and
the block of the bond stands in the output; it is the opening of the bond, its order part,
its stereo part and the end of the element, and the order part writes neither a `Display`
nor a `BondCircularOrdering`. The stereo part is `Display="WedgeBegin"` when the molecule
has coordinates and the direction is up, `Display="WedgedHashBegin"` when it has
coordinates and the direction is down, a `BondCircularOrdering` when it has no coordinates
and the parity is not 0, and nothing in every other case. So the block of the bond holds a
`Display` exactly when the molecule has coordinates and the direction is up or down, it
holds a `BondCircularOrdering` exactly when the molecule has no coordinates and the parity
is not 0, and it never holds both. -/
theorem bond_display_or_ordering (sv : MoleculeCdxmlSaver) (mol : Molecule) (offset : Vec2f)
    (sc : ℚ) (j : ℕ) (edge : Edge)
    (hsup : ∀ b ∈ mol.atoms, ¬ unsupported b)
    (hj : mol.edges[j]? = some edge) :
    (saveMoleculeFragment sv mol offset sc).res = .ok () ∧
    (∃ post, (saveMoleculeFragment sv mol offset sc).out =
      ⟨"<fragment>\n", []⟩ ::
        ((saveAtoms (sc * sv._bond_length) mol.have_xyz offset 0 mol.atoms ⟨0, 0⟩ ⟨0, 0⟩).out ++
          saveBonds mol.have_xyz (mol.edges.take j) ++ saveBond mol.have_xyz edge ++ post)) ∧
    saveBond mol.have_xyz edge =
      [⟨bondMarkerFmt, [.d (edge.beg + 1), .d (edge.end_ + 1)]⟩] ++
        bondOrderAttr edge.order ++ bondStereoAttr mol.have_xyz edge ++ [⟨"/>\n", []⟩] ∧
    (∀ p ∈ bondOrderAttr edge.order,
      p.fmt ≠ displayFmt ∧ p.fmt ≠ circularOrderingFmt) ∧
    ((mol.have_xyz = true ∧ edge.direction = BOND_UP) →
      bondStereoAttr mol.have_xyz edge = [evDisplay "WedgeBegin"]) ∧
    ((mol.have_xyz = true ∧ edge.direction = BOND_DOWN) →
      bondStereoAttr mol.have_xyz edge = [evDisplay "WedgedHashBegin"]) ∧
    ((mol.have_xyz = false ∧ edge.parity ≠ 0) →
      ∃ c d, bondStereoAttr mol.have_xyz edge =
        [evBondCircularOrdering (edge.subst.s0 + 1) (edge.subst.s1 + 1) c d]) ∧
    ((¬ (mol.have_xyz = true ∧ (edge.direction = BOND_UP ∨ edge.direction = BOND_DOWN)) ∧
        ¬ (mol.have_xyz = false ∧ edge.parity ≠ 0)) →
      bondStereoAttr mol.have_xyz edge = []) ∧
    ((∃ p ∈ saveBond mol.have_xyz edge, p.fmt = displayFmt) ↔
      (mol.have_xyz = true ∧ (edge.direction = BOND_UP ∨ edge.direction = BOND_DOWN))) ∧
    ((∃ q ∈ saveBond mol.have_xyz edge, q.fmt = circularOrderingFmt) ↔
      (mol.have_xyz = false ∧ edge.parity ≠ 0)) ∧
    ¬ ((∃ p ∈ saveBond mol.have_xyz edge, p.fmt = displayFmt) ∧
      (∃ q ∈ saveBond mol.have_xyz edge, q.fmt = circularOrderingFmt)) := by
  obtain ⟨hres, hout⟩ := saveMoleculeFragment_bond sv mol offset sc j edge hsup hj
  have hord : ∀ p ∈ bondOrderAttr edge.order,
      p.fmt ≠ displayFmt ∧ p.fmt ≠ circularOrderingFmt := by
    intro p hp
    rcases bondOrderAttr_fmt _ p hp with h | h
    · rw [h]; exact ⟨by decide, by decide⟩
    · rw [h]; exact ⟨by decide, by decide⟩
  have hup : (mol.have_xyz = true ∧ edge.direction = BOND_UP) →
      bondStereoAttr mol.have_xyz edge = [evDisplay "WedgeBegin"] := by
    intro h
    unfold bondStereoAttr
    simp only []
    rw [if_pos ⟨h.1, Or.inl h.2⟩, if_pos h.2]
    rfl
  have hdown : (mol.have_xyz = true ∧ edge.direction = BOND_DOWN) →
      bondStereoAttr mol.have_xyz edge = [evDisplay "WedgedHashBegin"] := by
    intro h
    have hne : ¬ edge.direction = BOND_UP := by rw [h.2]; decide
    unfold bondStereoAttr
    simp only []
    rw [if_pos ⟨h.1, Or.inr h.2⟩, if_neg hne]
    rfl
  have hco : (mol.have_xyz = false ∧ edge.parity ≠ 0) →
      ∃ c d, bondStereoAttr mol.have_xyz edge =
        [evBondCircularOrdering (edge.subst.s0 + 1) (edge.subst.s1 + 1) c d] := by
    intro h
    have hno : ¬ (mol.have_xyz = true ∧ (edge.direction = BOND_UP ∨ edge.direction = BOND_DOWN)) := by
      rw [h.1]; simp
    unfold bondStereoAttr
    simp only []
    rw [if_neg hno, if_pos h]
    exact ⟨_, _, rfl⟩
  have hnone : (¬ (mol.have_xyz = true ∧
        (edge.direction = BOND_UP ∨ edge.direction = BOND_DOWN)) ∧
        ¬ (mol.have_xyz = false ∧ edge.parity ≠ 0)) →
      bondStereoAttr mol.have_xyz edge = [] := by
    intro h
    unfold bondStereoAttr
    simp only []
    rw [if_neg h.1, if_neg h.2]
  have hmem : ∀ r ∈ saveBond mol.have_xyz edge,
      (r.fmt = displayFmt ∨ r.fmt = circularOrderingFmt) → r ∈ bondStereoAttr mol.have_xyz edge := by
    intro r hr hrf
    unfold saveBond at hr
    simp only [List.mem_append, List.mem_singleton] at hr
    rcases hr with ((hr | hr) | hr) | hr
    · subst hr
      rcases hrf with h | h
      · exact absurd h (show bondMarkerFmt ≠ displayFmt by decide)
      · exact absurd h (show bondMarkerFmt ≠ circularOrderingFmt by decide)
    · rcases hrf with h | h
      · exact absurd h (hord r hr).1
      · exact absurd h (hord r hr).2
    · exact hr
    · subst hr
      rcases hrf with h | h
      · exact absurd h (show "/>\n" ≠ displayFmt by decide)
      · exact absurd h (show "/>\n" ≠ circularOrderingFmt by decide)
  have hsub : ∀ r ∈ bondStereoAttr mol.have_xyz edge, r ∈ saveBond mol.have_xyz edge := by
    intro r hr
    unfold saveBond
    simp only [List.mem_append, List.mem_singleton]
    exact Or.inl (Or.inr hr)
  have hcases : (mol.have_xyz = true ∧ (edge.direction = BOND_UP ∨ edge.direction = BOND_DOWN) ∧
        ∃ st, bondStereoAttr mol.have_xyz edge = [evDisplay st]) ∨
      (¬ (mol.have_xyz = true ∧ (edge.direction = BOND_UP ∨ edge.direction = BOND_DOWN)) ∧
        (mol.have_xyz = false ∧ edge.parity ≠ 0) ∧
        ∃ a b c d, bondStereoAttr mol.have_xyz edge = [evBondCircularOrdering a b c d]) ∨
      (¬ (mol.have_xyz = true ∧ (edge.direction = BOND_UP ∨ edge.direction = BOND_DOWN)) ∧
        ¬ (mol.have_xyz = false ∧ edge.parity ≠ 0) ∧
        bondStereoAttr mol.have_xyz edge = []) := by
    by_cases hd : mol.have_xyz = true ∧ (edge.direction = BOND_UP ∨ edge.direction = BOND_DOWN)
    · refine Or.inl ⟨hd.1, hd.2, ?_⟩
      rcases hd with ⟨h1, h2 | h2⟩
      · exact ⟨_, hup ⟨h1, h2⟩⟩
      · exact ⟨_, hdown ⟨h1, h2⟩⟩
    · by_cases hc : mol.have_xyz = false ∧ edge.parity ≠ 0
      · obtain ⟨c, d, hcd⟩ := hco hc
        exact Or.inr (Or.inl ⟨hd, hc, _, _, c, d, hcd⟩)
      · exact Or.inr (Or.inr ⟨hd, hc, hnone ⟨hd, hc⟩⟩)
  have hdisp : (∃ p ∈ saveBond mol.have_xyz edge, p.fmt = displayFmt) ↔
      (mol.have_xyz = true ∧ (edge.direction = BOND_UP ∨ edge.direction = BOND_DOWN)) := by
    constructor
    · rintro ⟨p, hp, hpf⟩
      have hp2 := hmem p hp (Or.inl hpf)
      rcases hcases with ⟨h1, h2, _⟩ | ⟨_, _, a, b, c, d, hs⟩ | ⟨_, _, hs⟩
      · exact ⟨h1, h2⟩
      · rw [hs, List.mem_singleton] at hp2
        rw [hp2] at hpf
        exact absurd hpf (show circularOrderingFmt ≠ displayFmt by decide)
      · rw [hs] at hp2
        cases hp2
    · intro hd
      rcases hcases with ⟨_, _, st, hs⟩ | ⟨hnd, _⟩ | ⟨hnd, _⟩
      · exact ⟨evDisplay st, hsub _ (by rw [hs]; exact List.mem_singleton.2 rfl), rfl⟩
      · exact absurd hd hnd
      · exact absurd hd hnd
  have hcirc : (∃ q ∈ saveBond mol.have_xyz edge, q.fmt = circularOrderingFmt) ↔
      (mol.have_xyz = false ∧ edge.parity ≠ 0) := by
    constructor
    · rintro ⟨q, hq, hqf⟩
      have hq2 := hmem q hq (Or.inr hqf)
      rcases hcases with ⟨_, _, st, hs⟩ | ⟨_, hc, _⟩ | ⟨_, _, hs⟩
      · rw [hs, List.mem_singleton] at hq2
        rw [hq2] at hqf
        exact absurd hqf (show displayFmt ≠ circularOrderingFmt by decide)
      · exact hc
      · rw [hs] at hq2
        cases hq2
    · intro hc
      rcases hcases with ⟨h1, _, _⟩ | ⟨_, _, a, b, c, d, hs⟩ | ⟨_, hnc, _⟩
      · rw [h1] at hc
        exact absurd hc.1 (by decide)
      · exact ⟨evBondCircularOrdering a b c d,
          hsub _ (by rw [hs]; exact List.mem_singleton.2 rfl), rfl⟩
      · exact absurd hc hnc
  refine ⟨hres, hout, rfl, hord, hup, hdown, hco, hnone, hdisp, hcirc, ?_⟩
  rintro ⟨hp, hq⟩
  have h1 := hdisp.1 hp
  have h2 := hcirc.1 hq
  rw [h1.1] at h2
  exact absurd h2.1 (by decide)

/-- C14 on `wedgeMol` and `butene`: with coordinates the wedge up gets `WedgeBegin`, the
wedge down `WedgedHashBegin` and the plain double bond nothing, so the block of the wedge up
holds a `Display` and no `BondCircularOrdering` and the block of the double bond holds
neither; without coordinates the trans bond of `butene` gets a `BondCircularOrdering` and
its block holds no `Display`. -/
theorem bond_display_or_ordering_witness :
    (∀ b ∈ wedgeMol.atoms, ¬ unsupported b) ∧
    wedgeMol.edges[2]? = some wedgeUpBond ∧
    (wedgeMol.have_xyz = true ∧ wedgeUpBond.direction = BOND_UP) ∧
    bondStereoAttr wedgeMol.have_xyz wedgeUpBond = [evDisplay "WedgeBegin"] ∧
    saveBond wedgeMol.have_xyz wedgeUpBond =
      [⟨bondMarkerFmt, [.d 3, .d 4]⟩, evDisplay "WedgeBegin", ⟨"/>\n", []⟩] ∧
    (∃ p ∈ saveBond wedgeMol.have_xyz wedgeUpBond, p.fmt = displayFmt) ∧
    ¬ (∃ q ∈ saveBond wedgeMol.have_xyz wedgeUpBond, q.fmt = circularOrderingFmt) ∧
    wedgeMol.edges[3]? = some wedgeDownBond ∧
    (wedgeMol.have_xyz = true ∧ wedgeDownBond.direction = BOND_DOWN) ∧
    bondStereoAttr wedgeMol.have_xyz wedgeDownBond = [evDisplay "WedgedHashBegin"] ∧
    wedgeMol.edges[0]? = some doubleBond ∧
    (¬ (wedgeMol.have_xyz = true ∧
        (doubleBond.direction = BOND_UP ∨ doubleBond.direction = BOND_DOWN)) ∧
      ¬ (wedgeMol.have_xyz = false ∧ doubleBond.parity ≠ 0)) ∧
    bondStereoAttr wedgeMol.have_xyz doubleBond = [] ∧
    ¬ (∃ p ∈ saveBond wedgeMol.have_xyz doubleBond, p.fmt = displayFmt) ∧
    ¬ (∃ q ∈ saveBond wedgeMol.have_xyz doubleBond, q.fmt = circularOrderingFmt) ∧
    (∀ b ∈ butene.atoms, ¬ unsupported b) ∧
    butene.edges[1]? = some buteneBond ∧
    (butene.have_xyz = false ∧ buteneBond.parity ≠ 0) ∧
    (∃ c d, bondStereoAttr butene.have_xyz buteneBond =
      [evBondCircularOrdering (buteneBond.subst.s0 + 1) (buteneBond.subst.s1 + 1) c d]) ∧
    (∃ q ∈ saveBond butene.have_xyz buteneBond, q.fmt = circularOrderingFmt) ∧
    ¬ (∃ p ∈ saveBond butene.have_xyz buteneBond, p.fmt = displayFmt) ∧
    ¬ ((∃ p ∈ saveBond butene.have_xyz buteneBond, p.fmt = displayFmt) ∧
      (∃ q ∈ saveBond butene.have_xyz buteneBond, q.fmt = circularOrderingFmt)) :=
  ⟨by decide, rfl, by decide,
    (bond_display_or_ordering new wedgeMol ⟨0, 0⟩ 1 2 wedgeUpBond (by decide) rfl).2.2.2.2.1
      (by decide),
    rfl,
    (bond_display_or_ordering new wedgeMol ⟨0, 0⟩ 1 2 wedgeUpBond
      (by decide) rfl).2.2.2.2.2.2.2.2.1.2 (by decide),
    fun h => absurd
      ((bond_display_or_ordering new wedgeMol ⟨0, 0⟩ 1 2 wedgeUpBond
        (by decide) rfl).2.2.2.2.2.2.2.2.2.1.1 h) (by decide),
    rfl, by decide,
    (bond_display_or_ordering new wedgeMol ⟨0, 0⟩ 1 3 wedgeDownBond (by decide) rfl).2.2.2.2.2.1
      (by decide),
    rfl, by decide,
    (bond_display_or_ordering new wedgeMol ⟨0, 0⟩ 1 0 doubleBond
      (by decide) rfl).2.2.2.2.2.2.2.1 (by decide),
    fun h => absurd
      ((bond_display_or_ordering new wedgeMol ⟨0, 0⟩ 1 0 doubleBond
        (by decide) rfl).2.2.2.2.2.2.2.2.1.1 h) (by decide),
    fun h => absurd
      ((bond_display_or_ordering new wedgeMol ⟨0, 0⟩ 1 0 doubleBond
        (by decide) rfl).2.2.2.2.2.2.2.2.2.1.1 h) (by decide),
    by decide, rfl, by decide,
    (bond_display_or_ordering new butene ⟨0, 0⟩ 1 1 buteneBond (by decide) rfl).2.2.2.2.2.2.1
      (by decide),
    (bond_display_or_ordering new butene ⟨0, 0⟩ 1 1 buteneBond
      (by decide) rfl).2.2.2.2.2.2.2.2.2.1.2 (by decide),
    fun h => absurd
      ((bond_display_or_ordering new butene ⟨0, 0⟩ 1 1 buteneBond
        (by decide) rfl).2.2.2.2.2.2.2.2.1.1 h) (by decide),
    (bond_display_or_ordering new butene ⟨0, 0⟩ 1 1 buteneBond
      (by decide) rfl).2.2.2.2.2.2.2.2.2.2⟩

/-! ## The chirality mark -/

theorem saveAtom_box (scale : ℚ) (hx : Bool) (offset : Vec2f) (i : ℕ) (a : Atom)
    (mn mx : Vec2f) (h : ¬ unsupported a) :
    (saveAtom scale hx offset i a mn mx).res =
      .ok (if i = 0 then ((⟨a.xyz.x, a.xyz.y⟩ : Vec2f).add offset,
          (⟨a.xyz.x, a.xyz.y⟩ : Vec2f).add offset)
        else (mn.min ((⟨a.xyz.x, a.xyz.y⟩ : Vec2f).add offset),
          mx.max ((⟨a.xyz.x, a.xyz.y⟩ : Vec2f).add offset))) := by
  have h1 : ¬ a.isRSite = true := fun hc => h (Or.inl hc)
  have h2 : ¬ a.isPseudoAtom = true := fun hc => h (Or.inr (Or.inl hc))
  have h3 : ¬ (a.radical ≠ 0 ∧ a.radical ≠ RADICAL_DOUBLET ∧ a.radical ≠ RADICAL_SINGLET) :=
    fun hc => h (Or.inr (Or.inr hc))
  unfold saveAtom
  rw [if_neg h1]
  cases hr : radicalAttr a.radical with
  | error e => exact absurd ((radicalAttr_error_iff a.radical).1 ⟨e, hr⟩) h3
  | ok orad =>
    simp only []
    rw [if_neg h2]

theorem coordBox_cons (offset : Vec2f) (i : ℕ) (a : Atom) (rest : List Atom)
    (mn mx : Vec2f) :
    coordBox offset i (a :: rest) mn mx =
      if i = 0 then
        coordBox offset (i + 1) rest ((⟨a.xyz.x, a.xyz.y⟩ : Vec2f).add offset)
          ((⟨a.xyz.x, a.xyz.y⟩ : Vec2f).add offset)
      else
        coordBox offset (i + 1) rest (mn.min ((⟨a.xyz.x, a.xyz.y⟩ : Vec2f).add offset))
          (mx.max ((⟨a.xyz.x, a.xyz.y⟩ : Vec2f).add offset)) := rfl

/-- When no atom is unsupported the atom loop returns the running bounding box. -/
theorem saveAtoms_box (scale : ℚ) (hx : Bool) (offset : Vec2f) (l : List Atom) :
    ∀ (i : ℕ) (mn mx : Vec2f), (∀ b ∈ l, ¬ unsupported b) →
      (saveAtoms scale hx offset i l mn mx).res = .ok (coordBox offset i l mn mx) := by
  induction l with
  | nil => intro i mn mx _; rfl
  | cons a rest ih =>
    intro i mn mx hall
    have ha : ¬ unsupported a := hall a (List.mem_cons_self _ _)
    have hrest : ∀ b ∈ rest, ¬ unsupported b := fun b hb => hall b (List.mem_cons_of_mem _ hb)
    rw [saveAtoms_cons, saveAtom_box scale hx offset i a mn mx ha, coordBox_cons]
    simp only []
    by_cases h0 : i = 0
    · rw [if_pos h0, if_pos h0]
      exact ih _ _ _ hrest
    · rw [if_neg h0, if_neg h0]
      exact ih _ _ _ hrest

/-- For a chiral molecule whose atoms are all supported, the output ends with the chirality
mark and the closing tag: the graphic has its bounding box at the max corner of the
translated atoms times the structure scale and `_bond_length`, with the second coordinate
negated, and the text it holds is placed at that corner times `_bond_length` alone, with
the second coordinate negated. -/
theorem saveMoleculeFragment_chiral (sv : MoleculeCdxmlSaver) (mol : Molecule)
    (offset : Vec2f) (sc : ℚ)
    (hsup : ∀ b ∈ mol.atoms, ¬ unsupported b) (hch : mol.chiral = true) :
    (saveMoleculeFragment sv mol offset sc).out =
      ⟨"<fragment>\n", []⟩ ::
        ((saveAtoms (sc * sv._bond_length) mol.have_xyz offset 0 mol.atoms ⟨0, 0⟩ ⟨0, 0⟩).out ++
          saveBonds mol.have_xyz mol.edges ++
          [evGraphic (sc * sv._bond_length * (coordBox offset 0 mol.atoms ⟨0, 0⟩ ⟨0, 0⟩).2.x)
              (-(sc * sv._bond_length * (coordBox offset 0 mol.atoms ⟨0, 0⟩ ⟨0, 0⟩).2.y)),
           evText (sv._bond_length * (coordBox offset 0 mol.atoms ⟨0, 0⟩ ⟨0, 0⟩).2.x)
              (-(sv._bond_length * (coordBox offset 0 mol.atoms ⟨0, 0⟩ ⟨0, 0⟩).2.y))
              "Center" "Chiral",
           ⟨"</graphic>\n", []⟩] ++
          [⟨"</fragment>\n", []⟩]) := by
  have hbox := saveAtoms_box (sc * sv._bond_length) mol.have_xyz offset mol.atoms 0
    ⟨0, 0⟩ ⟨0, 0⟩ hsup
  rw [saveMoleculeFragment_ok sv mol offset sc _ hbox, hch]
  simp [chiralMark, addText, addText3, evGraphic, evText]

theorem coordBox_chiralMol :
    coordBox ⟨1, 1⟩ 0 chiralMol.atoms ⟨0, 0⟩ ⟨0, 0⟩ = (⟨3, 4⟩, ⟨7, 6⟩) := by
  simp [coordBox, chiralMol, carbonAt, Vec2f.add, Vec2f.min, Vec2f.max]
  norm_num

/-- C15 at a failing input: `chiralMol` with the offset `(1, 1)` and the structure scale 2
on a new saver, whose `_bond_length` is 30. The max corner of the translated atoms is
`(7, 6)` and the scale is 60; the graphic has its bounding box at `(420, -360)`, the point
the specification names, but the `Chiral` text is written at `(210, -180)`. -/
theorem chiral_text_off_bounding_box :
    chiralMol.chiral = true ∧
    chiralMol.atoms.length = 3 ∧
    (coordBox ⟨1, 1⟩ 0 chiralMol.atoms ⟨0, 0⟩ ⟨0, 0⟩).2 = ⟨7, 6⟩ ∧
    (2 : ℚ) * new._bond_length = 60 ∧
    (saveMoleculeFragment new chiralMol ⟨1, 1⟩ 2).out =
      ⟨"<fragment>\n", []⟩ ::
        ((saveAtoms (2 * new._bond_length) chiralMol.have_xyz ⟨1, 1⟩ 0 chiralMol.atoms
            ⟨0, 0⟩ ⟨0, 0⟩).out ++
          saveBonds chiralMol.have_xyz chiralMol.edges ++
          [evGraphic 420 (-360), evText 210 (-180) "Center" "Chiral",
           ⟨"</graphic>\n", []⟩] ++
          [⟨"</fragment>\n", []⟩]) ∧
    evText 420 (-360) "Center" "Chiral" ∉ (saveMoleculeFragment new chiralMol ⟨1, 1⟩ 2).out := by
  have hout := saveMoleculeFragment_chiral new chiralMol ⟨1, 1⟩ 2 (by decide) rfl
  rw [coordBox_chiralMol] at hout
  have hnum : (2 : ℚ) * new._bond_length = 60 := by norm_num [new]
  have hout2 : (saveMoleculeFragment new chiralMol ⟨1, 1⟩ 2).out =
      ⟨"<fragment>\n", []⟩ ::
        ((saveAtoms (2 * new._bond_length) chiralMol.have_xyz ⟨1, 1⟩ 0 chiralMol.atoms
            ⟨0, 0⟩ ⟨0, 0⟩).out ++
          saveBonds chiralMol.have_xyz chiralMol.edges ++
          [evGraphic 420 (-360), evText 210 (-180) "Center" "Chiral",
           ⟨"</graphic>\n", []⟩] ++
          [⟨"</fragment>\n", []⟩]) := by
    rw [hout]
    norm_num [new]
  refine ⟨rfl, rfl, by rw [coordBox_chiralMol], hnum, hout2, ?_⟩
  intro hmem
  have hev := saveMoleculeFragment_events new chiralMol ⟨1, 1⟩ 2
  rw [hout2] at hmem
  simp only [List.mem_cons, List.mem_append, List.mem_singleton, List.not_mem_nil,
    or_false] at hmem
  rcases hmem with h | ((h | h) | h | h | h) | h
  · exact absurd (congrArg Printf.fmt h) (by decide)
  · rcases saveAtoms_events _ _ _ _ _ _ _ _ h with ⟨j, a, _, hpj⟩ | hattr
    · exact absurd (congrArg Printf.fmt hpj)
        (show (evText 420 (-360) "Center" "Chiral").fmt ≠ atomMarkerFmt by decide)
    · exact absurd hattr (by decide)
  · exact absurd (saveBonds_events _ _ _ h) (by decide)
  · exact absurd (congrArg Printf.fmt h) (by decide)
  · have h2 : (420 : ℚ) = 210 := by
      simp only [evText, Printf.mk.injEq, List.cons.injEq, Arg.f.injEq] at h
      exact h.2.1
    norm_num at h2
  · exact absurd (congrArg Printf.fmt h) (by decide)
  · exact absurd (congrArg Printf.fmt h) (by decide)

/-! ## The hydrogen count -/

/-- The call throws exactly when some atom is unsupported. -/
theorem saveMoleculeFragment_error_iff (sv : MoleculeCdxmlSaver) (mol : Molecule)
    (offset : Vec2f) (sc : ℚ) :
    (∃ e, (saveMoleculeFragment sv mol offset sc).res = .error e) ↔
      ∃ b ∈ mol.atoms, unsupported b := by
  constructor
  · rintro ⟨e, he⟩
    by_contra hno
    have hsup : ∀ b ∈ mol.atoms, ¬ unsupported b := fun b hb hu => hno ⟨b, hb, hu⟩
    obtain ⟨box, hfrag⟩ := saveMoleculeFragment_supported sv mol offset sc hsup
    rw [hfrag] at he
    cases he
  · intro hu
    obtain ⟨e, he⟩ :=
      saveAtoms_fails (sc * sv._bond_length) mol.have_xyz offset mol.atoms 0 ⟨0, 0⟩ ⟨0, 0⟩ hu
    exact ⟨e, by rw [saveMoleculeFragment_error sv mol offset sc e he]⟩

/-- C16. The call throws exactly when some atom is an R-site, a pseudoatom or carries an
unsupported radical, whatever `getAtomTotalH` does. For an atom `i` that is reached and
supported, the block of the atom stands in the output, complete, with its hydrogen part
between the radical part and the position part; the hydrogen part is `NumHydrogens` with
the count when the count is to be written, `getAtomTotalH` returns and the count is not
negative, and nothing when the count is not to be written, when `getAtomTotalH` throws or
when the count is negative. -/
theorem hydrogen_count (sv : MoleculeCdxmlSaver) (mol : Molecule) (offset : Vec2f)
    (sc : ℚ) (i : ℕ) (a : Atom)
    (hi : mol.atoms[i]? = some a)
    (hsup : ∀ b ∈ mol.atoms.take (i + 1), ¬ unsupported b) :
    ((∃ e, (saveMoleculeFragment sv mol offset sc).res = .error e) ↔
      ∃ b ∈ mol.atoms, unsupported b) ∧
    (∃ post, (saveMoleculeFragment sv mol offset sc).out =
      ⟨"<fragment>\n", []⟩ ::
        (atomsBefore (sc * sv._bond_length) mol.have_xyz offset i mol ++
          atomBlock (sc * sv._bond_length) mol.have_xyz offset i a ++ post)) ∧
    (∃ orad, radicalAttr a.radical = .ok orad ∧
      atomBlock (sc * sv._bond_length) mol.have_xyz offset i a =
        atomHead i a ++ orad ++ hcountAttr a ++
          positionAttr mol.have_xyz (atomPos (sc * sv._bond_length) offset a) a ++
          atomClose (atomPos (sc * sv._bond_length) offset a) a) ∧
    (∀ h : ℤ, (a.shouldWriteHCount = true ∧ a.totalH = some h ∧ 0 ≤ h) →
      hcountAttr a = [evNumHydrogens h]) ∧
    ((a.shouldWriteHCount = false ∨ a.totalH = none ∨ ∃ h : ℤ, a.totalH = some h ∧ h < 0) →
      hcountAttr a = []) ∧
    (∀ p ∈ atomHead i a, p.fmt ≠ " NumHydrogens=\"%d\"") ∧
    (∀ p ∈ positionAttr mol.have_xyz (atomPos (sc * sv._bond_length) offset a) a,
      p.fmt ≠ " NumHydrogens=\"%d\"") ∧
    (∀ p ∈ atomClose (atomPos (sc * sv._bond_length) offset a) a,
      p.fmt ≠ " NumHydrogens=\"%d\"") := by
  have ha : ¬ unsupported a := hsup a (mem_take_succ_of_getElem mol.atoms i a hi)
  have hpre : ∀ b ∈ mol.atoms.take i, ¬ unsupported b :=
    fun b hb => hsup b (mem_take_succ_of_mem_take mol.atoms i b hb)
  refine ⟨saveMoleculeFragment_error_iff sv mol offset sc,
    saveMoleculeFragment_atom sv mol offset sc i a hi hpre,
    atomBlock_supported (sc * sv._bond_length) mol.have_xyz offset i a ha, ?_, ?_, ?_, ?_, ?_⟩
  · rintro h ⟨h1, h2, h3⟩
    unfold hcountAttr
    rw [if_pos h1, h2]
    simp only []
    rw [if_pos h3]
    rfl
  · intro h
    unfold hcountAttr
    rcases h with h1 | h2 | ⟨h, h2, h3⟩
    · rw [h1]; rfl
    · rw [h2]
      split_ifs
      · rfl
      · rfl
    · rw [h2]
      simp only []
      rw [if_neg (not_le.2 h3)]
      split_ifs <;> rfl
  · intro p hp hfmt
    unfold atomHead at hp
    simp only [List.mem_append, List.mem_singleton] at hp
    rcases hp with (hp | hp) | hp
    · subst hp; simp at hfmt
    · split_ifs at hp
      · rw [List.mem_singleton] at hp; subst hp; simp at hfmt
      · cases hp
    · split_ifs at hp
      · rw [List.mem_singleton] at hp; subst hp; simp at hfmt
      · cases hp
  · intro p hp hfmt
    unfold positionAttr at hp
    simp only [] at hp
    split_ifs at hp
    · rw [List.mem_singleton] at hp; subst hp; simp at hfmt
    · simp only [List.mem_cons, List.mem_singleton, List.not_mem_nil, or_false] at hp
      rcases hp with hp | hp <;> (subst hp; simp at hfmt)
    · cases hp
  · intro p hp hfmt
    have := atomClose_events _ a p hp
    rw [hfmt] at this
    exact absurd this (by decide)

/-- C16 on `hydrogenMol`: for atom 0 `getAtomTotalH` throws, the call still returns and the
atom gets no `NumHydrogens`; atom 1 gets `NumHydrogens` 3. -/
theorem hydrogen_count_witness :
    hydrogenMol.atoms[0]? = some (hydrogenCarbon none) ∧
    (∀ b ∈ hydrogenMol.atoms.take (0 + 1), ¬ unsupported b) ∧
    ((hydrogenCarbon none).shouldWriteHCount = false ∨ (hydrogenCarbon none).totalH = none ∨
      ∃ h : ℤ, (hydrogenCarbon none).totalH = some h ∧ h < 0) ∧
    hcountAttr (hydrogenCarbon none) = [] ∧
    (saveMoleculeFragment new hydrogenMol ⟨0, 0⟩ 1).res = .ok () ∧
    hydrogenMol.atoms[1]? = some (hydrogenCarbon (some 3)) ∧
    (∀ b ∈ hydrogenMol.atoms.take (1 + 1), ¬ unsupported b) ∧
    ((hydrogenCarbon (some 3)).shouldWriteHCount = true ∧
      (hydrogenCarbon (some 3)).totalH = some 3 ∧ (0 : ℤ) ≤ 3) ∧
    hcountAttr (hydrogenCarbon (some 3)) = [evNumHydrogens 3] :=
  ⟨rfl, by decide, Or.inr (Or.inl rfl),
    (hydrogen_count new hydrogenMol ⟨0, 0⟩ 1 0 (hydrogenCarbon none) rfl
      (by decide)).2.2.2.2.1 (Or.inr (Or.inl rfl)),
    rfl, rfl, by decide, ⟨rfl, rfl, by decide⟩,
    (hydrogen_count new hydrogenMol ⟨0, 0⟩ 1 1 (hydrogenCarbon (some 3)) rfl
      (by decide)).2.2.2.1 3 ⟨rfl, rfl, by decide⟩⟩

/-! ## The positions `saveMolecule` writes -/

theorem xyzBox_cons (i : ℕ) (a : Atom) (rest : List Atom) (mn mx : Vec3f) :
    xyzBox i (a :: rest) mn mx =
      if i = 0 then xyzBox (i + 1) rest a.xyz a.xyz
      else xyzBox (i + 1) rest (mn.min a.xyz) (mx.max a.xyz) := rfl

/-- Past atom 0 the loop of `saveMolecule` keeps, in the `x` of the min corner and the `y`
of the max corner, the least `x` and the greatest `y` met so far. -/
theorem xyzBox_running (l : List Atom) :
    ∀ (i : ℕ) (mn mx : Vec3f), i ≠ 0 →
      ((xyzBox i l mn mx).1.x ≤ mn.x ∧ (∀ a ∈ l, (xyzBox i l mn mx).1.x ≤ a.xyz.x) ∧
        ((xyzBox i l mn mx).1.x = mn.x ∨ ∃ a ∈ l, a.xyz.x = (xyzBox i l mn mx).1.x)) ∧
      (mx.y ≤ (xyzBox i l mn mx).2.y ∧ (∀ a ∈ l, a.xyz.y ≤ (xyzBox i l mn mx).2.y) ∧
        ((xyzBox i l mn mx).2.y = mx.y ∨ ∃ a ∈ l, a.xyz.y = (xyzBox i l mn mx).2.y)) := by
  induction l with
  | nil =>
    intro i mn mx _
    exact ⟨⟨le_refl _, fun a ha => absurd ha (List.not_mem_nil a), Or.inl rfl⟩,
      ⟨le_refl _, fun a ha => absurd ha (List.not_mem_nil a), Or.inl rfl⟩⟩
  | cons b rest ih =>
    intro i mn mx hi
    rw [xyzBox_cons, if_neg hi]
    obtain ⟨⟨h1, h2, h3⟩, ⟨k1, k2, k3⟩⟩ := ih (i + 1) (mn.min b.xyz) (mx.max b.xyz)
      (Nat.succ_ne_zero i)
    have hmn : (mn.min b.xyz).x = min mn.x b.xyz.x := rfl
    have hmx : (mx.max b.xyz).y = max mx.y b.xyz.y := rfl
    rw [hmn] at h1 h3
    rw [hmx] at k1 k3
    refine ⟨⟨le_trans h1 (min_le_left _ _), ?_, ?_⟩, ⟨le_trans (le_max_left _ _) k1, ?_, ?_⟩⟩
    · intro a ha
      rcases List.mem_cons.1 ha with h | h
      · rw [h]; exact le_trans h1 (min_le_right _ _)
      · exact h2 a h
    · rcases h3 with h | ⟨a, ha, hEq⟩
      · rcases min_choice mn.x b.xyz.x with hc | hc
        · exact Or.inl (by rw [h, hc])
        · exact Or.inr ⟨b, List.mem_cons_self _ _, by rw [h, hc]⟩
      · exact Or.inr ⟨a, List.mem_cons_of_mem _ ha, hEq⟩
    · intro a ha
      rcases List.mem_cons.1 ha with h | h
      · rw [h]; exact le_trans (le_max_right _ _) k1
      · exact k2 a h
    · rcases k3 with h | ⟨a, ha, hEq⟩
      · rcases max_choice mx.y b.xyz.y with hc | hc
        · exact Or.inl (by rw [h, hc])
        · exact Or.inr ⟨b, List.mem_cons_self _ _, by rw [h, hc]⟩
      · exact Or.inr ⟨a, List.mem_cons_of_mem _ ha, hEq⟩

/-- For a molecule with at least one atom, `minX` is the least `x` and `maxY` the greatest
`y` over the atoms. -/
theorem minX_maxY_spec (mol : Molecule) (hne : mol.atoms ≠ []) :
    (∀ b ∈ mol.atoms, minX mol ≤ b.xyz.x) ∧ (∃ b ∈ mol.atoms, b.xyz.x = minX mol) ∧
    (∀ b ∈ mol.atoms, b.xyz.y ≤ maxY mol) ∧ (∃ b ∈ mol.atoms, b.xyz.y = maxY mol) := by
  unfold minX maxY
  cases hl : mol.atoms with
  | nil => exact absurd hl hne
  | cons a rest =>
    rw [xyzBox_cons, if_pos rfl]
    obtain ⟨⟨h1, h2, h3⟩, ⟨k1, k2, k3⟩⟩ := xyzBox_running rest (0 + 1) a.xyz a.xyz
      (Nat.succ_ne_zero 0)
    refine ⟨?_, ?_, ?_, ?_⟩
    · intro b hb
      rcases List.mem_cons.1 hb with h | h
      · rw [h]; exact h1
      · exact h2 b h
    · rcases h3 with h | ⟨b, hb, hEq⟩
      · exact ⟨a, List.mem_cons_self _ _, h.symm⟩
      · exact ⟨b, List.mem_cons_of_mem _ hb, hEq⟩
    · intro b hb
      rcases List.mem_cons.1 hb with h | h
      · rw [h]; exact k1
      · exact k2 b h
    · rcases k3 with h | ⟨b, hb, hEq⟩
      · exact ⟨a, List.mem_cons_self _ _, h.symm⟩
      · exact ⟨b, List.mem_cons_of_mem _ hb, hEq⟩

theorem saveMoleculeOffset_xyz (mol : Molecule) (hxyz : mol.have_xyz = true) :
    saveMoleculeOffset mol = ⟨-(minX mol - 1), -(maxY mol + 1)⟩ := by
  unfold saveMoleculeOffset minX maxY
  simp only []
  rw [if_pos hxyz]
  rfl

/-- C17. In `saveMolecule` on a molecule with coordinates and a saver whose `_bond_length`
`u` is positive, for an atom `i` at `(x, y, z)` that is reached and supported: `minX` and
`maxY` are the least `x` and the greatest `y` over the atoms; the block of the atom stands
in the output; its position part is the attribute `p` with the values
`u * (x - minX + 1)` and `u * (maxY + 1 - y)`; both are at least `u`, the first is `u` for
an atom of least `x` and the second is `u` for an atom of greatest `y`. -/
theorem saveMolecule_positions (sv : MoleculeCdxmlSaver) (mol : Molecule) (i : ℕ) (a : Atom)
    (hxyz : mol.have_xyz = true)
    (hu : 0 < sv._bond_length)
    (hi : mol.atoms[i]? = some a)
    (hsup : ∀ b ∈ mol.atoms.take (i + 1), ¬ unsupported b) :
    ((∀ b ∈ mol.atoms, minX mol ≤ b.xyz.x) ∧ (∃ b ∈ mol.atoms, b.xyz.x = minX mol) ∧
      (∀ b ∈ mol.atoms, b.xyz.y ≤ maxY mol) ∧ (∃ b ∈ mol.atoms, b.xyz.y = maxY mol)) ∧
    (∃ post, (saveMolecule sv mol).1 =
      documentHead sv ++ [⟨">\n", []⟩] ++ beginPage sv none ++
        ⟨"<fragment>\n", []⟩ ::
          (atomsBefore (1 * sv._bond_length) true (saveMoleculeOffset mol) i mol ++
            atomBlock (1 * sv._bond_length) true (saveMoleculeOffset mol) i a ++ post)) ∧
    (∃ orad, radicalAttr a.radical = .ok orad ∧
      atomBlock (1 * sv._bond_length) true (saveMoleculeOffset mol) i a =
        atomHead i a ++ orad ++ hcountAttr a ++
          positionAttr true (atomPos (1 * sv._bond_length) (saveMoleculeOffset mol) a) a ++
          atomClose (atomPos (1 * sv._bond_length) (saveMoleculeOffset mol) a) a) ∧
    positionAttr true (atomPos (1 * sv._bond_length) (saveMoleculeOffset mol) a) a =
      [evPosition (sv._bond_length * (a.xyz.x - minX mol + 1))
        (sv._bond_length * (maxY mol + 1 - a.xyz.y))] ∧
    sv._bond_length ≤ sv._bond_length * (a.xyz.x - minX mol + 1) ∧
    sv._bond_length ≤ sv._bond_length * (maxY mol + 1 - a.xyz.y) ∧
    (a.xyz.x = minX mol → sv._bond_length * (a.xyz.x - minX mol + 1) = sv._bond_length) ∧
    (a.xyz.y = maxY mol → sv._bond_length * (maxY mol + 1 - a.xyz.y) = sv._bond_length) := by
  have ha : ¬ unsupported a := hsup a (mem_take_succ_of_getElem mol.atoms i a hi)
  have hpre : ∀ b ∈ mol.atoms.take i, ¬ unsupported b :=
    fun b hb => hsup b (mem_take_succ_of_mem_take mol.atoms i b hb)
  have hmem : a ∈ mol.atoms := List.mem_of_mem_take (mem_take_succ_of_getElem mol.atoms i a hi)
  have hne : mol.atoms ≠ [] := List.ne_nil_of_mem hmem
  have hspec := minX_maxY_spec mol hne
  have hx : minX mol ≤ a.xyz.x := hspec.1 a hmem
  have hy : a.xyz.y ≤ maxY mol := hspec.2.2.1 a hmem
  refine ⟨hspec, ?_, ?_, ?_, ?_, ?_, ?_, ?_⟩
  · obtain ⟨rest, _, hout, _⟩ := saveMolecule_out sv mol
    obtain ⟨post, hpost⟩ :=
      saveMoleculeFragment_atom sv mol (saveMoleculeOffset mol) 1 i a hi hpre
    rw [hxyz] at hpost
    refine ⟨post ++ rest, ?_⟩
    rw [hout, hpost]
    simp only [List.append_assoc, List.cons_append]
  · exact atomBlock_supported (1 * sv._bond_length) true (saveMoleculeOffset mol) i a ha
  · rw [saveMoleculeOffset_xyz mol hxyz]
    have h1 : (a.xyz.x + -(minX mol - 1)) * (1 * sv._bond_length) =
        sv._bond_length * (a.xyz.x - minX mol + 1) := by ring
    have h2 : -((a.xyz.y + -(maxY mol + 1)) * (1 * sv._bond_length)) =
        sv._bond_length * (maxY mol + 1 - a.xyz.y) := by ring
    simp only [positionAttr, atomPos, Vec2f.add, Vec2f.scale, evPosition, if_true]
    rw [h1, h2]
  · nlinarith
  · nlinarith
  · intro h
    rw [h]; ring
  · intro h
    rw [h]; ring

theorem minX_methaneMol : minX methaneMol = 2 := by
  simp only [minX, xyzBox, methaneMol, carbonAt, Vec3f.min, Vec3f.max]
  norm_num

theorem maxY_methaneMol : maxY methaneMol = 5 := by
  simp only [maxY, xyzBox, methaneMol, carbonAt, Vec3f.min, Vec3f.max]
  norm_num

/-- C17 on `methaneMol` with a new saver, whose `_bond_length` is 30: the least `x` is 2 and
the greatest `y` is 5; the atom at `(2, 3)` is written at `(30, 90)` and the atom at
`(4, 5)` at `(90, 30)`. -/
theorem saveMolecule_positions_witness :
    methaneMol.have_xyz = true ∧
    (0 : ℚ) < new._bond_length ∧
    methaneMol.atoms[0]? = some (carbonAt 0 2 3) ∧
    (∀ b ∈ methaneMol.atoms.take (0 + 1), ¬ unsupported b) ∧
    positionAttr true (atomPos (1 * new._bond_length) (saveMoleculeOffset methaneMol)
      (carbonAt 0 2 3)) (carbonAt 0 2 3) = [evPosition 30 90] ∧
    methaneMol.atoms[1]? = some (carbonAt 1 4 5) ∧
    (∀ b ∈ methaneMol.atoms.take (1 + 1), ¬ unsupported b) ∧
    positionAttr true (atomPos (1 * new._bond_length) (saveMoleculeOffset methaneMol)
      (carbonAt 1 4 5)) (carbonAt 1 4 5) = [evPosition 90 30] := by
  have hu : (0 : ℚ) < new._bond_length := by norm_num [new]
  refine ⟨rfl, hu, rfl, by decide, ?_, rfl, by decide, ?_⟩
  · rw [(saveMolecule_positions new methaneMol 0 (carbonAt 0 2 3) rfl hu rfl
      (by decide)).2.2.2.1, minX_methaneMol, maxY_methaneMol]
    norm_num [new, carbonAt]
  · rw [(saveMolecule_positions new methaneMol 1 (carbonAt 1 4 5) rfl hu rfl
      (by decide)).2.2.2.1, minX_methaneMol, maxY_methaneMol]
    norm_num [new, carbonAt]

/-! ## The page count of a reachable saver -/

/-- With the page height 16600 of the constructor, a height above it gives at least two
pages. -/
theorem pagesAfter_ge_two (sv : MoleculeCdxmlSaver) (b : Bounds)
    (hmax : max_height sv = 16600) (hgt : height sv b > max_height sv) :
    2 ≤ pagesAfter sv b := by
  unfold pagesAfter
  rw [if_pos hgt, hmax]
  rw [hmax] at hgt
  exact two_le_pageCount _ hgt (height_range sv b).2

theorem max_height_of_fields (sv : MoleculeCdxmlSaver) (h1 : sv._bond_length = 30)
    (h2 : sv._max_page_height = 64) : max_height sv = 16600 := by
  have : max_height sv = max_height new := by
    unfold max_height
    rw [h1, h2]
    rfl
  rw [this, max_height_new]

/-- A reachable saver has the `_bond_length` 30 and the `_max_page_height` 64 of the
constructor and a page count of at least 1. -/
theorem reachable_fields (sv : MoleculeCdxmlSaver) (h : Reachable sv) :
    sv._bond_length = 30 ∧ sv._max_page_height = 64 ∧ 1 ≤ sv._pages_height := by
  induction h with
  | init => exact ⟨rfl, rfl, le_refl _⟩
  | doc s bounds _ ih =>
    cases bounds with
    | none => exact ih
    | some b =>
      obtain ⟨h1, h2, h3⟩ := ih
      refine ⟨h1, h2, ?_⟩
      show 1 ≤ pagesAfter s b
      by_cases hgt : height s b > max_height s
      · have := pagesAfter_ge_two s b (max_height_of_fields s h1 h2) hgt
        omega
      · unfold pagesAfter
        rw [if_neg hgt]
        exact h3
  | mol s m _ ih =>
    rw [(saveMolecule_out s m).choose_spec.2.2]
    exact ih

/-- C18. In every saver reachable from a new one the page count is at least 1, and a
`beginDocument` with bounds that leaves another page count than it found leaves one of at
least 2. -/
theorem page_count_reachable (sv : MoleculeCdxmlSaver) (h : Reachable sv) :
    1 ≤ sv._pages_height ∧
    ∀ b : Bounds, (beginDocument sv (some b)).2._pages_height ≠ sv._pages_height →
      2 ≤ (beginDocument sv (some b)).2._pages_height := by
  obtain ⟨h1, h2, h3⟩ := reachable_fields sv h
  refine ⟨h3, ?_⟩
  intro b hne
  have hne2 : pagesAfter sv b ≠ sv._pages_height := hne
  show 2 ≤ pagesAfter sv b
  by_cases hgt : height sv b > max_height sv
  · exact pagesAfter_ge_two sv b (max_height_of_fields sv h1 h2) hgt
  · exfalso
    apply hne2
    unfold pagesAfter
    rw [if_neg hgt]

/-- C18 on a new saver: its page count is 1, and `beginDocument` with `tallBounds` changes
it to 2. -/
theorem page_count_reachable_witness :
    Reachable new ∧
    1 ≤ new._pages_height ∧
    (beginDocument new (some tallBounds)).2._pages_height ≠ new._pages_height ∧
    2 ≤ (beginDocument new (some tallBounds)).2._pages_height ∧
    (beginDocument new (some tallBounds)).2._pages_height = 2 := by
  have hp : (beginDocument new (some tallBounds)).2._pages_height = 2 := pagesAfter_tallBounds
  have hne : (beginDocument new (some tallBounds)).2._pages_height ≠ new._pages_height := by
    rw [hp]; decide
  exact ⟨Reachable.init, (page_count_reachable new Reachable.init).1, hne,
    (page_count_reachable new Reachable.init).2 tallBounds hne, hp⟩

/-! ## The bounds `beginDocument` reads -/

/-- C19. Two bounds with the same max corner make `beginDocument` write the same calls,
hence the same text for every rendering of `%f`, and leave the same saver, whatever their
min corners. -/
theorem beginDocument_max_corner (sv : MoleculeCdxmlSaver) (b1 b2 : Bounds)
    (h : b1.max = b2.max) :
    beginDocument sv (some b1) = beginDocument sv (some b2) ∧
    (∀ fmtF : ℚ → String,
      Output.text fmtF (beginDocument sv (some b1)).1 =
        Output.text fmtF (beginDocument sv (some b2)).1) ∧
    (beginDocument sv (some b1)).2._pages_height =
      (beginDocument sv (some b2)).2._pages_height := by
  have hh : height sv b1 = height sv b2 := by unfold height y_inch; rw [h]
  have hw : width sv b1 = width sv b2 := by unfold width x_inch; rw [h]
  have hha : heightAfter sv b1 = heightAfter sv b2 := by unfold heightAfter; rw [hh]
  have hpa : pagesAfter sv b1 = pagesAfter sv b2 := by unfold pagesAfter; rw [hh]
  have key : beginDocument sv (some b1) = beginDocument sv (some b2) := by
    unfold beginDocument
    simp only []
    rw [hha, hw, hpa]
  exact ⟨key, fun fmtF => by rw [key], by rw [key]⟩

/-- C19 on `tallBounds` and `tallBoundsShifted`, which share the max corner and differ in
the min corner. -/
theorem beginDocument_max_corner_witness :
    tallBounds.max = tallBoundsShifted.max ∧
    tallBounds.min ≠ tallBoundsShifted.min ∧
    beginDocument new (some tallBounds) = beginDocument new (some tallBoundsShifted) :=
  ⟨rfl, by simp [tallBounds, tallBoundsShifted],
    (beginDocument_max_corner new tallBounds tallBoundsShifted rfl).1⟩

end MoleculeCdxmlSaver

end indigo
